import Mathlib

/-! # go-htemel/spec: attribute model, JSON layer and document scanner

A shallow embedding of `spec.go`, `parser.go` and `html_spec.go`.

Conventions of the embedding.

* JSON text is represented by its parsed value (`Json`): `json.Marshal` produces a
  value, `json.Unmarshal` consumes one. Object members keep their written order,
  duplicate keys included, because the decoder of `encoding/json` processes them in
  that order.
* A Go string is a sequence of bytes, and is a `String` with one character per byte: the
  character whose code point is the byte. A literal of the source that is not ASCII is
  written by its UTF-8 bytes. A character above U+00FF stands for no byte and occurs in no
  value of the program. The text of a JSON string is valid UTF-8: the encoder replaces
  every byte that is not part of a valid encoding (`marshalString`), and so does the
  decoder before a value reaches the program.
* A Go slice is a `List`; a nil slice and an empty slice are both `[]`.
* A Go `map[string]struct{}` is an `Option (Finset String)`; `none` is the nil map.
* A pointer that may be nil is an `Option`.
* A run of `GenerateHTMLSpec` that dereferences a nil pointer ends in
  `Failure.nilDeref`; a returned Go error ends in `Failure.err`.
-/

namespace Htemel

/-! ## JSON values and the decoder of `encoding/json` -/

/-- A parsed JSON value. A number keeps its literal text; a string is its text after
unquoting, as bytes. -/
inductive Json where
  | null
  | bool (b : Bool)
  | num (lit : String)
  | str (s : String)
  | arr (items : List Json)
  | obj (members : List (String × Json))

/-- The errors of `json.Unmarshal` on syntactically valid input: the JSON value does
not fit the Go target (`*json.UnmarshalTypeError`). -/
inductive JsonError where
  | unmarshalType
  deriving DecidableEq, Repr

/-- Whether `l` starts with `pre`. -/
def startsWith : List Char → List Char → Bool
  | _, [] => true
  | [], _ :: _ => false
  | c :: cs, d :: ds => c == d && startsWith cs ds

/-- Case folding of an ASCII byte as `encoding/json` does it for object keys: a lowercase
letter folds to upper case. -/
def foldRune (c : Char) : Char :=
  if 'a' ≤ c ∧ c ≤ 'z' then Char.ofNat (c.toNat - 32)
  else c

/-- The loop of `appendFoldedName` of `encoding/json` over the bytes of a key. A multi-byte
rune is folded to the smallest rune of its case folding orbit; the two runes whose orbit
holds an ASCII letter are U+017F (bytes C5 BF), folded to `S`, and U+212A (bytes E2 84 AA),
folded to `K`. The bytes of every other multi-byte rune are kept: its fold is no ASCII
letter either, and folded keys are only compared with the ASCII names of struct fields.
`skip` is the number of bytes of a folded rune still to be dropped. -/
def appendFoldedName : Nat → List Char → List Char
  | _, [] => []
  | skip + 1, _ :: cs => appendFoldedName skip cs
  | 0, c :: cs =>
    if startsWith (c :: cs) ['\xc5', '\xbf'] then 'S' :: appendFoldedName 1 cs
    else if startsWith (c :: cs) ['\xe2', '\x84', '\xaa'] then 'K' :: appendFoldedName 2 cs
    else foldRune c :: appendFoldedName 0 cs

/-- The folded form of a key (`foldName` of `encoding/json`). -/
def foldName (s : String) : List Char := appendFoldedName 0 s.toList

/-- Whether the object key `key` selects the struct field whose JSON name is `field`:
an exact match or a case-insensitive one. -/
def keyIs (key field : String) : Bool := foldName key == foldName field

/-- Decoding into a Go `string`: `null` leaves the target unchanged. -/
def decodeString (cur : String) : Json → Except JsonError String
  | .null => .ok cur
  | .str s => .ok s
  | _ => .error .unmarshalType

/-- Decoding into a Go `bool`: `null` leaves the target unchanged. -/
def decodeBool (cur : Bool) : Json → Except JsonError Bool
  | .null => .ok cur
  | .bool b => .ok b
  | _ => .error .unmarshalType

/-- Decoding into a Go `struct{}`: an object (all its members are unknown and are
skipped) or `null`. -/
def decodeEmptyStruct : Json → Except JsonError Unit
  | .null => .ok ()
  | .obj _ => .ok ()
  | _ => .error .unmarshalType

/-- The members of a JSON object decoded into an existing `map[string]struct{}`. -/
def decodeSetMembers : Finset String → List (String × Json) → Except JsonError (Finset String)
  | m, [] => .ok m
  | m, (k, v) :: rest =>
    match decodeEmptyStruct v with
    | .error e => .error e
    | .ok _ => decodeSetMembers (insert k m) rest

/-- Decoding into a Go `map[string]struct{}`: `null` sets the map to nil, an object adds
its keys to the map (a nil map is allocated first). -/
def decodeStringSet (cur : Option (Finset String)) : Json → Except JsonError (Option (Finset String))
  | .null => .ok none
  | .obj kvs =>
    match decodeSetMembers (cur.getD ∅) kvs with
    | .error e => .error e
    | .ok m => .ok (some m)
  | _ => .error .unmarshalType

/-- Decoding into a Go `[]json.RawMessage`: `null` sets the slice to nil, whatever it
held; of an array every item is kept as it is written, `null` items included. -/
def decodeRawList (_cur : List Json) : Json → Except JsonError (List Json)
  | .null => .ok []
  | .arr items => .ok items
  | _ => .error .unmarshalType

/-- The members of a JSON object stored, in written order, into a struct whose fields
are set by `setField`. -/
def unmarshalMembers {σ : Type} (setField : σ → String → Json → Except JsonError σ) :
    σ → List (String × Json) → Except JsonError σ
  | s, [] => .ok s
  | s, (k, v) :: rest =>
    match setField s k v with
    | .error e => .error e
    | .ok s1 => unmarshalMembers setField s1 rest

/-- The call `json.Unmarshal(b, &x)` for a struct `x`: `null` is a no-op, an object sets
the fields it names, any other value is a type error. -/
def unmarshalStruct {σ : Type} (setField : σ → String → Json → Except JsonError σ)
    (cur : σ) : Json → Except JsonError σ
  | .null => .ok cur
  | .obj kvs => unmarshalMembers setField cur kvs
  | _ => .error .unmarshalType

/-- The call `json.Unmarshal(b, &a)` for a pointer variable `a` that points to the
struct `cur`: `null` sets `a` to nil, an object fills the struct `a` points to. -/
def unmarshalStructPtr {σ : Type} (setField : σ → String → Json → Except JsonError σ)
    (cur : σ) : Json → Except JsonError (Option σ)
  | .null => .ok none
  | .obj kvs =>
    match unmarshalMembers setField cur kvs with
    | .error e => .error e
    | .ok s => .ok (some s)
  | _ => .error .unmarshalType

/-- Whether a byte lies in the range from `lo` to `hi`. -/
def byteIn (lo hi : Nat) (c : Char) : Bool := decide (lo ≤ c.toNat) && decide (c.toNat ≤ hi)

/-- The number of continuation bytes that a first byte asks for (the table `first` of
`unicode/utf8`): none for an ASCII byte, one to three for the first byte of a longer
encoding; `none` for a byte that starts no encoding (80 to C1 and F5 to FF). -/
def continuationBytes (c : Char) : Option Nat :=
  if c.toNat < 0x80 then some 0
  else if byteIn 0xC2 0xDF c then some 1
  else if byteIn 0xE0 0xEF c then some 2
  else if byteIn 0xF0 0xF4 c then some 3
  else none

/-- Whether `tail` can follow the first byte `c` in a valid encoding (the table
`acceptRanges` of `unicode/utf8`): the second byte lies in the range that `c` accepts, which
excludes overlong forms, surrogates and values above U+10FFFF, and every later byte is a
continuation byte (80 to BF). -/
def acceptsTail (c : Char) : List Char → Bool
  | [] => true
  | c1 :: more =>
    byteIn (if c.toNat = 0xE0 then 0xA0 else if c.toNat = 0xF0 then 0x90 else 0x80)
        (if c.toNat = 0xED then 0x9F else if c.toNat = 0xF4 then 0x8F else 0xBF) c1
      && more.all (byteIn 0x80 0xBF)

/-- The function `utf8.DecodeRuneInString` as far as its width goes: the number of bytes
after the first of the valid encoding that starts the bytes `c :: cs`; `none` when no valid
encoding starts there (the result `RuneError` with width 1). -/
def decodeRuneTail (c : Char) (cs : List Char) : Option Nat :=
  match continuationBytes c with
  | none => none
  | some k => if (cs.take k).length = k ∧ acceptsTail c (cs.take k) = true then some k else none

/-- The loop of `appendString` of `encoding/json` over the bytes of a Go string, as the
text reads after unquoting: the bytes of a valid encoding are written as they are, and
every other byte is written as U+FFFD (bytes EF BF BD). `copy` is the number of bytes of
a valid encoding still to be written. -/
def appendString : Nat → List Char → List Char
  | _, [] => []
  | copy + 1, c :: cs => c :: appendString copy cs
  | 0, c :: cs =>
    match decodeRuneTail c cs with
    | some k => c :: appendString k cs
    | none => '\xef' :: '\xbf' :: '\xbd' :: appendString 0 cs

/-- The text of the JSON string that `json.Marshal` writes for a Go string. -/
def marshalString (s : String) : String := String.mk (appendString 0 s.toList)

/-- The loop of `utf8.ValidString`; `skip` is the number of bytes of a valid encoding still
to be passed over. -/
def validBytes : Nat → List Char → Bool
  | _, [] => true
  | skip + 1, _ :: cs => validBytes skip cs
  | 0, c :: cs =>
    match decodeRuneTail c cs with
    | some k => validBytes k cs
    | none => false

/-- The function `utf8.ValidString`: whether the bytes of a string are valid UTF-8. -/
def utf8_ValidString (s : String) : Bool := validBytes 0 s.toList

/-- A struct field tagged `omitempty` of type `string`. -/
def omitEmptyStr (key : String) (s : String) : List (String × Json) :=
  if s = "" then [] else [(key, .str (marshalString s))]

/-- A struct field tagged `omitempty` of type `bool`. -/
def omitEmptyBool (key : String) (b : Bool) : List (String × Json) :=
  if b then [(key, .bool true)] else []

/-- Encoding of a Go `map[string]struct{}`: `null` for the nil map, otherwise an object
with the keys in sorted order (sorted as Go strings, then written), each with the value
`{}`. -/
def marshalStringSet : Option (Finset String) → Json
  | none => .null
  | some m => .obj ((m.sort (· ≤ ·)).map fun k => (marshalString k, Json.obj []))

/-! ## Attributes (`spec.go`) -/

/-- AttributeTypeString allows for setting string values on an attribute. -/
structure AttributeTypeString where
  Name : String := ""
  Description : String := ""
  deriving DecidableEq

/-- AttributeTypeChar allows for setting a single char or rune value on an attribute. -/
structure AttributeTypeChar where
  Name : String := ""
  Description : String := ""
  deriving DecidableEq

/-- AttributeTypeNumber allows for setting integer values on an attribute. -/
structure AttributeTypeNumber where
  Name : String := ""
  Description : String := ""
  deriving DecidableEq

/-- AttributeTypeFloat allows for setting float values on an attribute. -/
structure AttributeTypeFloat where
  Name : String := ""
  Description : String := ""
  deriving DecidableEq

/-- AttributeTypeBool allows for setting boolean values on an attribute. -/
structure AttributeTypeBool where
  Name : String := ""
  Description : String := ""
  deriving DecidableEq

/-- AttributeTypeEnum allows for setting enumerated values on an attribute. -/
structure AttributeTypeEnum where
  Name : String := ""
  Description : String := ""
  Allowed : Option (Finset String) := none
  AllowCustom : Bool := false
  AllowEmpty : Bool := false
  deriving DecidableEq

/-- AttributeTypeSST allows for setting space-separated tokens values on an attribute. -/
structure AttributeTypeSST where
  Name : String := ""
  Description : String := ""
  deriving DecidableEq

/-- AttributeTypePrefixedCustom provides support for attributes like data-(user defined). -/
structure AttributeTypePrefixedCustom where
  Name : String := ""
  Description : String := ""
  deriving DecidableEq

/-- The eight implementations of the `Attribute` interface. -/
inductive AttrKind where
  | String | Char | Number | Float | Bool | Enum | SST | PrefixedCustom
  deriving DecidableEq, Repr

/-- A value of the interface type `Attribute`: a pointer to one of the eight structs.
`nilPtr k` is the nil pointer of the pointer type of variant `k`, which
`json.Unmarshal` stores when it decodes `null` through a pointer variable. -/
inductive Attribute where
  | str (a : AttributeTypeString)
  | char (a : AttributeTypeChar)
  | number (a : AttributeTypeNumber)
  | float (a : AttributeTypeFloat)
  | bool (a : AttributeTypeBool)
  | enum (a : AttributeTypeEnum)
  | sst (a : AttributeTypeSST)
  | prefixedCustom (a : AttributeTypePrefixedCustom)
  | nilPtr (k : AttrKind)
  deriving DecidableEq

/-- The variant of an attribute value. -/
def Attribute.kind : Attribute → AttrKind
  | .str _ => .String
  | .char _ => .Char
  | .number _ => .Number
  | .float _ => .Float
  | .bool _ => .Bool
  | .enum _ => .Enum
  | .sst _ => .SST
  | .prefixedCustom _ => .PrefixedCustom
  | .nilPtr k => k

def AttributeTypeString.MarshalJSON (a : AttributeTypeString) : Json :=
  .obj ([("name", .str (marshalString a.Name))] ++ omitEmptyStr "description" a.Description
    ++ [("attribute_type", .str "AttributeTypeString")])

def AttributeTypeChar.MarshalJSON (a : AttributeTypeChar) : Json :=
  .obj ([("name", .str (marshalString a.Name))] ++ omitEmptyStr "description" a.Description
    ++ [("attribute_type", .str "AttributeTypeChar")])

def AttributeTypeNumber.MarshalJSON (a : AttributeTypeNumber) : Json :=
  .obj ([("name", .str (marshalString a.Name))] ++ omitEmptyStr "description" a.Description
    ++ [("attribute_type", .str "AttributeTypeNumber")])

def AttributeTypeFloat.MarshalJSON (a : AttributeTypeFloat) : Json :=
  .obj ([("name", .str (marshalString a.Name))] ++ omitEmptyStr "description" a.Description
    ++ [("attribute_type", .str "AttributeTypeFloat")])

def AttributeTypeBool.MarshalJSON (a : AttributeTypeBool) : Json :=
  .obj ([("name", .str (marshalString a.Name))] ++ omitEmptyStr "description" a.Description
    ++ [("attribute_type", .str "AttributeTypeBool")])

def AttributeTypeEnum.MarshalJSON (a : AttributeTypeEnum) : Json :=
  .obj ([("name", .str (marshalString a.Name))] ++ omitEmptyStr "description" a.Description
    ++ [("allowed", marshalStringSet a.Allowed),
        ("allow_empty", .bool a.AllowEmpty),
        ("allow_custom", .bool a.AllowCustom),
        ("attribute_type", .str "AttributeTypeEnum")])

def AttributeTypeSST.MarshalJSON (a : AttributeTypeSST) : Json :=
  .obj ([("name", .str (marshalString a.Name))] ++ omitEmptyStr "description" a.Description
    ++ [("attribute_type", .str "AttributeTypeSST")])

def AttributeTypePrefixedCustom.MarshalJSON (a : AttributeTypePrefixedCustom) : Json :=
  .obj ([("name", .str (marshalString a.Name))] ++ omitEmptyStr "description" a.Description
    ++ [("attribute_type", .str "AttributeTypePrefixedCustom")])

/-- The call `json.Marshal` on a value of the interface type `Attribute`: the
`MarshalJSON` method of the variant, and `null` for a nil pointer. -/
def Attribute.MarshalJSON : Attribute → Json
  | .str a => a.MarshalJSON
  | .char a => a.MarshalJSON
  | .number a => a.MarshalJSON
  | .float a => a.MarshalJSON
  | .bool a => a.MarshalJSON
  | .enum a => a.MarshalJSON
  | .sst a => a.MarshalJSON
  | .prefixedCustom a => a.MarshalJSON
  | .nilPtr _ => .null

/-! ### Decoding of the attribute structs

Every struct is decoded field by field through its JSON names. -/

def AttributeTypeString.setField (a : AttributeTypeString) (key : String) (v : Json) :
    Except JsonError AttributeTypeString :=
  if keyIs key "name" then
    match decodeString a.Name v with
    | .error e => .error e
    | .ok s => .ok { a with Name := s }
  else if keyIs key "description" then
    match decodeString a.Description v with
    | .error e => .error e
    | .ok s => .ok { a with Description := s }
  else .ok a

def AttributeTypeChar.setField (a : AttributeTypeChar) (key : String) (v : Json) :
    Except JsonError AttributeTypeChar :=
  if keyIs key "name" then
    match decodeString a.Name v with
    | .error e => .error e
    | .ok s => .ok { a with Name := s }
  else if keyIs key "description" then
    match decodeString a.Description v with
    | .error e => .error e
    | .ok s => .ok { a with Description := s }
  else .ok a

def AttributeTypeNumber.setField (a : AttributeTypeNumber) (key : String) (v : Json) :
    Except JsonError AttributeTypeNumber :=
  if keyIs key "name" then
    match decodeString a.Name v with
    | .error e => .error e
    | .ok s => .ok { a with Name := s }
  else if keyIs key "description" then
    match decodeString a.Description v with
    | .error e => .error e
    | .ok s => .ok { a with Description := s }
  else .ok a

def AttributeTypeFloat.setField (a : AttributeTypeFloat) (key : String) (v : Json) :
    Except JsonError AttributeTypeFloat :=
  if keyIs key "name" then
    match decodeString a.Name v with
    | .error e => .error e
    | .ok s => .ok { a with Name := s }
  else if keyIs key "description" then
    match decodeString a.Description v with
    | .error e => .error e
    | .ok s => .ok { a with Description := s }
  else .ok a

def AttributeTypeBool.setField (a : AttributeTypeBool) (key : String) (v : Json) :
    Except JsonError AttributeTypeBool :=
  if keyIs key "name" then
    match decodeString a.Name v with
    | .error e => .error e
    | .ok s => .ok { a with Name := s }
  else if keyIs key "description" then
    match decodeString a.Description v with
    | .error e => .error e
    | .ok s => .ok { a with Description := s }
  else .ok a

def AttributeTypeSST.setField (a : AttributeTypeSST) (key : String) (v : Json) :
    Except JsonError AttributeTypeSST :=
  if keyIs key "name" then
    match decodeString a.Name v with
    | .error e => .error e
    | .ok s => .ok { a with Name := s }
  else if keyIs key "description" then
    match decodeString a.Description v with
    | .error e => .error e
    | .ok s => .ok { a with Description := s }
  else .ok a

def AttributeTypePrefixedCustom.setField (a : AttributeTypePrefixedCustom) (key : String) (v : Json) :
    Except JsonError AttributeTypePrefixedCustom :=
  if keyIs key "name" then
    match decodeString a.Name v with
    | .error e => .error e
    | .ok s => .ok { a with Name := s }
  else if keyIs key "description" then
    match decodeString a.Description v with
    | .error e => .error e
    | .ok s => .ok { a with Description := s }
  else .ok a

def AttributeTypeEnum.setField (a : AttributeTypeEnum) (key : String) (v : Json) :
    Except JsonError AttributeTypeEnum :=
  if keyIs key "name" then
    match decodeString a.Name v with
    | .error e => .error e
    | .ok s => .ok { a with Name := s }
  else if keyIs key "description" then
    match decodeString a.Description v with
    | .error e => .error e
    | .ok s => .ok { a with Description := s }
  else if keyIs key "allowed" then
    match decodeStringSet a.Allowed v with
    | .error e => .error e
    | .ok m => .ok { a with Allowed := m }
  else if keyIs key "allow_custom" then
    match decodeBool a.AllowCustom v with
    | .error e => .error e
    | .ok b => .ok { a with AllowCustom := b }
  else if keyIs key "allow_empty" then
    match decodeBool a.AllowEmpty v with
    | .error e => .error e
    | .ok b => .ok { a with AllowEmpty := b }
  else .ok a

/-- The local variable `tmpAttr` of `attrUnmarshal`. It is declared once, before the
loop, so a field that a record does not set keeps the value of an earlier record. -/
structure TmpAttr where
  Name : String := ""
  Description : String := ""
  AttributeType : String := ""
  deriving DecidableEq

def TmpAttr.setField (t : TmpAttr) (key : String) (v : Json) : Except JsonError TmpAttr :=
  if keyIs key "name" then
    match decodeString t.Name v with
    | .error e => .error e
    | .ok s => .ok { t with Name := s }
  else if keyIs key "description" then
    match decodeString t.Description v with
    | .error e => .error e
    | .ok s => .ok { t with Description := s }
  else if keyIs key "attribute_type" then
    match decodeString t.AttributeType v with
    | .error e => .error e
    | .ok s => .ok { t with AttributeType := s }
  else .ok t

/-- One case of the switch in `attrUnmarshal`: `a := &T{}`, `json.Unmarshal(attr, &a)`,
`out = append(out, a)`. The result is what is appended. -/
def decodeCase {σ : Type} (setField : σ → String → Json → Except JsonError σ) (zero : σ)
    (wrap : σ → Attribute) (k : AttrKind) (attr : Json) : Except JsonError (List Attribute) :=
  match unmarshalStructPtr setField zero attr with
  | .error e => .error e
  | .ok (some a) => .ok [wrap a]
  | .ok none => .ok [Attribute.nilPtr k]

/-- The switch of `attrUnmarshal` on `tmpAttr.AttributeType`: the attributes that the
record `attr` appends to `out`. -/
def attrSwitch (attributeType : String) (attr : Json) : Except JsonError (List Attribute) :=
  if attributeType = "AttributeTypeString" then
    decodeCase AttributeTypeString.setField {} Attribute.str .String attr
  else if attributeType = "AttributeType" then
    decodeCase AttributeTypeChar.setField {} Attribute.char .Char attr
  else if attributeType = "AttributeTypeNumber" then
    decodeCase AttributeTypeNumber.setField {} Attribute.number .Number attr
  else if attributeType = "AttributeTypeFloat" then
    decodeCase AttributeTypeFloat.setField {} Attribute.float .Float attr
  else if attributeType = "AttributeTypeBool" then
    decodeCase AttributeTypeBool.setField {} Attribute.bool .Bool attr
  else if attributeType = "AttributeTypeEnum" then
    decodeCase AttributeTypeEnum.setField {} Attribute.enum .Enum attr
  else if attributeType = "AttributeTypeSST" then
    decodeCase AttributeTypeSST.setField {} Attribute.sst .SST attr
  else if attributeType = "AttributeTypePrefixedCustom" then
    decodeCase AttributeTypePrefixedCustom.setField {} Attribute.prefixedCustom .PrefixedCustom attr
  else .ok []

/-- One iteration of the loop of `attrUnmarshal`: the first pass into `tmpAttr`, then
the switch. Returns the new `tmpAttr` and the attributes appended. -/
def attrStep (tmpAttr : TmpAttr) (attr : Json) : Except JsonError (TmpAttr × List Attribute) :=
  match unmarshalStruct TmpAttr.setField tmpAttr attr with
  | .error e => .error e
  | .ok t =>
    match attrSwitch t.AttributeType attr with
    | .error e => .error e
    | .ok as => .ok (t, as)

/-- The loop of `attrUnmarshal` from a given `tmpAttr` and `out`. -/
def attrLoop : TmpAttr → List Attribute → List Json → Except JsonError (List Attribute)
  | _, out, [] => .ok out
  | t, out, attr :: rest =>
    match attrStep t attr with
    | .error e => .error e
    | .ok (t1, as) => attrLoop t1 (out ++ as) rest

def attrUnmarshal (in_ : List Json) : Except JsonError (List Attribute) :=
  attrLoop {} [] in_

/-! ## Elements and the Spec (`spec.go`) -/

/-- Modelled from the spec: the field `Text`, the text-bearing flag that
`GenerateHTMLSpec` assigns (`e.Text = true`) and that the struct declaration in `spec.go`
does not list. The other four fields are that declaration: Element represents an element
in specifications such as HTML or SVG. Both JSON directions name only those four fields. -/
structure Element where
  Tag : String := ""
  Description : String := ""
  Attributes : List Attribute := []
  Void : Bool := false
  Text : Bool := false
  deriving DecidableEq

/-- Spec defines the spec document that all found elements and their attributes are
parsed into. `Elements` is a slice of pointers. -/
structure Spec where
  Name : String := ""
  Elements : List (Option Element) := []
  Attributes : List Attribute := []
  deriving DecidableEq

/-- The local struct `tmp` of `Element.UnmarshalJSON`. -/
structure ElementTmp where
  Tag : String := ""
  Description : String := ""
  Attributes : List Json := []
  Void : Bool := false

def ElementTmp.setField (t : ElementTmp) (key : String) (v : Json) : Except JsonError ElementTmp :=
  if keyIs key "tag" then
    match decodeString t.Tag v with
    | .error e => .error e
    | .ok s => .ok { t with Tag := s }
  else if keyIs key "description" then
    match decodeString t.Description v with
    | .error e => .error e
    | .ok s => .ok { t with Description := s }
  else if keyIs key "attributes" then
    match decodeRawList t.Attributes v with
    | .error e => .error e
    | .ok l => .ok { t with Attributes := l }
  else if keyIs key "void" then
    match decodeBool t.Void v with
    | .error e => .error e
    | .ok b => .ok { t with Void := b }
  else .ok t

/-- UnmarshalJSON handles converting the marshaled json back into an Element struct.
Returns the receiver after the call and the error, if any. -/
def Element.UnmarshalJSON (e : Element) (b : Json) : Element × Option JsonError :=
  match unmarshalStruct ElementTmp.setField {} b with
  | .error err => (e, some err)
  | .ok tmp =>
    let e1 := { e with Tag := tmp.Tag, Description := tmp.Description, Void := tmp.Void }
    match attrUnmarshal tmp.Attributes with
    | .error err => (e1, some err)
    | .ok attrs => ({ e1 with Attributes := attrs }, none)

/-- Decoding of one item of the `elements` array into a `*Element`: `null` is the nil
pointer, any other value goes to `UnmarshalJSON` of a new `Element`. -/
def decodeElementPtr : Json → Except JsonError (Option Element)
  | .null => .ok none
  | j =>
    match Element.UnmarshalJSON {} j with
    | (_, some err) => .error err
    | (e, none) => .ok (some e)

/-- The items of the `elements` array, in order. -/
def decodeElementItems : List Json → Except JsonError (List (Option Element))
  | [] => .ok []
  | j :: rest =>
    match decodeElementPtr j with
    | .error e => .error e
    | .ok x =>
      match decodeElementItems rest with
      | .error e => .error e
      | .ok xs => .ok (x :: xs)

/-- Decoding into a Go `[]*Element`: `null` sets the slice to nil, whatever it held; an
array replaces its content. -/
def decodeElements (_cur : List (Option Element)) : Json → Except JsonError (List (Option Element))
  | .null => .ok []
  | .arr items => decodeElementItems items
  | _ => .error .unmarshalType

/-- The local struct `tmp` of `Spec.UnmarshalJSON`. -/
structure SpecTmp where
  Name : String := ""
  Elements : List (Option Element) := []
  Attributes : List Json := []

def SpecTmp.setField (t : SpecTmp) (key : String) (v : Json) : Except JsonError SpecTmp :=
  if keyIs key "name" then
    match decodeString t.Name v with
    | .error e => .error e
    | .ok s => .ok { t with Name := s }
  else if keyIs key "elements" then
    match decodeElements t.Elements v with
    | .error e => .error e
    | .ok l => .ok { t with Elements := l }
  else if keyIs key "attributes" then
    match decodeRawList t.Attributes v with
    | .error e => .error e
    | .ok l => .ok { t with Attributes := l }
  else .ok t

/-- UnmarshalJSON handles converting the marshaled json back into a Spec struct.
Returns the receiver after the call and the error, if any. -/
def Spec.UnmarshalJSON (sp : Spec) (b : Json) : Spec × Option JsonError :=
  match unmarshalStruct SpecTmp.setField {} b with
  | .error err => (sp, some err)
  | .ok tmp =>
    let sp1 := { sp with Name := tmp.Name, Elements := tmp.Elements }
    match attrUnmarshal tmp.Attributes with
    | .error err => (sp1, some err)
    | .ok attrs => ({ sp1 with Attributes := attrs }, none)

/-- A field tagged `omitempty` of type `[]Attribute`. -/
def omitEmptyAttrs (key : String) (attrs : List Attribute) : List (String × Json) :=
  if attrs.isEmpty then [] else [(key, .arr (attrs.map Attribute.MarshalJSON))]

/-- The call `json.Marshal` on an `Element`, by the tags of its struct declaration. -/
def Element.marshal (e : Element) : Json :=
  .obj ([("tag", .str (marshalString e.Tag))] ++ omitEmptyStr "description" e.Description
    ++ omitEmptyAttrs "attributes" e.Attributes ++ omitEmptyBool "void" e.Void)

/-- The call `json.Marshal` on a `*Element`: `null` for a nil pointer. -/
def marshalElementPtr : Option Element → Json
  | none => .null
  | some e => e.marshal

/-- The call `json.Marshal` on a `Spec`, by the tags of its struct declaration. The
`elements` field has no `omitempty`; the empty list is written as an empty array (Go
writes `null` for a nil slice, which decodes to the same empty list). -/
def Spec.marshal (s : Spec) : Json :=
  .obj ([("name", .str (marshalString s.Name)),
         ("elements", .arr (s.Elements.map marshalElementPtr))]
    ++ omitEmptyAttrs "attributes" s.Attributes)

/-! ## The static attribute tables (`html_spec.go`)

The functions of the Go file take no argument and build the same list at every call;
each is the list it returns. A package-level variable holding a pointer to an
attribute is the attribute it points to (nothing assigns through these pointers). -/

/-- GlobalAttributes are getting hardcoded right now as parsing them is a bit annoying. -/
def GlobalAttributes : List Attribute :=
  [.char {
      Name := "accesskey",
      Description := "The accesskey attribute's value is used by the user agent as a guide for creating a keyboard shortcut that activates or focuses the element." },
   .prefixedCustom {
      Name := "aria",
      Description := "The aria attribute is a custom attribute whose name starts with the string \"aria-\", has at least one character after the hyphen, is a valid attribute local name, and contains no ASCII upper alphas." },
   .enum {
      Name := "autocapitalize",
      Description := "The autocapitalize attribute is an enumerated attribute whose states are the possible autocapitalization hints. The autocapitalization hint specified by the attribute's state combines with other considerations to form the used autocapitalization hint, which informs the behavior of the user agent.",
      Allowed := some {"off", "none", "on", "sentences", "words", "characters"} },
   .enum {
      Name := "autocorrect",
      Description := "The autocorrect attribute can be used on an editing host to control autocorrection behavior for the hosted editable region, on an input or textarea element to control the behavior when inserting text into that element, or on a form element to control the default behavior for all autocapitalize-and-autocorrect inheriting elements associated with the form element.",
      AllowEmpty := true,
      Allowed := some {"on", "off"} },
   .bool {
      Name := "autofocus",
      Description := "The autofocus content attribute allows the author to indicate that an element is to be focused as soon as the page is loaded, allowing the user to just start typing without having to manually focus the main element." },
   .sst {
      Name := "class",
      Description := "When specified on HTML elements, the class attribute must have a value that is a set of space-separated tokens representing the various classes that the element belongs to." },
   .enum {
      Name := "contenteditable",
      Description := "",
      AllowEmpty := true,
      Allowed := some {"true", "false", "plaintext-only"} },
   .prefixedCustom {
      Name := "data",
      Description := "A custom data attribute is an attribute in no namespace whose name starts with the string \"data-\", has at least one character after the hyphen, is a valid attribute local name, and contains no ASCII upper alphas." },
   .enum { Name := "dir", Description := "", Allowed := some {"ltr", "rtl", "auto"} },
   .enum {
      Name := "draggable",
      Description := "All HTML elements may have the draggable content attribute set.",
      Allowed := some {"true", "false"} },
   .enum {
      Name := "enterkeyhint",
      Description := "The enterkeyhint content attribute is an enumerated attribute that specifies what action label (or icon) to present for the enter key on virtual keyboards. This allows authors to customize the presentation of the enter key in order to make it more helpful for users.",
      Allowed := some {"enter", "done", "go", "next", "previous", "search", "send"} },
   .enum {
      Name := "hidden",
      Description := "All HTML elements may have the hidden content attribute set.",
      AllowEmpty := true,
      Allowed := some {"hidden", "until-found"} },
   .str {
      Name := "id",
      Description := "The id attribute specifies its element's unique identifier (ID)." },
   .bool {
      Name := "inert",
      Description := "The inert attribute is a boolean attribute that indicates, by its presence, that the element and all its flat tree descendants which don't otherwise escape inertness (such as modal dialogs) are to be made inert by the user agent." },
   .enum {
      Name := "inputmode",
      Description := "User agents can support the inputmode attribute on form controls (such as the value of textarea elements), or in elements in an editing host (e.g., using contenteditable).",
      Allowed := some {"none", "text", "tel", "url", "email", "numeric", "decimal", "search"} },
   .str {
      Name := "itemid",
      Description := "The itemid attribute, if specified, must have a value that is a valid URL potentially surrounded by spaces." },
   .sst {
      Name := "itemprop",
      Description := "The itemprop attribute, if specified, must have a value that is an unordered set of unique space-separated tokens none of which are identical to another token, representing the names of the name-value pairs that it adds. The attribute's value must have at least one token." },
   .sst {
      Name := "itemref",
      Description := "The itemref attribute, if specified, must have a value that is an unordered set of unique space-separated tokens none of which are identical to another token and consisting of IDs of elements in the same tree." },
   .bool {
      Name := "itemscope",
      Description := "Every HTML element may have an itemscope attribute specified. The itemscope attribute is a boolean attribute." },
   .sst {
      Name := "itemtype",
      Description := "The itemtype attribute, if specified, must have a value that is an unordered set of unique space-separated tokens, none of which are identical to another token and each of which is a valid URL string that is an absolute URL, and all of which are defined to use the same vocabulary. The attribute's value must have at least one token." },
   .str {
      Name := "lang",
      Description := "The lang attribute (in no namespace) specifies the primary language for the element's contents and for any of the element's attributes that contain text. Its value must be a valid BCP 47 language tag, or the empty string. Setting the attribute to the empty string indicates that the primary language is unknown." },
   .str {
      Name := "nonce",
      Description := "A nonce content attribute represents a cryptographic nonce (\"number used once\") which can be used by Content Security Policy to determine whether or not a given fetch will be allowed to proceed. The value is text." },
   .str {
      Name := "popover",
      Description := "All HTML elements may have the popover content attribute set. When specified, the element won't be rendered until it becomes shown, at which point it will be rendered on top of other page content." },
   .str {
      Name := "role",
      Description := "The role attribute, if specified, must have a value that is a valid BCP 47 language tag, or the empty string. The attribute's value must conform to the ARIA in HTML specification." },
   .str {
      Name := "slot",
      Description := "The slot attribute is used to assign a slot to an element: an element with a slot attribute is assigned to the slot created by the slot element whose name attribute's value matches that slot attribute's value \xe2\x80\x94 but only if that slot element finds itself in the shadow tree whose root's host has the corresponding slot attribute value." },
   .enum {
      Name := "spellcheck",
      Description := "User agents can support the checking of spelling and grammar of editable text, either in form controls (such as the value of textarea elements), or in elements in an editing host (e.g. using contenteditable).",
      AllowEmpty := true,
      Allowed := some {"true", "false"} },
   .str {
      Name := "style",
      Description := "All HTML elements may have the style content attribute set. This is a style attribute as defined by CSS Style Attributes." },
   .number {
      Name := "tabindex",
      Description := "The tabindex attribute, if specified, must have a value that is a valid integer. Positive numbers specify the relative position of the element's focusable areas in the sequential focus navigation order, and negative numbers indicate that the control is not sequentially focusable." },
   .str {
      Name := "title",
      Description := "The title attribute represents advisory information for the element, such as would be appropriate for a tooltip. On a link, this could be the title or a description of the target resource; on an image, it could be the image credit or a description of the image; on a paragraph, it could be a footnote or commentary on the text; on a citation, it could be further information about the source; on interactive content, it could be a label for, or instructions for, use of the element; and so forth. The value is text." },
   .enum {
      Name := "translate",
      Description := "The translate attribute is used to specify whether an element's attribute values and the values of its Text node children are to be translated when the page is localized, or whether to leave them unchanged.",
      AllowEmpty := true,
      Allowed := some {"yes", "no"} },
   .enum {
      Name := "writingsuggestions",
      Description := "User agents offer writing suggestions as users type into editable regions, either in form controls (e.g., the textarea element) or in elements in an editing host.",
      AllowEmpty := true,
      Allowed := some {"true", "false"} }]

def fetchPriority : Attribute :=
  .enum {
    Name := "fetchpriority",
    Description := "Sets the priority for fetches initiated by the element",
    Allowed := some {"high", "low", "auto"} }

def referrerPolicy : Attribute :=
  .str {
    Name := "referrerpolicy",
    Description := "Referrer policy for fetches initiated by the element" }

def width : Attribute :=
  .number { Name := "width", Description := "Horizontal dimension" }

def height : Attribute :=
  .number { Name := "height", Description := "Vertical dimension" }

def loading : Attribute :=
  .enum {
    Name := "loading",
    Description := "Used when determining loading deferral",
    Allowed := some {"lazy", "eager"} }

def src : Attribute :=
  .str { Name := "src", Description := "Address of the resource" }

def typ : Attribute :=
  .str { Name := "type", Description := "Type of embedded resource" }

def crossorigin : Attribute :=
  .enum {
    Name := "crossorigin",
    Description := "How the element handles crossorigin requests",
    AllowEmpty := true,
    Allowed := some {"anonymous", "use-credentials"} }

def href : Attribute :=
  .str { Name := "href", Description := "Address of the hyperlink" }

def colspan : Attribute :=
  .number {
    Name := "span",
    Description := "Number of columns spanned by the element where the number is > 0 && <= 1000" }

def rowspan : Attribute :=
  .number {
    Name := "rowspan",
    Description := "Number of rows that the cell is to span where the number is > 0 && <= 65534" }

def headers : Attribute :=
  .sst { Name := "headers", Description := "The header cells for this cell" }

def htmlAttr : List Attribute :=
  []

def headAttr : List Attribute :=
  []

def titleAttr : List Attribute :=
  []

def baseAttr : List Attribute :=
  [.str { Name := "href", Description := "Document base URL" },
   .str {
      Name := "target",
      Description := "Default navigable for hyperlink navigation and form submission" }]

def linkAttr : List Attribute :=
  [href,
   crossorigin,
   .sst {
      Name := "rel",
      Description := "Relationship between the document containing the hyperlink and the destination resource" },
   .str { Name := "media", Description := "Applicable media" },
   .str {
      Name := "integrity",
      Description := "Integrity metadata used in Subresource Integrity checks [SRI]" },
   .str { Name := "hreflang", Description := "Language of the linked resource" },
   .str { Name := "type", Description := "Hint for the type of the referenced resource" },
   referrerPolicy,
   .sst { Name := "sizes", Description := "Sizes of the icons (for rel=\"icon\")" },
   .str {
      Name := "imagesrcset",
      Description := "Images to use in different situations, e.g., high-resolution displays, small monitors, etc. (for rel=\"preload\")" },
   .str {
      Name := "imagesizes",
      Description := "Image sizes for different page layouts (for rel=\"preload\")" },
   .str {
      Name := "as",
      Description := "Potential destination for a preload request (for rel=\"preload\" and rel=\"modulepreload\")" },
   .enum {
      Name := "blocking",
      Description := "Whether the element is potentially render-blocking",
      Allowed := some {"render"} },
   .str {
      Name := "color",
      Description := "Color to use when customizing a site's icon (for rel=\"mask-icon\")" },
   .bool { Name := "disabled", Description := "Whether the link is disabled" },
   fetchPriority]

def metaAttr : List Attribute :=
  [.str { Name := "name", Description := "Metadata name" },
   .enum {
      Name := "http-equiv",
      Description := "Pragma directive",
      Allowed := some {"content-language", "content-type", "default-style", "refresh", "set-cookie", "x-ua-compatible", "content-security-policy"} },
   .str { Name := "content", Description := "Value of the element" },
   .str { Name := "charset", Description := "Character encoding declaration" },
   .str { Name := "media", Description := "Applicable media" }]

def styleAttr : List Attribute :=
  [.str { Name := "media", Description := "Applicable media" },
   .str {
      Name := "blocking",
      Description := "Whether the element is potentially render-blocking" }]

def bodyAttr : List Attribute :=
  let attrs : List String :=
    ["onafterprint",
     "onbeforeprint",
     "onbeforeunload",
     "onhashchange",
     "onlanguagechange",
     "onmessage",
     "onmessageerror",
     "onoffline",
     "ononline",
     "onpageswap",
     "onpagehide",
     "onpagereveal",
     "onpageshow",
     "onpopstate",
     "onrejectionhandled",
     "onstorage",
     "onunhandledrejection",
     "onunload"]
  attrs.map fun attr => Attribute.str { Name := attr }

def blockQuoteAttr : List Attribute :=
  [.str {
      Name := "cite",
      Description := "Content inside a blockquote must be quoted from another source, whose address, if it has one, may be cited in the cite attribute." }]

def olAttr : List Attribute :=
  [.bool { Name := "reversed", Description := "Number the list backwards" },
   .number {
      Name := "start",
      Description := "The start attribute, if present, must be a valid integer. It is used to determine the starting value of the list." },
   .char {
      Name := "type",
      Description := "The type attribute can be used to specify the kind of marker to use in the list, in the cases where that matters (e.g. because items are to be referenced by their number/letter)." }]

def liAttr : List Attribute :=
  [.number {
      Name := "value",
      Description := "If the element is not a child of an ul or menu element: value \xe2\x80\x94 Ordinal value of the list item" }]

def aAttr : List Attribute :=
  [href,
   .str { Name := "target", Description := "Navigable for hyperlink navigation" },
   .bool {
      Name := "download",
      Description := "Whether to download the resource instead of navigating to it, and its filename if so" },
   .sst { Name := "ping", Description := "URLs to ping" },
   .sst {
      Name := "rel",
      Description := "Relationship between the location in the document containing the hyperlink and the destination resource" },
   .str { Name := "hreflang", Description := "Language of the linked resource" },
   .str { Name := "type", Description := "Hint for the type of the referenced resource" },
   referrerPolicy]

def qAttr : List Attribute :=
  [.str {
      Name := "cite",
      Description := "Link to the source of the quotation or more information about the edit" }]

def dataAttr : List Attribute :=
  [.str { Name := "value", Description := "Machine-readable value" }]

def timeAttr : List Attribute :=
  [.str { Name := "datetime", Description := "Machine-readable value" }]

def insDelAttr : List Attribute :=
  [.str {
      Name := "cite",
      Description := "Link to the source of the quotation or more information about the edit" },
   .str { Name := "datetime", Description := "Date and (optionally) time of the change" }]

def sourceAttr : List Attribute :=
  [typ,
   .str { Name := "media", Description := "Applicable media" },
   src,
   .str {
      Name := "srcset",
      Description := "Images to use in different situations, e.g., high-resolution displays, small monitors, etc." },
   .str { Name := "sizes", Description := "Image sizes for different page layouts" },
   width,
   height]

def imgAttr : List Attribute :=
  [.str {
      Name := "alt",
      Description := "Replacement text for use when images are not available" },
   src,
   .str {
      Name := "srcset",
      Description := "Images to use in different situations, e.g., high-resolution displays, small monitors, etc." },
   .str { Name := "sizes", Description := "Image sizes for different page layouts" },
   crossorigin,
   .str { Name := "usemap", Description := "Name of image map to use" },
   .bool { Name := "ismap", Description := "Whether the image is a server-side image map" },
   width,
   height,
   referrerPolicy,
   .enum {
      Name := "decoding",
      Description := "Decoding hint to use when processing this image for presentation",
      Allowed := some {"sync", "async", "auto"} },
   loading,
   fetchPriority]

def iframeAttr : List Attribute :=
  [src,
   .str { Name := "srcdoc", Description := "A document to render in the iframe" },
   .str { Name := "name", Description := "Name of content navigable" },
   .sst { Name := "sandbox", Description := "Security rules for nested content" },
   .str {
      Name := "allow",
      Description := "Permissions policy to be applied to the iframe's contents" },
   .bool {
      Name := "allowfullscreen",
      Description := "Whether to allow the iframe's contents to use requestFullscreen()" },
   width,
   height,
   referrerPolicy,
   loading]

def embedAttr : List Attribute :=
  [src,
   typ,
   width,
   height]

def objectAttr : List Attribute :=
  [.str { Name := "data", Description := "Address of the resource" },
   typ,
   .str { Name := "name", Description := "Name of content navigable" },
   .str { Name := "form", Description := "Associates the element with a form element" },
   width,
   height]

def videoAttr : List Attribute :=
  [src,
   crossorigin,
   .str { Name := "poster", Description := "Poster frame to show prior to video playback" },
   .enum {
      Name := "preload",
      Description := "Hints how much buffering the media resource will likely need",
      AllowEmpty := true,
      Allowed := some {"auto", "none", "metadata"} },
   .bool {
      Name := "autoplay",
      Description := "Hint that the media resource can be started automatically when the page is loaded" },
   .bool {
      Name := "playsinline",
      Description := "Encourage the user agent to display video content within the element's playback area" },
   .bool { Name := "loop", Description := "Whether to loop the media resource" },
   .bool { Name := "muted", Description := "Whether to mute the media resource by default" },
   .bool { Name := "controls", Description := "Show user agent controls" },
   width,
   height]

def audioAttr : List Attribute :=
  [src,
   crossorigin,
   .enum {
      Name := "preload",
      Description := "Hints how much buffering the media resource will likely need",
      AllowEmpty := true,
      Allowed := some {"auto", "none", "metadata"} },
   .bool {
      Name := "autoplay",
      Description := "Hint that the media resource can be started automatically when the page is loaded" },
   .bool {
      Name := "playsinline",
      Description := "Encourage the user agent to display video content within the element's playback area" },
   .bool { Name := "loop", Description := "Whether to loop the media resource" },
   .bool { Name := "muted", Description := "Whether to mute the media resource by default" },
   .bool { Name := "controls", Description := "Show user agent controls" }]

def trackAttr : List Attribute :=
  [.enum {
      Name := "kind",
      Description := "The type of text track",
      Allowed := some {"subtitles", "captions", "descriptions", "chapters", "metadata"} },
   src,
   .str { Name := "srclang", Description := "Language of the text track" },
   .str { Name := "label", Description := "User-visible label" },
   .bool {
      Name := "default",
      Description := "Enable the track if no other text track is more suitable" }]

def mapAttr : List Attribute :=
  [.str {
      Name := "name",
      Description := "Name of image map to reference from the usemap attribute" }]

def areaAttr : List Attribute :=
  [.str {
      Name := "alt",
      Description := "Replacement text for use when images are not available" },
   .str {
      Name := "coords",
      Description := "Coordinates for the shape to be created in an image map" },
   .enum {
      Name := "shape",
      Description := "The kind of shape to be created in an image map",
      Allowed := some {"circle", "default", "poly", "rect"} },
   href,
   .str { Name := "target", Description := "Navigable for hyperlink navigation" },
   .bool {
      Name := "download",
      Description := "Whether to download the resource instead of navigating to it, and its filename if so" },
   .sst { Name := "ping", Description := "URLs to ping" },
   .sst {
      Name := "rel",
      Description := "Relationship between the location in the document containing the hyperlink and the destination resource" },
   referrerPolicy]

def colgroupAttr : List Attribute :=
  [colspan]

def colAttr : List Attribute :=
  [colspan]

def tdAttr : List Attribute :=
  [colspan,
   rowspan,
   headers]

def thAttr : List Attribute :=
  [colspan,
   rowspan,
   headers,
   .str { Name := "scope", Description := "Specifies which cells the header cell applies to" },
   .str {
      Name := "abbr",
      Description := "Alternative label to use for the header cell when referencing the cell in other contexts" }]

def formAttr : List Attribute :=
  [.str {
      Name := "accept-charset",
      Description := "Character encodings to use for form submission" },
   .str { Name := "action", Description := "URL to use for form submission" },
   .enum {
      Name := "autocomplete",
      Description := "Default setting for autofill feature for controls in the form",
      Allowed := some {"on", "off"} },
   .str {
      Name := "enctype",
      Description := "Entry list encoding type to use for form submission" },
   .enum {
      Name := "method",
      Description := "Variant to use for form submission",
      Allowed := some {"get", "post", "dialog"} },
   .str { Name := "name", Description := "Name of form to use in the document.forms API" },
   .bool {
      Name := "novalidate",
      Description := "Bypass form control validation for form submission" },
   .str { Name := "target", Description := "Navigable for form submission" },
   .sst {
      Name := "rel",
      Description := "The rel attribute on form elements controls what kinds of links the elements create." }]

def labelAttr : List Attribute :=
  [.str { Name := "for", Description := "Associate the label with form control" }]

def inputAttr : List Attribute :=
  [.str {
      Name := "accept",
      Description := "Hint for expected file type in file upload controls" },
   .bool { Name := "alpha", Description := "Allow the color's alpha component to be set" },
   .str {
      Name := "alt",
      Description := "Replacement text for use when images are not available" },
   .sst { Name := "autocomplete", Description := "Hint for form autofill feature" },
   .bool { Name := "checked", Description := "Hint for form autofill feature" },
   .enum {
      Name := "colorspace",
      Description := "The color space of the serialized color",
      Allowed := some {"limited-srgb", "display-p3"} },
   .str {
      Name := "dirname",
      Description := "Name of form control to use for sending the element's directionality in form submission" },
   .bool { Name := "disabled", Description := "Whether the form control is disabled" },
   .str { Name := "form", Description := "Associates the element with a form element" },
   .str { Name := "formaction", Description := "URL to use for form submission" },
   .str {
      Name := "formenctype",
      Description := "Entry list encoding type to use for form submission" },
   .enum {
      Name := "formmethod",
      Description := "Variant to use for form submission",
      Allowed := some {"get", "post", "dialog"} },
   .bool {
      Name := "formnovalidate",
      Description := "Bypass form control validation for form submission" },
   .str { Name := "formtarget", Description := "Navigable for form submission" },
   height,
   .str { Name := "list", Description := "List of autocomplete options" },
   .number { Name := "max", Description := "Maximum value" },
   .number { Name := "maxlength", Description := "Maximum length of value" },
   .number { Name := "min", Description := "Minimum value" },
   .number { Name := "minlength", Description := "Minimum length of value" },
   .bool { Name := "multiple", Description := "Whether to allow multiple values" },
   .str {
      Name := "name",
      Description := "Name of the element to use for form submission and in the form.elements API" },
   .str {
      Name := "pattern",
      Description := "Pattern to be matched by the form control's value" },
   .str {
      Name := "placeholder",
      Description := "User-visible label to be placed within the form control" },
   .str {
      Name := "popovertarget",
      Description := "Targets a popover element to toggle, show, or hide" },
   .enum {
      Name := "popovertargetaction",
      Description := "Indicates whether a targeted popover element is to be toggled, shown, or hidden",
      Allowed := some {"toggle", "show", "hide"} },
   .bool {
      Name := "readonly",
      Description := "Whether to allow the value to be edited by the user" },
   .bool {
      Name := "required",
      Description := "Whether the control is required for form submission" },
   .number { Name := "size", Description := "Size of the control" },
   src,
   .str {
      Name := "step",
      Description := "Granularity to be matched by the form control's value" },
   .enum {
      Name := "type",
      Description := "Type of form control",
      Allowed := some {"hidden", "text", "search", "tel", "url", "email", "password", "date", "month", "week", "time", "datetime-local", "number", "range", "color", "checkbox", "radio", "file", "submit", "image", "reset", "button"} },
   .str { Name := "value", Description := "Value of the form control" },
   width]

def buttonAttr : List Attribute :=
  [.enum {
      Name := "command",
      Description := "Indicates to the targeted element which action to take.",
      AllowCustom := true,
      Allowed := some {"toggle-popover", "show-popover", "hide-popover", "close", "request-close", "show-modal"} },
   .str { Name := "commandfor", Description := "Targets another element to be invoked." },
   .bool { Name := "disabled", Description := "Whether the form control is disabled" },
   .str { Name := "form", Description := "Associates the element with a form element" },
   .str { Name := "formaction", Description := "URL to use for form submission" },
   .str {
      Name := "formenctype",
      Description := "Entry list encoding type to use for form submission" },
   .enum {
      Name := "formmethod",
      Description := "Variant to use for form submission",
      Allowed := some {"get", "post", "dialog"} },
   .bool {
      Name := "formnovalidate",
      Description := "Bypass form control validation for form submission" },
   .str { Name := "formtarget", Description := "Navigable for form submission" },
   .str {
      Name := "name",
      Description := "Name of the element to use for form submission and in the form.elements API" },
   .str {
      Name := "popovertarget",
      Description := "Targets a popover element to toggle, show, or hide" },
   .enum {
      Name := "popovertargetaction",
      Description := "Indicates whether a targeted popover element is to be toggled, shown, or hidden",
      Allowed := some {"toggle", "show", "hide"} },
   .enum { Name := "type", Description := "Type of button", Allowed := some {"submit", "reset", "button"} },
   .str { Name := "value", Description := "Value to be used for form submission" }]

def selectAttr : List Attribute :=
  [.str { Name := "autocomplete", Description := "Hint for form autofill feature" },
   .bool { Name := "disabled", Description := "Whether the form control is disabled" },
   .str { Name := "form", Description := "Associates the element with a form element" },
   .bool { Name := "multiple", Description := "Whether to allow multiple values" },
   .str {
      Name := "name",
      Description := "Name of the element to use for form submission and in the form.elements API" },
   .bool {
      Name := "required",
      Description := "Whether the control is required for form submission" },
   .number { Name := "size", Description := "Size of the control" }]

def optgroupAttr : List Attribute :=
  [.bool { Name := "disabled", Description := "Whether the form control is disabled" },
   .str { Name := "label", Description := "User-visible label" }]

def optionAttr : List Attribute :=
  [.bool { Name := "disabled", Description := "Whether the form control is disabled" },
   .str { Name := "label", Description := "User-visible label" },
   .bool { Name := "selected", Description := "Whether the option is selected by default" },
   .str { Name := "value", Description := "Value to be used for form submission" }]

def textareaAttr : List Attribute :=
  [.str { Name := "autocomplete", Description := "Hint for form autofill feature" },
   .number { Name := "cols", Description := "Maximum number of characters per line" },
   .str {
      Name := "dirname",
      Description := "Name of form control to use for sending the element's directionality in form submission" },
   .bool { Name := "disabled", Description := "Whether the form control is disabled" },
   .str { Name := "form", Description := "Associates the element with a form element" },
   .number { Name := "maxlength", Description := "Maximum length of value" },
   .number { Name := "minlength", Description := "Minimum length of value" },
   .str {
      Name := "name",
      Description := "Name of the element to use for form submission and in the form.elements API" },
   .str {
      Name := "placeholder",
      Description := "User-visible label to be placed within the form control" },
   .bool {
      Name := "readonly",
      Description := "Whether to allow the value to be edited by the user" },
   .bool {
      Name := "required",
      Description := "Whether the control is required for form submission" },
   .str { Name := "rows", Description := "Number of lines to show" },
   .enum {
      Name := "wrap",
      Description := "How the value of the form control is to be wrapped for form submission",
      Allowed := some {"soft", "hard"} }]

def outputAttr : List Attribute :=
  [.str {
      Name := "for",
      Description := "Specifies controls from which the output was calculated" },
   .str { Name := "form", Description := "Associates the element with a form element" },
   .str {
      Name := "name",
      Description := "Name of the element to use in the form.elements API." }]

def progressAttr : List Attribute :=
  [.float { Name := "value", Description := "Current value of the element" },
   .float { Name := "max", Description := "Upper bound of range" }]

def meterAttr : List Attribute :=
  [.float { Name := "value", Description := "Current value of the element" },
   .float { Name := "min", Description := "Lower bound of range" },
   .float { Name := "max", Description := "Upper bound of range" },
   .float { Name := "low", Description := "High limit of low range" },
   .float { Name := "high", Description := "Low limit of high range" },
   .float { Name := "optimum", Description := "Optimum value in gauge" }]

def fieldsetAttr : List Attribute :=
  [.bool {
      Name := "disabled",
      Description := "Whether the descendant form controls, except any inside legend, are disabled" },
   .str { Name := "form", Description := "Associates the element with a form element" },
   .str {
      Name := "name",
      Description := "Name of the element to use in the form.elements API." }]

def detailsAttr : List Attribute :=
  [.str {
      Name := "name",
      Description := "Name of group of mutually-exclusive details elements" },
   .bool { Name := "open", Description := "Whether the details are visible" }]

def dialogAttr : List Attribute :=
  [.enum {
      Name := "closedby",
      Description := "Which user actions will close the dialog",
      Allowed := some {"any", "closerequest", "none"} },
   .bool { Name := "open", Description := "Whether the dialog box is showing" }]

def scriptAttr : List Attribute :=
  [.str { Name := "type", Description := "Type of script" },
   src,
   .bool {
      Name := "nomodule",
      Description := "Prevents execution in user agents that support module scripts" },
   .bool {
      Name := "async",
      Description := "Execute script when available, without blocking while fetching" },
   .bool { Name := "defer", Description := "Defer script execution" },
   .enum {
      Name := "blocking",
      Description := "Whether the element is potentially render-blocking",
      Allowed := some {"render"} },
   crossorigin,
   referrerPolicy,
   .str {
      Name := "integrity",
      Description := "Integrity metadata used in Subresource Integrity checks [SRI]" },
   fetchPriority]

def templateAttr : List Attribute :=
  [.enum {
      Name := "shadowrootmode",
      Description := "Enables streaming declarative shadow roots",
      Allowed := some {"open", "closed"} },
   .bool {
      Name := "shadowrootdelegatefocus",
      Description := "Sets delegates focus on a declarative shadow root" },
   .bool {
      Name := "shadowrootclonable",
      Description := "Sets clonable on a declarative shadow root" },
   .bool {
      Name := "shadowrootserializable",
      Description := "Sets serializable on a declarative shadow root" },
   .bool {
      Name := "shadowrootcustomelementregistry",
      Description := "Enables declarative shadow roots to indicate they will use a custom element registry\n" }]

def slotAttr : List Attribute :=
  [.str { Name := "name", Description := "Name of shadow tree slot" }]

def canvasAttr : List Attribute :=
  [width,
   height]

/-- The keys and values of the map `attrFuncs`, in written order. -/
def attrFuncsEntries : List (String × List Attribute) :=
  [("html", htmlAttr),
   ("head", headAttr),
   ("title", titleAttr),
   ("base", baseAttr),
   ("link", linkAttr),
   ("meta", metaAttr),
   ("style", styleAttr),
   ("body", bodyAttr),
   ("blockquote", blockQuoteAttr),
   ("ol", olAttr),
   ("li", liAttr),
   ("a", aAttr),
   ("q", qAttr),
   ("data", dataAttr),
   ("time", timeAttr),
   ("ins", insDelAttr),
   ("del", insDelAttr),
   ("source", sourceAttr),
   ("img", imgAttr),
   ("iframe", iframeAttr),
   ("embed", embedAttr),
   ("object", objectAttr),
   ("video", videoAttr),
   ("audio", audioAttr),
   ("track", trackAttr),
   ("map", mapAttr),
   ("area", areaAttr),
   ("colgroup", colgroupAttr),
   ("col", colAttr),
   ("td", tdAttr),
   ("th", thAttr),
   ("form", formAttr),
   ("label", labelAttr),
   ("input", inputAttr),
   ("button", buttonAttr),
   ("select", selectAttr),
   ("optgroup", optgroupAttr),
   ("option", optionAttr),
   ("textarea", textareaAttr),
   ("output", outputAttr),
   ("progress", progressAttr),
   ("meter", meterAttr),
   ("fieldset", fieldsetAttr),
   ("details", detailsAttr),
   ("dialog", dialogAttr),
   ("script", scriptAttr),
   ("template", templateAttr),
   ("slot", slotAttr),
   ("canvas", canvasAttr)]

/-- The map `attrFuncs`: the static attribute list of a tag, if the tag is a key. -/
def attrFuncs (tag : String) : Option (List Attribute) :=
  attrFuncsEntries.lookup tag

/-! ## The parsed document (`golang.org/x/net/html`) -/

/-- The node types of `html.Node`. -/
inductive NodeType where
  | ErrorNode | TextNode | DocumentNode | ElementNode | CommentNode | DoctypeNode | RawNode
  deriving DecidableEq, Repr

/-- An attribute of a node (`html.Attribute`). -/
structure HtmlAttribute where
  Namespace : String := ""
  Key : String
  Val : String
  deriving DecidableEq

/-- A node of the parsed document with its children in sibling order. For an element
node `Data` is the tag name, for a text node it is the text. -/
inductive Node where
  | mk (Type_ : NodeType) (Data : String) (Attr : List HtmlAttribute) (children : List Node)

def Node.Type_ : Node → NodeType
  | .mk t _ _ _ => t

def Node.Data : Node → String
  | .mk _ d _ _ => d

def Node.Attr : Node → List HtmlAttribute
  | .mk _ _ a _ => a

/-- The sequence `ChildNodes()` of a node. -/
def Node.ChildNodes : Node → List Node
  | .mk _ _ _ cs => cs

/-- The field `FirstChild` of a node; `none` is nil. -/
def Node.FirstChild (n : Node) : Option Node := n.ChildNodes.head?

/-! ## The parser state and the helpers of `parser.go` -/

/-- NameType describes the specification name. -/
abbrev NameType := String

def HTML : NameType := "HTML"

def SVG : NameType := "SVG"

/-- Parser holds the state for document parsing. -/
structure Parser where
  active : Bool := false
  currElement : Option Element := none
  descParsed : Bool := false
  Spec : Spec := {}
  deriving DecidableEq

/-- NewSpecParser returns an instantiated parser for document parsing. -/
def NewSpecParser (name : NameType) : Parser :=
  { Spec := { Name := name } }

/-- Activate enables the parser to begin collecting data for an element. -/
def Parser.Activate (p : Parser) (element : String) : Parser :=
  { p with active := true, currElement := some { Tag := element } }

/-- Reset disables and resets the parsers state to begin parsing for new elements again. -/
def Parser.Reset (p : Parser) : Parser :=
  { p with
    Spec := { p.Spec with Elements := p.Spec.Elements ++ [p.currElement] },
    active := false,
    currElement := none,
    descParsed := false }

mutual
/-- The body of `findTag` for a non-nil node: the node itself if it is an element
named `tag`, otherwise the first hit among its children, searched in order. -/
def findTagNode (doc : Node) (tag : String) : Option Node :=
  match doc with
  | .mk t d _ cs =>
    if t = NodeType.ElementNode ∧ d = tag then some doc else findTagChildren cs tag
/-- The loop of `findTag` over the children of a node. -/
def findTagChildren (cs : List Node) (tag : String) : Option Node :=
  match cs with
  | [] => none
  | child :: rest =>
    match findTagNode child tag with
    | some result => some result
    | none => findTagChildren rest tag
end

/-- The function `findTag`; `none` as argument is the nil node, `none` as result is
`(nil, false)`. -/
def findTag (doc : Option Node) (tag : String) : Option Node :=
  match doc with
  | none => none
  | some n => findTagNode n tag

/-- The function `slices.IndexFunc`: the index of the first item satisfying `f`, or -1. -/
def indexFunc {α : Type} (f : α → Bool) : List α → Int
  | [] => -1
  | a :: as => if f a then 0 else (let i := indexFunc f as; if i = -1 then -1 else i + 1)

def getIDIndex (attrs : List HtmlAttribute) (key value : String) : Int × Bool :=
  let idx := indexFunc (fun attr => attr.Key == key) attrs
  if idx ≠ -1 then
    match attrs.get? idx.toNat with
    | some attr => if attr.Val = value then (idx, true) else (-1, false)
    | none => (-1, false)
  else (-1, false)

def getAttribute : List HtmlAttribute → String → String × Bool
  | [], _ => ("", false)
  | attr :: rest, key => if attr.Key = key then (attr.Val, true) else getAttribute rest key

/-- The function `strings.Contains` on the characters of the two strings. -/
def containsChars : List Char → List Char → Bool
  | [], sub => sub.isEmpty
  | c :: cs, sub => startsWith (c :: cs) sub || containsChars cs sub

/-- The function `strings.Contains`. -/
def strings_Contains (s substr : String) : Bool :=
  containsChars s.toList substr.toList

/-- The call `strings.ReplaceAll(s, old, "")` on characters, for a non-empty `old`:
the occurrences of `old` are removed from left to right without overlap. `skip` is
the number of characters of a found occurrence still to be dropped. -/
def removeAllChars (old : List Char) : Nat → List Char → List Char
  | _, [] => []
  | skip + 1, _ :: cs => removeAllChars old skip cs
  | 0, c :: cs =>
    if startsWith (c :: cs) old then removeAllChars old (old.length - 1) cs
    else c :: removeAllChars old 0 cs

/-- The call `strings.ReplaceAll(s, old, "")` for a non-empty `old`. -/
def strings_RemoveAll (s old : String) : String :=
  String.mk (removeAllChars old.toList 0 s.toList)

/-- The cleaning of the data of a text node in `gatherText`. -/
def cleanText (data : String) : String :=
  strings_RemoveAll (strings_RemoveAll data "\n   ") "\n "

mutual
/-- The function `gatherText` with the builder passed along: the content of the builder
after the call. -/
def gatherTextInto (node : Node) (builder : String) : String :=
  match node with
  | .mk t d _ cs =>
    if t = NodeType.TextNode then builder ++ cleanText d
    else gatherTextChildren cs builder
/-- The loop of `gatherText` over the children of a node. -/
def gatherTextChildren (cs : List Node) (builder : String) : String :=
  match cs with
  | [] => builder
  | child :: rest => gatherTextChildren rest (gatherTextInto child builder)
end

/-- The call `gatherText(node, nil)`: a new builder is used and its content returned. -/
def gatherText (node : Node) : String :=
  gatherTextInto node ""

/-! ## `GenerateHTMLSpec` (`html_spec.go`) -/

/-- The ways a run of `GenerateHTMLSpec` ends without a Spec: a returned error with its
message, or a nil pointer dereference. -/
inductive Failure where
  | err (msg : String)
  | nilDeref
  deriving DecidableEq, Repr

/-- The variables of the scan loop: `start`, `end` and the parser. -/
structure ScanState where
  start : Bool := false
  end_ : Bool := false
  p : Parser
  deriving DecidableEq

/-- The `h2` part of the loop body: a child named `h2` ends a started section, and
starts one if its first `id` attribute is `semantics`. -/
def scanH2 (st : ScanState) (child : Node) : ScanState :=
  if child.Data = "h2" then
    let st1 := if st.start then { st with end_ := true, start := false } else st
    if (getIDIndex child.Attr "id" "semantics").2 then { st1 with start := true } else st1
  else st

/-- The `h4` part of the loop body: a child named `h4` whose `id` contains `the-` and
`-element` and that has a `code` descendant activates the parser with the data of
that descendant's first child. -/
def scanH4 (p : Parser) (child : Node) : Except Failure Parser :=
  if child.Data = "h4" then
    let idOk := getAttribute child.Attr "id"
    if idOk.2 then
      if strings_Contains idOk.1 "the-" && strings_Contains idOk.1 "-element" then
        match findTag (some child) "code" with
        | some tagNode =>
          match tagNode.FirstChild with
          | some first => .ok (p.Activate first.Data)
          | none => .error .nilDeref
        | none => .ok p
      else .ok p
    else .ok p
  else .ok p

/-- The `p` part of the loop body: a child named `p` gives the active element its
description and closes the record. -/
def scanP (p : Parser) (child : Node) : Except Failure Parser :=
  if child.Data = "p" then
    if p.active && !p.descParsed then
      match p.currElement with
      | some e =>
        let p1 := { p with currElement := some { e with Description := gatherText child } }
        let p2 := { p1 with descParsed := true }
        .ok p2.Reset
      | none => .error .nilDeref
    else .ok p
  else .ok p

/-- One iteration of the scan loop. The flag of the result says that the loop is left
(`break`). -/
def scanChild (st : ScanState) (child : Node) : Except Failure (ScanState × Bool) :=
  let st1 := scanH2 st child
  if st1.end_ then .ok (st1, true)
  else if st1.start then
    match scanH4 st1.p child with
    | .error f => .error f
    | .ok p1 =>
      match scanP p1 child with
      | .error f => .error f
      | .ok p2 => .ok ({ st1 with p := p2 }, false)
  else .ok (st1, false)

/-- The scan loop over the children of body. -/
def scanLoop : ScanState → List Node → Except Failure ScanState
  | st, [] => .ok st
  | st, child :: rest =>
    match scanChild st child with
    | .error f => .error f
    | .ok (st1, true) => .ok st1
    | .ok (st1, false) => scanLoop st1 rest

/-- Void Elements. -/
def isVoid : List String :=
  ["area", "base", "br", "col", "embed", "hr", "img", "input", "link", "meta", "source",
   "track", "wbr"]

def disallowText : List String :=
  ["picture", "source", "img", "iframe", "embed", "object", "video", "audio", "track",
   "map", "area", "table", "thead", "tbody", "tfoot", "tr", "head", "ul", "ol", "menu",
   "select", "optgroup", "dl", "ruby", "details", "fieldset", "form", "head", "html"]

/-- The body of the loop over the harvested elements: the static attributes of the tag
are appended and the element is classified. -/
def classify (e : Element) : Element :=
  let e1 :=
    match attrFuncs e.Tag with
    | some fn => { e with Attributes := e.Attributes ++ fn }
    | none => e
  if isVoid.contains e1.Tag then { e1 with Void := true }
  else if !disallowText.contains e1.Tag then { e1 with Text := true }
  else e1

/-- The loop over the harvested elements; a nil entry cannot be dereferenced. -/
def classifyAll : List (Option Element) → Except Failure (List (Option Element))
  | [] => .ok []
  | none :: _ => .error .nilDeref
  | some e :: rest =>
    match classifyAll rest with
    | .error f => .error f
    | .ok es => .ok (some (classify e) :: es)

/-- The function `strconv.Itoa` on a natural number. -/
def strconv_Itoa (i : Nat) : String := toString i

/-- Manually add h2-h6: the elements the last loop of `GenerateHTMLSpec` appends. -/
def headingElements : List (Option Element) :=
  (List.range' 2 5).map fun i =>
    some { Tag := "h" ++ strconv_Itoa i,
           Description := "These elements represent headings for their sections." }

/-- The parser at the start of the scan: `p := NewSpecParser(HTML)` followed by
`p.Spec.Attributes = GlobalAttributes()`. -/
def initialParser : Parser :=
  let p := NewSpecParser HTML
  { p with Spec := { p.Spec with Attributes := GlobalAttributes } }

/-- The two loops of `GenerateHTMLSpec` after the scan, on the Spec of the parser: the
harvested elements are classified, then the heading elements are appended. -/
def finishSpec (sp : Spec) : Except Failure Spec :=
  match classifyAll sp.Elements with
  | .error f => .error f
  | .ok es => .ok { sp with Elements := es ++ headingElements }

/-- The part of `GenerateHTMLSpec` after body has been found, on the children of body. -/
def generateFromBody (children : List Node) : Except Failure Spec :=
  match scanLoop { p := initialParser } children with
  | .error f => .error f
  | .ok st => finishSpec st.p.Spec

/-- The function `GenerateHTMLSpec` on the document tree that `html.Parse` returns. -/
def GenerateHTMLSpec (doc : Node) : Except Failure Spec :=
  match findTag (some doc) "body" with
  | none => .error (.err "could not find body")
  | some body => generateFromBody body.ChildNodes

/-! ## Inputs and values used to state the properties -/

/-- An attribute record as `AttributeTypeEnum.MarshalJSON` writes it, with the keys of
`allowed` in the order of `tokens`. -/
def enumRecord (name description : String) (tokens : List String)
    (allowEmpty allowCustom : Bool) : Json :=
  .obj ([("name", .str name)]
    ++ (if description = "" then [] else [("description", .str description)])
    ++ [("allowed", .obj (tokens.map fun k => (k, Json.obj []))),
        ("allow_empty", .bool allowEmpty),
        ("allow_custom", .bool allowCustom),
        ("attribute_type", .str "AttributeTypeEnum")])

/-- An element node of a document. -/
def elementNode (tag : String) (attrs : List HtmlAttribute) (children : List Node) : Node :=
  .mk .ElementNode tag attrs children

/-- A text node of a document. -/
def textNode (text : String) : Node :=
  .mk .TextNode text [] []

/-- A document as `html.Parse` builds it, with the given children of body. -/
def documentWithBody (children : List Node) : Node :=
  .mk .DocumentNode "" []
    [elementNode "html" [] [elementNode "head" [] [], elementNode "body" [] children]]

/-- The scan loop without its `break`: every child is passed to the loop body. Once
`end` is set the loop body changes neither the parser nor `end`, so the parser at the end
is that of `scanLoop`. -/
def scanAll : ScanState → List Node → Except Failure ScanState
  | st, [] => .ok st
  | st, child :: rest =>
    match scanChild st child with
    | .error f => .error f
    | .ok (st1, _) => scanAll st1 rest

/-- A matching element sub-heading: a child named `h4` whose `id` contains `the-` and
`-element` and that has a `code` descendant. -/
def isElementHeading (child : Node) : Bool :=
  child.Data == "h4" && (getAttribute child.Attr "id").2
    && strings_Contains (getAttribute child.Attr "id").1 "the-"
    && strings_Contains (getAttribute child.Attr "id").1 "-element"
    && (findTag (some child) "code").isSome

/-- The facts that hold of the loop variables before and after every iteration of the
scan loop of `GenerateHTMLSpec`. -/
structure ScanInv (st : ScanState) : Prop where
  descParsed : st.p.descParsed = false
  curr : st.p.active = true → st.p.currElement ≠ none
  elems : ∀ x ∈ st.p.Spec.Elements, x ≠ none
  entered : st.p.active = true → st.start = true ∨ st.end_ = true

/-- The first paragraph of the test document. -/
def testParagraph : Node :=
  elementNode "p" [] [textNode "Good description"]

/-- The document of `TestGenerateHTMLSpec` reduced to the section: the sub-heading has
no `id` attribute, as in the test. -/
def testDocument : Node :=
  documentWithBody
    [elementNode "h2" [{ Key := "id", Val := "semantics" }] [],
     elementNode "h4" [] [elementNode "p" [] [elementNode "code" [] [textNode "tag"]]],
     testParagraph,
     elementNode "h2" [{ Key := "id", Val := "parsing-should-stop" }] []]

/-- The same document with an `id` on the sub-heading that marks an element entry. -/
def testDocumentWithId : Node :=
  documentWithBody
    [elementNode "h2" [{ Key := "id", Val := "semantics" }] [],
     elementNode "h4" [{ Key := "id", Val := "the-tag-element" }]
       [elementNode "p" [] [elementNode "code" [] [textNode "tag"]]],
     testParagraph,
     elementNode "h2" [{ Key := "id", Val := "parsing-should-stop" }] []]

/-- The body element of `testDocumentWithId`. -/
def testBodyWithId : Node :=
  elementNode "body" []
    [elementNode "h2" [{ Key := "id", Val := "semantics" }] [],
     elementNode "h4" [{ Key := "id", Val := "the-tag-element" }]
       [elementNode "p" [] [elementNode "code" [] [textNode "tag"]]],
     testParagraph,
     elementNode "h2" [{ Key := "id", Val := "parsing-should-stop" }] []]

/-- A section with two element sub-headings in a row, then one paragraph. -/
def documentWithTwoHeadings : Node :=
  documentWithBody
    [elementNode "h2" [{ Key := "id", Val := "semantics" }] [],
     elementNode "h4" [{ Key := "id", Val := "the-article-element" }]
       [elementNode "code" [] [textNode "article"]],
     elementNode "h4" [{ Key := "id", Val := "the-section-element" }]
       [elementNode "code" [] [textNode "section"]],
     testParagraph]

/-- The section heading of the test document. -/
def testSectionHeading : Node :=
  elementNode "h2" [{ Key := "id", Val := "semantics" }] []

/-- The element sub-heading of the test document, with an `id` that marks an entry. -/
def testSubHeading : Node :=
  elementNode "h4" [{ Key := "id", Val := "the-tag-element" }]
    [elementNode "p" [] [elementNode "code" [] [textNode "tag"]]]

/-- The second paragraph of the test document. -/
def testExtraParagraph : Node :=
  elementNode "p" [] [textNode "I shouldn't be in output"]

/-- The heading that closes the section in the test document. -/
def testClosingHeading : Node :=
  elementNode "h2" [{ Key := "id", Val := "parsing-should-stop" }] []

/-- The children of body that follow the closing heading in the test document: a
well-formed element entry. -/
def testTail : List Node :=
  [elementNode "h4" [{ Key := "id", Val := "the-badtag-element" }]
     [elementNode "p" [] [elementNode "code" [] [textNode "badtag"]]],
   elementNode "p" [] [textNode "Bad description"]]

/-- A second element sub-heading, for the tag `section`. -/
def sectionSubHeading : Node :=
  elementNode "h4" [{ Key := "id", Val := "the-section-element" }]
    [elementNode "code" [] [textNode "section"]]

/-- A document with a body and no section heading. -/
def documentWithoutSection : Node :=
  documentWithBody
    [elementNode "h2" [{ Key := "id", Val := "skip-me" }] [],
     elementNode "p" [] [textNode "No semantics section here"]]

/-- Two states of the scan loop that agree on everything but the element being
collected (`active` and `currElement`). -/
structure SameButActive (s1 s2 : ScanState) : Prop where
  start : s1.start = s2.start
  end_ : s1.end_ = s2.end_
  descParsed : s1.p.descParsed = s2.p.descParsed
  spec : s1.p.Spec = s2.p.Spec

/-- Two states of the scan loop that are equal, or agree on everything but the element
being collected while the section has been entered. -/
def Converging (s1 s2 : ScanState) : Prop :=
  s1 = s2 ∨ (SameButActive s1 s2 ∧ (s1.end_ = true ∨ s1.start = true))

/-- What the scan loop of `GenerateHTMLSpec` collects: every entry of `Spec.Elements` and
the element being collected carry a tag (and, once appended, a description) and nothing
else. -/
structure HarvestInv (st : ScanState) : Prop where
  elems : ∀ x ∈ st.p.Spec.Elements, ∃ t d, x = some { Tag := t, Description := d }
  curr : ∀ e, st.p.currElement = some e → ∃ t, e = { Tag := t }

/-- An element sub-heading for the tag `img`. -/
def imgSubHeading : Node :=
  elementNode "h4" [{ Key := "id", Val := "the-img-element" }]
    [elementNode "code" [] [textNode "img"]]

/-- An element sub-heading for the tag `p`. -/
def pSubHeading : Node :=
  elementNode "h4" [{ Key := "id", Val := "the-p-element" }]
    [elementNode "code" [] [textNode "p"]]

/-- A section with the entries of `img` and `p`. -/
def documentWithImgAndP : Node :=
  documentWithBody
    [testSectionHeading,
     imgSubHeading, elementNode "p" [] [textNode "An img element represents an image."],
     pSubHeading, elementNode "p" [] [textNode "The p element represents a paragraph."]]

/-- A `code` element whose first child is an element and not a text node. -/
def nestedCode : Node :=
  elementNode "code" [] [elementNode "b" [] [textNode "x"], textNode "y"]

/-- A section whose only entry has the nested `code` element in its sub-heading. -/
def documentWithNestedCode : Node :=
  documentWithBody
    [testSectionHeading,
     elementNode "h4" [{ Key := "id", Val := "the-xy-element" }] [nestedCode],
     testParagraph]

/-- A section whose only sub-heading has a `code` element without children. -/
def documentWithEmptyCode : Node :=
  documentWithBody
    [testSectionHeading,
     elementNode "h4" [{ Key := "id", Val := "the-empty-element" }] [elementNode "code" [] []],
     testParagraph]

/-- The Spec that `GenerateHTMLSpec` returns for `documentWithImgAndP`. -/
def imgAndPSpec : Spec :=
  { Name := "HTML",
    Elements :=
      [some (classify { Tag := "img", Description := "An img element represents an image." }),
       some (classify { Tag := "p", Description := "The p element represents a paragraph." })]
        ++ headingElements,
    Attributes := GlobalAttributes }

/-- The method `GetName` of the interface `Attribute`; none when the receiver is a nil
pointer, which the call dereferences. -/
def Attribute.GetName : Attribute → Option String
  | .str a => some a.Name
  | .char a => some a.Name
  | .number a => some a.Name
  | .float a => some a.Name
  | .bool a => some a.Name
  | .enum a => some a.Name
  | .sst a => some a.Name
  | .prefixedCustom a => some a.Name
  | .nilPtr _ => none

/-- Whether an attribute has a name and the name is not empty. -/
def Attribute.hasName (a : Attribute) : Bool :=
  match a.GetName with
  | some n => n != ""
  | none => false

/-- An element as the scan appends it to `Spec.Elements`: a tag and a description. -/
def scannedElement (td : String × String) : Element :=
  { Tag := td.1, Description := td.2 }

/-- A sub-heading whose `id` marks an element entry and whose `code` element has no
children: `<h4 id="the-hr-element"><code></code> element</h4>`. -/
def childlessCodeSubHeading : Node :=
  elementNode "h4" [{ Key := "id", Val := "the-hr-element" }]
    [elementNode "code" [] [], textNode " element"]

/-- A section whose sub-heading is followed by a text node with the text `h2`, then the
paragraph. -/
def documentWithTextH2 : Node :=
  documentWithBody [testSectionHeading, testSubHeading, textNode "h2", testParagraph]

/-- A section whose sub-heading is followed by a text node with the text `p`, then the
paragraph. -/
def documentWithTextP : Node :=
  documentWithBody [testSectionHeading, testSubHeading, textNode "p", testParagraph]

/-- The section of the two documents above without the text node. -/
def documentWithoutText : Node :=
  documentWithBody [testSectionHeading, testSubHeading, testParagraph]

mutual
/-- Reference (from the specification): the data of every text node in the subtree of a
node, the node itself included, in document (pre-order) order. -/
def textNodeData (n : Node) : List String :=
  match n with
  | .mk t d _ cs => (if t = NodeType.TextNode then [d] else []) ++ textNodeDataOfList cs
/-- Reference (from the specification): the data of the text nodes of a list of sibling
subtrees, in document order. -/
def textNodeDataOfList (cs : List Node) : List String :=
  match cs with
  | [] => []
  | c :: rest => textNodeData c ++ textNodeDataOfList rest
end

mutual
/-- Whether every text node in the subtree of a node is a leaf, as in every tree that
`html.Parse` builds. -/
def textNodesAreLeaves (n : Node) : Bool :=
  match n with
  | .mk t _ _ cs => (t != NodeType.TextNode || cs.isEmpty) && textNodesAreLeavesInList cs
/-- Whether every text node in a list of sibling subtrees is a leaf. -/
def textNodesAreLeavesInList (cs : List Node) : Bool :=
  match cs with
  | [] => true
  | c :: rest => textNodesAreLeaves c && textNodesAreLeavesInList rest
end

/-- The concatenation of a list of strings in order. -/
def concatStrings : List String → String
  | [] => ""
  | s :: rest => s ++ concatStrings rest

/-- Reference (from the specification): an element node with the given tag name. -/
def isElementNamed (name : String) (n : Node) : Bool :=
  n.Type_ == NodeType.ElementNode && n.Data == name

/-- Reference (from the specification): an `h2` whose id is `semantics`. -/
def isSemanticsHeading (n : Node) : Bool :=
  isElementNamed "h2" n && getAttribute n.Attr "id" == ("semantics", true)

/-- Reference (from the specification): the section, the children strictly after the
first `h2` whose id is `semantics` and strictly before the next `h2` (or the end). -/
def sectionChildren (children : List Node) : List Node :=
  ((children.dropWhile fun c => !isSemanticsHeading c).drop 1).takeWhile
    fun c => !isElementNamed "h2" c

/-- Reference (from the specification): a matching element sub-heading, an `h4` whose id
contains `the-` and `-element` and that has a `code` descendant. -/
def isMatchingSubHeading (n : Node) : Bool :=
  n.Type_ == NodeType.ElementNode && isElementHeading n

/-- The tag a matching element sub-heading gives to its record: the data of the first
child of its first `code` descendant (empty when there is none). -/
def subHeadingTag (n : Node) : String :=
  match findTag (some n) "code" with
  | some code =>
    match code.FirstChild with
    | some first => first.Data
    | none => ""
  | none => ""

/-- Reference (from the specification): the harvest of a section, given the tag of the
most recent matching sub-heading that has not got its paragraph yet. Every `p` child that
is the first after a matching sub-heading gives one element, in document order. -/
def referenceHarvestFrom : Option String → List Node → List (String × String)
  | _, [] => []
  | pending, c :: rest =>
    if isMatchingSubHeading c then referenceHarvestFrom (some (subHeadingTag c)) rest
    else if isElementNamed "p" c then
      match pending with
      | some tag => (tag, gatherText c) :: referenceHarvestFrom none rest
      | none => referenceHarvestFrom none rest
    else referenceHarvestFrom pending rest

/-- Reference (from the specification): the tags and descriptions harvested from a list
of body children. -/
def referenceHarvest (children : List Node) : List (String × String) :=
  referenceHarvestFrom none (sectionChildren children)

/-- The tag of the record the parser is collecting, if it is active. -/
def pendingTag (p : Parser) : Option String :=
  if p.active then p.currElement.map (·.Tag) else none

/-- Whether a token is not empty and holds no ASCII uppercase letter. -/
def tokenIsLowercase (tok : String) : Bool :=
  tok != "" && tok.toList.all fun c => !c.isUpper

/-- Whether the allowed set of an attribute, if it is an enumerated attribute with a
non-nil set, holds lowercase tokens only. -/
def Attribute.allowedIsLowercase : Attribute → Bool
  | .enum a =>
    match a.Allowed with
    | some s => decide (∀ tok ∈ s, tokenIsLowercase tok = true)
    | none => true
  | _ => true

/-- The package-level attributes that several tables share. -/
def sharedAttributes : List Attribute :=
  [fetchPriority, referrerPolicy, width, height, loading, src, typ, crossorigin, href,
   colspan, rowspan, headers]

mutual
/-- Reference (from the specification): the nodes of a tree in depth-first pre-order, the
root first. -/
def preorder (n : Node) : List Node :=
  match n with
  | .mk t d a cs => Node.mk t d a cs :: preorderOfList cs
/-- Reference (from the specification): the nodes of a list of sibling subtrees in
depth-first pre-order. -/
def preorderOfList (cs : List Node) : List Node :=
  match cs with
  | [] => []
  | c :: rest => preorder c ++ preorderOfList rest
end

/-- Reference (from the specification): the first node in depth-first pre-order that is an
element node with the given name; none for a nil root. -/
def firstElementNamed (root : Option Node) (tag : String) : Option Node :=
  match root with
  | none => none
  | some n => (preorder n).find? (isElementNamed tag)

/-- A call of one of the two methods that change a parser. -/
inductive ParserCall where
  | Activate (element : String)
  | Reset

/-- The parser after a sequence of calls of `Activate` and `Reset`. -/
def runCalls : Parser → List ParserCall → Parser
  | p, [] => p
  | p, .Activate element :: rest => runCalls (p.Activate element) rest
  | p, .Reset :: rest => runCalls p.Reset rest

/-- The number of `Reset` calls in a sequence. -/
def countResets : List ParserCall → Nat
  | [] => 0
  | .Activate _ :: rest => countResets rest
  | .Reset :: rest => countResets rest + 1

/-- Whether every `Reset` of a sequence comes after an `Activate` with no other `Reset`
in between, given whether the parser is active at the start. `GenerateHTMLSpec` calls
`Reset` only so. -/
def resetsFollowActivate : Bool → List ParserCall → Bool
  | _, [] => true
  | _, .Activate _ :: rest => resetsFollowActivate true rest
  | active, .Reset :: rest => active && resetsFollowActivate false rest

/-- The keys of a JSON object in written order; any other value has no keys. -/
def Json.keys : Json → List String
  | .obj members => members.map Prod.fst
  | _ => []

/-- The value of the first member of a JSON object with the given key. -/
def Json.field (j : Json) (key : String) : Option Json :=
  match j with
  | .obj members => members.lookup key
  | _ => none

/-- The discriminator of a variant as the specification names it: the identifier of the
variant's Go type. -/
def discriminatorName : AttrKind → String
  | .String => "AttributeTypeString"
  | .Char => "AttributeTypeChar"
  | .Number => "AttributeTypeNumber"
  | .Float => "AttributeTypeFloat"
  | .Bool => "AttributeTypeBool"
  | .Enum => "AttributeTypeEnum"
  | .SST => "AttributeTypeSST"
  | .PrefixedCustom => "AttributeTypePrefixedCustom"

/-- The field `Description` of the struct an attribute points to; none for a nil
pointer. -/
def Attribute.descriptionField : Attribute → Option String
  | .str a => some a.Description
  | .char a => some a.Description
  | .number a => some a.Description
  | .float a => some a.Description
  | .bool a => some a.Description
  | .enum a => some a.Description
  | .sst a => some a.Description
  | .prefixedCustom a => some a.Description
  | .nilPtr _ => none

/-- The value of `tmpAttr` after the first pass over an encoded attribute. -/
def tmpAfter (t : TmpAttr) (name description attributeType : String) : TmpAttr :=
  { Name := name,
    Description := if description = "" then t.Description else description,
    AttributeType := attributeType }

/-- An attribute as it is read back from its own record: every string is the text the
encoder writes for it, and the allowed set holds the written keys. -/
def Attribute.written : Attribute → Attribute
  | .str a =>
    .str { Name := marshalString a.Name, Description := marshalString a.Description }
  | .char a =>
    .char { Name := marshalString a.Name, Description := marshalString a.Description }
  | .number a =>
    .number { Name := marshalString a.Name, Description := marshalString a.Description }
  | .float a =>
    .float { Name := marshalString a.Name, Description := marshalString a.Description }
  | .bool a =>
    .bool { Name := marshalString a.Name, Description := marshalString a.Description }
  | .enum a =>
    .enum { Name := marshalString a.Name, Description := marshalString a.Description,
            Allowed := a.Allowed.map (Finset.image marshalString),
            AllowCustom := a.AllowCustom, AllowEmpty := a.AllowEmpty }
  | .sst a =>
    .sst { Name := marshalString a.Name, Description := marshalString a.Description }
  | .prefixedCustom a =>
    .prefixedCustom { Name := marshalString a.Name,
                      Description := marshalString a.Description }
  | .nilPtr k => .nilPtr k

/-- What the switch of `attrUnmarshal` appends for a `null` record when the discriminator
held by `tmpAttr` is `ty`: a typed nil pointer for a known case label, nothing
otherwise. -/
def nilOfType (ty : String) : List Attribute :=
  match attrSwitch ty Json.null with
  | .ok as => as
  | .error _ => []

/-- One attribute through encoding and one iteration of the decoding loop, when
`tmpAttr` holds the discriminator `ty`: the discriminator held afterwards and the
attributes appended. A nil pointer is written as `null`, which leaves the discriminator;
a Char attribute is written with a discriminator that no case label matches; an attribute
of another variant is read back with its strings as written. -/
def roundTripStep (ty : String) : Attribute → String × List Attribute
  | .nilPtr _ => (ty, nilOfType ty)
  | .char _ => ("AttributeTypeChar", [])
  | .str a => ("AttributeTypeString", [(Attribute.str a).written])
  | .number a => ("AttributeTypeNumber", [(Attribute.number a).written])
  | .float a => ("AttributeTypeFloat", [(Attribute.float a).written])
  | .bool a => ("AttributeTypeBool", [(Attribute.bool a).written])
  | .enum a => ("AttributeTypeEnum", [(Attribute.enum a).written])
  | .sst a => ("AttributeTypeSST", [(Attribute.sst a).written])
  | .prefixedCustom a => ("AttributeTypePrefixedCustom", [(Attribute.prefixedCustom a).written])

/-- The attribute list that the decoding loop yields on the encoding of a list, when
`tmpAttr` holds the discriminator `ty` at the start. -/
def roundTripAttrs : String → List Attribute → List Attribute
  | _, [] => []
  | ty, a :: rest => (roundTripStep ty a).2 ++ roundTripAttrs (roundTripStep ty a).1 rest

/-- The element that decoding into a new `Element` yields on the encoding of `e`. -/
def roundTripElement (e : Element) : Element :=
  { Tag := marshalString e.Tag, Description := marshalString e.Description,
    Attributes := roundTripAttrs "" e.Attributes, Void := e.Void, Text := false }

/-- The Spec that `UnmarshalJSON` yields on the encoding of `s`. -/
def roundTripSpec (s : Spec) : Spec :=
  { Name := marshalString s.Name, Elements := s.Elements.map (Option.map roundTripElement),
    Attributes := roundTripAttrs "" s.Attributes }

/-- Whether the tag of every element of a Spec is valid UTF-8. -/
def validTags (s : Spec) : Bool :=
  s.Elements.all fun x =>
    match x with
    | some e => utf8_ValidString e.Tag
    | none => true

/-- A Spec with two elements and a nil entry between them. -/
def roundTripSample : Spec :=
  { Name := "HTML",
    Elements := [some { Tag := "img", Void := true }, none,
                 some { Tag := "p", Description := "The p element represents a paragraph." }],
    Attributes := [] }

/-! # Theorems -/

/-! ## Lemmas on the JSON layer -/

theorem appendString_eq_nil (k : Nat) (l : List Char) : appendString k l = [] ↔ l = [] := by
  cases l with
  | nil => simp [appendString]
  | cons c cs =>
    cases k with
    | succ k => simp [appendString]
    | zero =>
      cases hd : decodeRuneTail c cs <;> simp [appendString, hd]

/-- The encoder writes the empty text for the empty string only. -/
theorem marshalString_eq_empty (s : String) : marshalString s = "" ↔ s = "" := by
  cases s with
  | mk l =>
    have h := appendString_eq_nil 0 l
    constructor
    · intro hs
      have : appendString 0 l = [] := by
        have := congrArg String.data hs
        simpa [marshalString] using this
      rw [h.mp this]
    · intro hs
      have : l = [] := by
        have := congrArg String.data hs
        simpa using this
      subst this; rfl

theorem appendString_of_valid (l : List Char) (k : Nat) (h : validBytes k l = true) :
    appendString k l = l := by
  induction l generalizing k with
  | nil => cases k <;> rfl
  | cons c cs ih =>
    cases k with
    | succ k =>
      simp only [validBytes] at h
      simp only [appendString, ih k h]
    | zero =>
      simp only [validBytes] at h
      simp only [appendString]
      cases hd : decodeRuneTail c cs with
      | none => simp [hd] at h
      | some k =>
        simp only [hd] at h
        simp only [ih k h]

theorem appendString_copy (pre post : List Char) :
    appendString pre.length (pre ++ post) = pre ++ appendString 0 post := by
  induction pre with
  | nil => rfl
  | cons c cs ih =>
    show c :: appendString cs.length (cs ++ post) = c :: (cs ++ appendString 0 post)
    rw [ih]

theorem validBytes_skip (pre post : List Char) :
    validBytes pre.length (pre ++ post) = validBytes 0 post := by
  induction pre with
  | nil => rfl
  | cons c cs ih =>
    show validBytes cs.length (cs ++ post) = validBytes 0 post
    exact ih

/-- A valid encoding is recognised from its own bytes, whatever follows them. -/
theorem decodeRuneTail_take (c : Char) (cs : List Char) (k : Nat)
    (h : decodeRuneTail c cs = some k) :
    (cs.take k).length = k ∧ ∀ post, decodeRuneTail c (cs.take k ++ post) = some k := by
  unfold decodeRuneTail at h
  cases hc : continuationBytes c with
  | none => simp [hc] at h
  | some n =>
    simp only [hc] at h
    split at h
    · rename_i hn
      injection h with h
      subst h
      refine ⟨hn.1, fun post => ?_⟩
      unfold decodeRuneTail
      simp only [hc]
      have : (cs.take n ++ post).take n = cs.take n := by
        rw [List.take_append_of_le_length (by rw [hn.1])]
        rw [List.take_take, Nat.min_self]
      rw [this, if_pos hn]
    · cases h

theorem appendString_valid (n : Nat) : ∀ l : List Char, l.length ≤ n →
    validBytes 0 (appendString 0 l) = true := by
  induction n with
  | zero =>
    intro l hl
    have : l = [] := List.length_eq_zero.mp (Nat.le_zero.mp hl)
    subst this; rfl
  | succ n ih =>
    intro l hl
    cases l with
    | nil => rfl
    | cons c cs =>
      simp only [appendString]
      cases hd : decodeRuneTail c cs with
      | none =>
        simp only []
        have h3 : decodeRuneTail '\xef' ('\xbf' :: '\xbd' :: appendString 0 cs) = some 2 := by
          simp [decodeRuneTail, continuationBytes, byteIn, acceptsTail]
        simp only [validBytes, h3]
        exact ih cs (by simpa using hl)
      | some k =>
        simp only []
        obtain ⟨hk, hpost⟩ := decodeRuneTail_take c cs k hd
        have hsplit : cs = cs.take k ++ cs.drop k := (List.take_append_drop k cs).symm
        have hcopy : appendString k cs = cs.take k ++ appendString 0 (cs.drop k) := by
          conv_lhs => rw [hsplit]
          have := appendString_copy (cs.take k) (cs.drop k)
          rw [hk] at this
          exact this
        rw [hcopy]
        simp only [validBytes, hpost]
        have := validBytes_skip (cs.take k) (appendString 0 (cs.drop k))
        rw [hk] at this
        rw [this]
        apply ih
        simp only [List.length_drop]
        simp only [List.length_cons] at hl
        omega

theorem appendString_idem (l : List Char) :
    appendString 0 (appendString 0 l) = appendString 0 l :=
  appendString_of_valid _ 0 (appendString_valid l.length l (le_refl _))

/-- The text the encoder writes is valid UTF-8. -/
theorem marshalString_valid (s : String) : utf8_ValidString (marshalString s) = true :=
  appendString_valid _ _ (le_refl _)

/-- The encoder writes its own text as it is. -/
theorem marshalString_idem (s : String) : marshalString (marshalString s) = marshalString s := by
  show String.mk (appendString 0 (appendString 0 s.toList)) = String.mk (appendString 0 s.toList)
  rw [appendString_idem]

/-- The encoder writes a string that is valid UTF-8 as it is. -/
theorem marshalString_of_valid (s : String) (h : utf8_ValidString s = true) :
    marshalString s = s := by
  cases s with
  | mk l =>
    show String.mk (appendString 0 l) = String.mk l
    rw [appendString_of_valid l 0 h]

/-- The encoder on sample strings: ASCII text and a valid three-byte encoding are written
as they are; the byte FF, a first byte without its continuation byte, and the bytes of an
encoded surrogate are written as U+FFFD, once for each byte. -/
theorem marshalString_samples :
    marshalString "tag" = "tag" ∧
    marshalString "value \xe2\x80\x94 Ordinal" = "value \xe2\x80\x94 Ordinal" ∧
    marshalString "\xff" = "\xef\xbf\xbd" ∧
    marshalString "a\xc2" = "a\xef\xbf\xbd" ∧
    marshalString "\xed\xa0\x80" = "\xef\xbf\xbd\xef\xbf\xbd\xef\xbf\xbd" ∧
    utf8_ValidString "value \xe2\x80\x94 Ordinal" = true ∧
    utf8_ValidString "\xed\xa0\x80" = false := by
  decide

/-- Object keys on sample strings: a key selects a field whatever the case of its letters,
also when it is written with U+017F for `s` or U+212A for `k`. -/
theorem keyIs_samples :
    keyIs "name" "name" = true ∧
    keyIs "NaMe" "name" = true ∧
    keyIs "element\xc5\xbf" "elements" = true ∧
    keyIs "\xe2\x84\xaaey" "key" = true ∧
    keyIs "names" "name" = false ∧
    keyIs "n\xc3\xa4me" "name" = false := by
  decide

theorem decodeSetMembers_map (l : List String) (m : Finset String) :
    decodeSetMembers m (l.map fun k => (k, Json.obj [])) = .ok (m ∪ l.toFinset) := by
  induction l generalizing m with
  | nil => simp [decodeSetMembers]
  | cons k ks ih =>
    simp only [List.map_cons, decodeSetMembers, decodeEmptyStruct, ih, List.toFinset_cons]
    congr 1
    ext x
    simp only [Finset.mem_union, Finset.mem_insert, List.mem_toFinset]
    tauto

theorem decodeStringSet_marshalStringSet (m : Option (Finset String)) :
    decodeStringSet none (marshalStringSet m) = .ok (m.map (Finset.image marshalString)) := by
  cases m with
  | none => rfl
  | some s =>
    have hmap : ((s.sort (· ≤ ·)).map fun k => (marshalString k, Json.obj []))
        = ((s.sort (· ≤ ·)).map marshalString).map fun k => (k, Json.obj []) := by
      rw [List.map_map]; rfl
    simp only [marshalStringSet, decodeStringSet, hmap, decodeSetMembers_map, Option.getD_none,
      Option.map_some', Finset.empty_union]
    congr 2
    ext x
    simp only [List.mem_toFinset, List.mem_map, Finset.mem_sort, Finset.mem_image]

theorem attrStep_str (t : TmpAttr) (a : AttributeTypeString) :
    attrStep t a.MarshalJSON
      = .ok (tmpAfter t (marshalString a.Name) (marshalString a.Description)
          "AttributeTypeString", [(Attribute.str a).written]) := by
  by_cases hd : a.Description = "" <;>
  simp +decide [attrStep, AttributeTypeString.MarshalJSON, omitEmptyStr, unmarshalStruct,
    unmarshalMembers, TmpAttr.setField, decodeString, hd, attrSwitch, decodeCase,
    unmarshalStructPtr, AttributeTypeString.setField, tmpAfter, Attribute.written,
    marshalString_eq_empty]

theorem attrStep_number (t : TmpAttr) (a : AttributeTypeNumber) :
    attrStep t a.MarshalJSON
      = .ok (tmpAfter t (marshalString a.Name) (marshalString a.Description)
          "AttributeTypeNumber", [(Attribute.number a).written]) := by
  by_cases hd : a.Description = "" <;>
  simp +decide [attrStep, AttributeTypeNumber.MarshalJSON, omitEmptyStr, unmarshalStruct,
    unmarshalMembers, TmpAttr.setField, decodeString, hd, attrSwitch, decodeCase,
    unmarshalStructPtr, AttributeTypeNumber.setField, tmpAfter, Attribute.written,
    marshalString_eq_empty]

theorem attrStep_float (t : TmpAttr) (a : AttributeTypeFloat) :
    attrStep t a.MarshalJSON
      = .ok (tmpAfter t (marshalString a.Name) (marshalString a.Description)
          "AttributeTypeFloat", [(Attribute.float a).written]) := by
  by_cases hd : a.Description = "" <;>
  simp +decide [attrStep, AttributeTypeFloat.MarshalJSON, omitEmptyStr, unmarshalStruct,
    unmarshalMembers, TmpAttr.setField, decodeString, hd, attrSwitch, decodeCase,
    unmarshalStructPtr, AttributeTypeFloat.setField, tmpAfter, Attribute.written,
    marshalString_eq_empty]

theorem attrStep_bool (t : TmpAttr) (a : AttributeTypeBool) :
    attrStep t a.MarshalJSON
      = .ok (tmpAfter t (marshalString a.Name) (marshalString a.Description)
          "AttributeTypeBool", [(Attribute.bool a).written]) := by
  by_cases hd : a.Description = "" <;>
  simp +decide [attrStep, AttributeTypeBool.MarshalJSON, omitEmptyStr, unmarshalStruct,
    unmarshalMembers, TmpAttr.setField, decodeString, hd, attrSwitch, decodeCase,
    unmarshalStructPtr, AttributeTypeBool.setField, tmpAfter, Attribute.written,
    marshalString_eq_empty]

theorem attrStep_sst (t : TmpAttr) (a : AttributeTypeSST) :
    attrStep t a.MarshalJSON
      = .ok (tmpAfter t (marshalString a.Name) (marshalString a.Description)
          "AttributeTypeSST", [(Attribute.sst a).written]) := by
  by_cases hd : a.Description = "" <;>
  simp +decide [attrStep, AttributeTypeSST.MarshalJSON, omitEmptyStr, unmarshalStruct,
    unmarshalMembers, TmpAttr.setField, decodeString, hd, attrSwitch, decodeCase,
    unmarshalStructPtr, AttributeTypeSST.setField, tmpAfter, Attribute.written,
    marshalString_eq_empty]

theorem attrStep_prefixedCustom (t : TmpAttr) (a : AttributeTypePrefixedCustom) :
    attrStep t a.MarshalJSON
      = .ok (tmpAfter t (marshalString a.Name) (marshalString a.Description)
          "AttributeTypePrefixedCustom", [(Attribute.prefixedCustom a).written]) := by
  by_cases hd : a.Description = "" <;>
  simp +decide [attrStep, AttributeTypePrefixedCustom.MarshalJSON, omitEmptyStr, unmarshalStruct,
    unmarshalMembers, TmpAttr.setField, decodeString, hd, attrSwitch, decodeCase,
    unmarshalStructPtr, AttributeTypePrefixedCustom.setField, tmpAfter, Attribute.written,
    marshalString_eq_empty]

theorem attrStep_enum (t : TmpAttr) (a : AttributeTypeEnum) :
    attrStep t a.MarshalJSON
      = .ok (tmpAfter t (marshalString a.Name) (marshalString a.Description)
          "AttributeTypeEnum", [(Attribute.enum a).written]) := by
  by_cases hd : a.Description = "" <;>
  simp +decide [attrStep, AttributeTypeEnum.MarshalJSON, omitEmptyStr, unmarshalStruct,
    unmarshalMembers, TmpAttr.setField, decodeString, hd, attrSwitch, decodeCase,
    unmarshalStructPtr, AttributeTypeEnum.setField, decodeStringSet_marshalStringSet,
    decodeBool, tmpAfter, Attribute.written, marshalString_eq_empty]

theorem attrStep_char (t : TmpAttr) (a : AttributeTypeChar) :
    attrStep t a.MarshalJSON
      = .ok (tmpAfter t (marshalString a.Name) (marshalString a.Description)
          "AttributeTypeChar", []) := by
  by_cases hd : a.Description = "" <;>
  simp +decide [attrStep, AttributeTypeChar.MarshalJSON, omitEmptyStr, unmarshalStruct,
    unmarshalMembers, TmpAttr.setField, decodeString, hd, attrSwitch, tmpAfter,
    marshalString_eq_empty]

theorem attrSwitch_null_ok (ty : String) : ∃ as, attrSwitch ty Json.null = .ok as := by
  unfold attrSwitch
  repeat' split
  all_goals simp [decodeCase, unmarshalStructPtr]

theorem attrStep_null (t : TmpAttr) :
    ∃ as, attrStep t Json.null = .ok (t, as) := by
  obtain ⟨as, h⟩ := attrSwitch_null_ok t.AttributeType
  exact ⟨as, by simp [attrStep, unmarshalStruct, h]⟩

/-- Every encoded attribute passes one iteration of the decoding loop. -/
theorem attrStep_marshal_ok (t : TmpAttr) (a : Attribute) :
    ∃ t1 as, attrStep t a.MarshalJSON = .ok (t1, as) := by
  cases a with
  | str a => exact ⟨_, _, attrStep_str t a⟩
  | char a => exact ⟨_, _, attrStep_char t a⟩
  | number a => exact ⟨_, _, attrStep_number t a⟩
  | float a => exact ⟨_, _, attrStep_float t a⟩
  | bool a => exact ⟨_, _, attrStep_bool t a⟩
  | enum a => exact ⟨_, _, attrStep_enum t a⟩
  | sst a => exact ⟨_, _, attrStep_sst t a⟩
  | prefixedCustom a => exact ⟨_, _, attrStep_prefixedCustom t a⟩
  | nilPtr k =>
    obtain ⟨as, h⟩ := attrStep_null t
    exact ⟨t, as, h⟩

theorem attrLoop_marshal_ok (attrs : List Attribute) (t : TmpAttr) (out : List Attribute) :
    ∃ res, attrLoop t out (attrs.map Attribute.MarshalJSON) = .ok res := by
  induction attrs generalizing t out with
  | nil => exact ⟨out, rfl⟩
  | cons a rest ih =>
    obtain ⟨t1, as, h⟩ := attrStep_marshal_ok t a
    obtain ⟨res, hres⟩ := ih t1 (out ++ as)
    exact ⟨res, by simp [attrLoop, h, hres]⟩

theorem attrUnmarshal_marshal_ok (attrs : List Attribute) :
    ∃ res, attrUnmarshal (attrs.map Attribute.MarshalJSON) = .ok res :=
  attrLoop_marshal_ok attrs {} []

theorem attrUnmarshal_singleton (j : Json) (t1 : TmpAttr) (as : List Attribute)
    (h : attrStep {} j = .ok (t1, as)) : attrUnmarshal [j] = .ok as := by
  simp [attrUnmarshal, attrLoop, h]

/-- Encoding then decoding one attribute of a variant other than Char gives the
attribute back, with its strings as the encoder writes them. -/
theorem attrUnmarshal_MarshalJSON_of_not_char (a : Attribute)
    (hc : a.kind ≠ AttrKind.Char) (hn : ∀ k, a ≠ Attribute.nilPtr k) :
    attrUnmarshal [a.MarshalJSON] = .ok [a.written] := by
  cases a with
  | str a => exact attrUnmarshal_singleton _ _ _ (attrStep_str _ a)
  | char a => exact absurd rfl hc
  | number a => exact attrUnmarshal_singleton _ _ _ (attrStep_number _ a)
  | float a => exact attrUnmarshal_singleton _ _ _ (attrStep_float _ a)
  | bool a => exact attrUnmarshal_singleton _ _ _ (attrStep_bool _ a)
  | enum a => exact attrUnmarshal_singleton _ _ _ (attrStep_enum _ a)
  | sst a => exact attrUnmarshal_singleton _ _ _ (attrStep_sst _ a)
  | prefixedCustom a => exact attrUnmarshal_singleton _ _ _ (attrStep_prefixedCustom _ a)
  | nilPtr k => exact absurd rfl (hn k)

theorem unmarshalStruct_ElementTmp_marshal (e : Element) :
    unmarshalStruct ElementTmp.setField {} e.marshal
      = .ok { Tag := marshalString e.Tag, Description := marshalString e.Description,
              Attributes := e.Attributes.map Attribute.MarshalJSON, Void := e.Void } := by
  have hattrs : e.Attributes.isEmpty = true → e.Attributes = [] := by
    cases e.Attributes <;> simp
  by_cases hd : e.Description = "" <;> by_cases ha : e.Attributes.isEmpty = true <;>
    by_cases hv : e.Void = true <;>
  simp +decide [Element.marshal, omitEmptyStr, omitEmptyAttrs, omitEmptyBool, unmarshalStruct,
    unmarshalMembers, ElementTmp.setField, decodeString, decodeRawList, decodeBool, hd, ha, hv,
    hattrs]

/-! ## The round trip as a normalisation -/

theorem nilOfType_cases (ty : String) :
    nilOfType ty = [] ∨ ∃ k, nilOfType ty = [Attribute.nilPtr k] := by
  have h : ∃ as, attrSwitch ty Json.null = .ok as ∧
      (as = [] ∨ ∃ k, as = [Attribute.nilPtr k]) := by
    unfold attrSwitch
    repeat' split
    all_goals simp [decodeCase, unmarshalStructPtr]
  obtain ⟨as, h1, h2⟩ := h
  simpa [nilOfType, h1] using h2

theorem roundTripAttrs_cons (ty : String) (a : Attribute) (rest : List Attribute) :
    roundTripAttrs ty (a :: rest)
      = (roundTripStep ty a).2 ++ roundTripAttrs (roundTripStep ty a).1 rest := rfl

theorem attrStep_null_eq (t : TmpAttr) :
    attrStep t Json.null = .ok (t, nilOfType t.AttributeType) := by
  obtain ⟨as, h⟩ := attrSwitch_null_ok t.AttributeType
  simp [attrStep, unmarshalStruct, nilOfType, h]

theorem attrStep_roundTrip (t : TmpAttr) (a : Attribute) :
    ∃ t1, attrStep t a.MarshalJSON = .ok (t1, (roundTripStep t.AttributeType a).2) ∧
      t1.AttributeType = (roundTripStep t.AttributeType a).1 := by
  cases a with
  | str a => exact ⟨_, attrStep_str t a, rfl⟩
  | char a => exact ⟨_, attrStep_char t a, rfl⟩
  | number a => exact ⟨_, attrStep_number t a, rfl⟩
  | float a => exact ⟨_, attrStep_float t a, rfl⟩
  | bool a => exact ⟨_, attrStep_bool t a, rfl⟩
  | enum a => exact ⟨_, attrStep_enum t a, rfl⟩
  | sst a => exact ⟨_, attrStep_sst t a, rfl⟩
  | prefixedCustom a => exact ⟨_, attrStep_prefixedCustom t a, rfl⟩
  | nilPtr k => exact ⟨t, attrStep_null_eq t, rfl⟩

theorem attrLoop_roundTrip (attrs : List Attribute) (t : TmpAttr) (out : List Attribute) :
    attrLoop t out (attrs.map Attribute.MarshalJSON)
      = .ok (out ++ roundTripAttrs t.AttributeType attrs) := by
  induction attrs generalizing t out with
  | nil => simp [attrLoop, roundTripAttrs]
  | cons a rest ih =>
    obtain ⟨t1, h1, h2⟩ := attrStep_roundTrip t a
    simp only [List.map_cons, attrLoop, h1, ih, h2, roundTripAttrs_cons, List.append_assoc]

theorem attrUnmarshal_roundTrip (attrs : List Attribute) :
    attrUnmarshal (attrs.map Attribute.MarshalJSON) = .ok (roundTripAttrs "" attrs) := by
  simp [attrUnmarshal, attrLoop_roundTrip]

theorem image_marshalString_idem (m : Finset String) :
    (m.image marshalString).image marshalString = m.image marshalString := by
  rw [Finset.image_image]
  congr 1
  funext x
  exact marshalString_idem x

theorem Attribute.written_idem (a : Attribute) : a.written.written = a.written := by
  cases a with
  | enum a =>
    cases ha : a.Allowed <;>
      simp [Attribute.written, marshalString_idem, ha, image_marshalString_idem]
  | _ => simp [Attribute.written, marshalString_idem]

theorem roundTripStep_written (ty : String) (a : Attribute)
    (hc : a.kind ≠ AttrKind.Char) (hn : ∀ k, a ≠ Attribute.nilPtr k) :
    roundTripStep ty a = (discriminatorName a.kind, [a.written]) ∧
    roundTripStep ty a.written = (discriminatorName a.kind, [a.written]) := by
  cases a with
  | char a => exact absurd rfl hc
  | nilPtr k => exact absurd rfl (hn k)
  | enum a =>
    refine ⟨rfl, ?_⟩
    have := Attribute.written_idem (Attribute.enum a)
    simp only [Attribute.written] at this ⊢
    simp only [roundTripStep, Attribute.written, Attribute.kind, discriminatorName, this]
  | _ =>
    refine ⟨rfl, ?_⟩
    simp [roundTripStep, Attribute.written, Attribute.kind, discriminatorName,
      marshalString_idem]

theorem roundTripAttrs_idem (l : List Attribute) (ty ty2 : String)
    (h : nilOfType ty = [] ∨ nilOfType ty2 = nilOfType ty) :
    roundTripAttrs ty2 (roundTripAttrs ty l) = roundTripAttrs ty l := by
  induction l generalizing ty ty2 with
  | nil => rfl
  | cons a rest ih =>
    by_cases hc : a.kind = AttrKind.Char
    · cases a with
      | char a =>
        simp only [roundTripAttrs_cons, roundTripStep, List.nil_append]
        exact ih "AttributeTypeChar" ty2 (Or.inl (by decide))
      | nilPtr k =>
        simp only [Attribute.kind] at hc
        subst hc
        rcases nilOfType_cases ty with h0 | ⟨k0, hk⟩
        · simp only [roundTripAttrs_cons, roundTripStep, h0, List.nil_append]
          exact ih ty ty2 (Or.inl h0)
        · have h2 : nilOfType ty2 = [Attribute.nilPtr k0] := by
            rcases h with h | h
            · rw [hk] at h; cases h
            · rw [h, hk]
          simp only [roundTripAttrs_cons, roundTripStep, hk, List.singleton_append, h2]
          rw [ih ty ty2 h]
      | _ => cases hc
    · by_cases hn : ∀ k, a ≠ Attribute.nilPtr k
      · obtain ⟨h1, h2⟩ := roundTripStep_written ty a hc hn
        have h3 := (roundTripStep_written ty2 a hc hn).2
        rw [roundTripAttrs_cons, h1]
        simp only [List.singleton_append]
        rw [roundTripAttrs_cons, h3]
        simp only [List.singleton_append]
        rw [ih _ _ (Or.inr rfl)]
      · push_neg at hn
        obtain ⟨k, hk⟩ := hn
        subst hk
        rcases nilOfType_cases ty with h0 | ⟨k0, hk⟩
        · simp only [roundTripAttrs_cons, roundTripStep, h0, List.nil_append]
          exact ih ty ty2 (Or.inl h0)
        · have h2 : nilOfType ty2 = [Attribute.nilPtr k0] := by
            rcases h with h | h
            · rw [hk] at h; cases h
            · rw [h, hk]
          simp only [roundTripAttrs_cons, roundTripStep, hk, List.singleton_append, h2]
          rw [ih ty ty2 h]

theorem decodeElementPtr_roundTrip (x : Option Element) :
    decodeElementPtr (marshalElementPtr x) = .ok (x.map roundTripElement) := by
  cases x with
  | none => rfl
  | some e =>
    have h : Element.UnmarshalJSON {} e.marshal = (roundTripElement e, none) := by
      simp [Element.UnmarshalJSON, unmarshalStruct_ElementTmp_marshal, attrUnmarshal_roundTrip,
        roundTripElement]
    simp only [marshalElementPtr, Option.map_some']
    unfold Element.marshal at h ⊢
    generalize [("tag", Json.str (marshalString e.Tag))]
      ++ omitEmptyStr "description" e.Description
      ++ omitEmptyAttrs "attributes" e.Attributes ++ omitEmptyBool "void" e.Void = ms at h ⊢
    simp only [decodeElementPtr, h]

theorem decodeElementItems_roundTrip (es : List (Option Element)) :
    decodeElementItems (es.map marshalElementPtr)
      = .ok (es.map (Option.map roundTripElement)) := by
  induction es with
  | nil => rfl
  | cons x rest ih =>
    simp [decodeElementItems, decodeElementPtr_roundTrip, ih]

theorem Spec_UnmarshalJSON_roundTrip (sp0 s : Spec) :
    Spec.UnmarshalJSON sp0 s.marshal = (roundTripSpec s, none) := by
  have hattrs : s.Attributes.isEmpty = true → s.Attributes = [] := by
    cases s.Attributes <;> simp
  have hdec : unmarshalStruct SpecTmp.setField {} s.marshal
      = .ok { Name := marshalString s.Name,
              Elements := s.Elements.map (Option.map roundTripElement),
              Attributes := s.Attributes.map Attribute.MarshalJSON } := by
    by_cases ha : s.Attributes.isEmpty = true <;>
    simp +decide [Spec.marshal, omitEmptyAttrs, unmarshalStruct, unmarshalMembers,
      SpecTmp.setField, decodeString, decodeRawList, decodeElements,
      decodeElementItems_roundTrip, ha]
    simp_all
  simp [Spec.UnmarshalJSON, hdec, attrUnmarshal_roundTrip, roundTripSpec]

/-- The same with an empty Elements list written as `null`, as the encoder does for a nil
slice. -/
theorem Spec_UnmarshalJSON_null_elements (sp0 s : Spec) :
    Spec.UnmarshalJSON sp0 (Json.obj ([("name", Json.str (marshalString s.Name)),
        ("elements", Json.null)] ++ omitEmptyAttrs "attributes" s.Attributes))
      = ({ Name := marshalString s.Name, Elements := [],
           Attributes := roundTripAttrs "" s.Attributes }, none) := by
  have hnil : s.Attributes.isEmpty = true → s.Attributes = [] := by
    cases s.Attributes <;> simp
  have hnull : unmarshalStruct SpecTmp.setField {}
      (Json.obj ([("name", Json.str (marshalString s.Name)), ("elements", Json.null)]
        ++ omitEmptyAttrs "attributes" s.Attributes))
      = .ok { Name := marshalString s.Name, Elements := [],
              Attributes := s.Attributes.map Attribute.MarshalJSON } := by
    by_cases ha : s.Attributes.isEmpty = true <;>
    simp +decide [omitEmptyAttrs, unmarshalStruct, unmarshalMembers, SpecTmp.setField,
      decodeString, decodeRawList, decodeElements, ha]
    simp_all
  simp only [List.cons_append, List.nil_append] at hnull
  simp [Spec.UnmarshalJSON, hnull, attrUnmarshal_roundTrip]

theorem roundTripElement_idem (e : Element) :
    roundTripElement (roundTripElement e) = roundTripElement e := by
  simp [roundTripElement, roundTripAttrs_idem _ "" "" (Or.inr rfl), marshalString_idem]

theorem roundTripSpec_idem (s : Spec) : roundTripSpec (roundTripSpec s) = roundTripSpec s := by
  simp only [roundTripSpec, roundTripAttrs_idem _ "" "" (Or.inr rfl), List.map_map,
    marshalString_idem]
  congr 1
  apply List.map_congr_left
  intro x _
  cases x with
  | none => rfl
  | some e => simp [roundTripElement_idem]

/-- The tags after encoding and decoding: the written text of each tag, nil entries kept. -/
theorem roundTripSpec_tags (s : Spec) :
    (roundTripSpec s).Elements.map (Option.map Element.Tag)
      = s.Elements.map (Option.map fun e => marshalString e.Tag) := by
  simp only [roundTripSpec, List.map_map]
  apply List.map_congr_left
  intro x _
  cases x <;> rfl

/-- C1 (code defect): encoding an attribute of the Char variant and decoding the record
with `attrUnmarshal` yields no attribute at all. The encoder writes the discriminator
`AttributeTypeChar`, the switch of the decoder has the case label `AttributeType`. -/
theorem C1_char_attribute_lost_in_round_trip (a : AttributeTypeChar) :
    attrUnmarshal [(Attribute.char a).MarshalJSON] = .ok [] :=
  attrUnmarshal_singleton _ _ _ (attrStep_char _ a)

/-- C8 (counterexample): the Spec whose only element has the tag of the single byte FF,
which is not valid UTF-8. The encoder writes the tag as U+FFFD (bytes EF BF BD), so
decoding the encoding succeeds and yields a different tag. -/
theorem C8_invalid_tag_changes_in_round_trip :
    utf8_ValidString "\xff" = false ∧
    ((Spec.marshal { Elements := [some { Tag := "\xff" }] }).field "elements"
      = some (Json.arr [Json.obj [("tag", Json.str "\xef\xbf\xbd")]])) ∧
    Spec.UnmarshalJSON {} (Spec.marshal { Elements := [some { Tag := "\xff" }] })
      = ({ Elements := [some { Tag := "\xef\xbf\xbd" }] }, none) ∧
    (Spec.UnmarshalJSON {} (Spec.marshal { Elements := [some { Tag := "\xff" }] })).1.Elements.map
        (Option.map Element.Tag)
      ≠ [some "\xff"] := by
  have h : Spec.UnmarshalJSON {} (Spec.marshal { Elements := [some { Tag := "\xff" }] })
      = ({ Elements := [some { Tag := "\xef\xbf\xbd" }] }, none) := by
    rw [Spec_UnmarshalJSON_roundTrip]
    decide
  refine ⟨by decide, rfl, h, ?_⟩
  rw [h]
  decide

/-- C8 (amended): for every Spec `s` and every receiver, decoding the encoding of `s`
returns no error and yields an Elements list of the same length as that of `s`, with the
same nil entries, and each tag as the encoder writes it: every byte that is not part of a
valid UTF-8 encoding replaced by U+FFFD. When every tag of `s` is valid UTF-8 the tags are
the same, in the same order. The same holds when an empty Elements list is written as
`null`, as the encoder does for a nil slice. -/
theorem C8_spec_round_trip_keeps_valid_tags (s sp0 : Spec) (h : validTags s = true) :
    (Spec.UnmarshalJSON sp0 s.marshal).2 = none ∧
    (Spec.UnmarshalJSON sp0 s.marshal).1.Elements.length = s.Elements.length ∧
    (Spec.UnmarshalJSON sp0 s.marshal).1.Elements.map (Option.map Element.Tag)
      = s.Elements.map (Option.map fun e => marshalString e.Tag) ∧
    (Spec.UnmarshalJSON sp0 s.marshal).1.Elements.map (Option.map Element.Tag)
      = s.Elements.map (Option.map Element.Tag) ∧
    (Spec.UnmarshalJSON sp0 (Json.obj ([("name", Json.str (marshalString s.Name)),
        ("elements", Json.null)] ++ omitEmptyAttrs "attributes" s.Attributes))).2 = none ∧
    (Spec.UnmarshalJSON sp0 (Json.obj ([("name", Json.str (marshalString s.Name)),
        ("elements", Json.null)] ++ omitEmptyAttrs "attributes" s.Attributes))).1.Elements
      = [] := by
  rw [Spec_UnmarshalJSON_roundTrip, Spec_UnmarshalJSON_null_elements]
  refine ⟨rfl, by simp [roundTripSpec], roundTripSpec_tags s, ?_, rfl, rfl⟩
  rw [roundTripSpec_tags]
  apply List.map_congr_left
  intro x hx
  cases x with
  | none => rfl
  | some e =>
    have hv : utf8_ValidString e.Tag = true := by
      have := List.all_eq_true.mp h (some e) hx
      simpa using this
    simp [marshalString_of_valid e.Tag hv]

/-- Witness of C8 (amended): a Spec with two elements and a nil entry between them. -/
theorem C8_spec_round_trip_keeps_valid_tags_witness :
    (Spec.UnmarshalJSON {} roundTripSample.marshal).2 = none ∧
    (Spec.UnmarshalJSON {} roundTripSample.marshal).1.Elements.length
      = roundTripSample.Elements.length ∧
    (Spec.UnmarshalJSON {} roundTripSample.marshal).1.Elements.map (Option.map Element.Tag)
      = roundTripSample.Elements.map (Option.map fun e => marshalString e.Tag) ∧
    (Spec.UnmarshalJSON {} roundTripSample.marshal).1.Elements.map (Option.map Element.Tag)
      = roundTripSample.Elements.map (Option.map Element.Tag) ∧
    (Spec.UnmarshalJSON {} (Json.obj ([("name", Json.str (marshalString roundTripSample.Name)),
        ("elements", Json.null)]
        ++ omitEmptyAttrs "attributes" roundTripSample.Attributes))).2 = none ∧
    (Spec.UnmarshalJSON {} (Json.obj ([("name", Json.str (marshalString roundTripSample.Name)),
        ("elements", Json.null)]
        ++ omitEmptyAttrs "attributes" roundTripSample.Attributes))).1.Elements
      = [] :=
  C8_spec_round_trip_keeps_valid_tags roundTripSample {} (by decide)

/-- C9: a record with `attribute_type` `AttributeTypeEnum` whose `allowed` object has the
distinct keys `tokens` decodes into one AttributeTypeEnum whose Allowed set has exactly
those tokens (as many as were written, membership equal), with AllowEmpty and
AllowCustom as written; writing the tokens in another order gives the same result. -/
theorem C9_enum_record_allowed_set (name description : String) (tokens tokens2 : List String)
    (allowEmpty allowCustom : Bool) (hnd : tokens.Nodup) (hperm : tokens2.Perm tokens) :
    attrUnmarshal [enumRecord name description tokens allowEmpty allowCustom]
      = .ok [Attribute.enum { Name := name, Description := description,
                              Allowed := some tokens.toFinset,
                              AllowCustom := allowCustom, AllowEmpty := allowEmpty }] ∧
    tokens.toFinset.card = tokens.length ∧
    (∀ x, x ∈ tokens.toFinset ↔ x ∈ tokens) ∧
    attrUnmarshal [enumRecord name description tokens2 allowEmpty allowCustom]
      = attrUnmarshal [enumRecord name description tokens allowEmpty allowCustom] := by
  have key : ∀ ts : List String,
      attrUnmarshal [enumRecord name description ts allowEmpty allowCustom]
        = .ok [Attribute.enum { Name := name, Description := description,
                                Allowed := some ts.toFinset,
                                AllowCustom := allowCustom, AllowEmpty := allowEmpty }] := by
    intro ts
    by_cases hd : description = "" <;>
    simp +decide [attrUnmarshal, attrLoop, attrStep, enumRecord, omitEmptyStr, unmarshalStruct,
      unmarshalMembers, TmpAttr.setField, decodeString, hd, attrSwitch, decodeCase,
      unmarshalStructPtr, AttributeTypeEnum.setField, decodeStringSet, decodeSetMembers_map,
      decodeBool]
  refine ⟨key tokens, List.toFinset_card_of_nodup hnd, fun x => List.mem_toFinset, ?_⟩
  rw [key tokens2, key tokens, List.toFinset_eq_of_perm _ _ hperm]

/-- Witness of C9: the record of the global attribute `autocorrect`, tokens written in
two orders. -/
theorem C9_enum_record_allowed_set_witness :
    attrUnmarshal [enumRecord "autocorrect" "" ["on", "off"] true false]
      = .ok [Attribute.enum { Name := "autocorrect", Description := "",
                              Allowed := some ["on", "off"].toFinset,
                              AllowCustom := false, AllowEmpty := true }] ∧
    ["on", "off"].toFinset.card = ["on", "off"].length ∧
    (∀ x, x ∈ ["on", "off"].toFinset ↔ x ∈ ["on", "off"]) ∧
    attrUnmarshal [enumRecord "autocorrect" "" ["off", "on"] true false]
      = attrUnmarshal [enumRecord "autocorrect" "" ["on", "off"] true false] :=
  C9_enum_record_allowed_set "autocorrect" "" ["on", "off"] ["off", "on"] true false
    (by decide) (List.Perm.swap _ _ _)

/-- C10 (code defect): a record whose `attribute_type` is `AttributeType`, a string that
no encoder writes, is decoded into a Char attribute, and a record carrying the Char
discriminator `AttributeTypeChar` produces no attribute. -/
theorem C10_char_discriminator_mismatch :
    attrUnmarshal [Json.obj [("name", Json.str "accesskey"),
                             ("attribute_type", Json.str "AttributeType")]]
      = .ok [Attribute.char { Name := "accesskey" }] ∧
    attrUnmarshal [Json.obj [("name", Json.str "accesskey"),
                             ("attribute_type", Json.str "AttributeTypeChar")]]
      = .ok [] := by
  constructor <;>
  simp +decide [attrUnmarshal, attrLoop, attrStep, unmarshalStruct, unmarshalMembers,
    TmpAttr.setField, decodeString, attrSwitch, decodeCase, unmarshalStructPtr,
    AttributeTypeChar.setField]

/-! ## Lemmas on the scan -/

theorem GenerateHTMLSpec_of_body (doc body : Node) (h : findTag (some doc) "body" = some body) :
    GenerateHTMLSpec doc = generateFromBody body.ChildNodes := by
  simp [GenerateHTMLSpec, h]

theorem scanH2_p (st : ScanState) (c : Node) : (scanH2 st c).p = st.p := by
  unfold scanH2
  repeat' split
  all_goals rfl

theorem scanH2_end_of_end (st : ScanState) (c : Node) (h : st.end_ = true) :
    (scanH2 st c).end_ = true := by
  unfold scanH2
  repeat' split
  all_goals simp_all

theorem scanH2_of_ne (st : ScanState) (c : Node) (h : c.Data ≠ "h2") : scanH2 st c = st := by
  simp [scanH2, h]

theorem scanChild_eq (st : ScanState) (c : Node) :
    scanChild st c
      = if (scanH2 st c).end_ = true then .ok (scanH2 st c, true)
        else if (scanH2 st c).start = true then
          match scanH4 (scanH2 st c).p c with
          | .error f => .error f
          | .ok p1 =>
            match scanP p1 c with
            | .error f => .error f
            | .ok p2 => .ok ({ scanH2 st c with p := p2 }, false)
        else .ok (scanH2 st c, false) := rfl

theorem scanChild_of_end (st : ScanState) (c : Node) (h : st.end_ = true) :
    scanChild st c = .ok (scanH2 st c, true) := by
  simp [scanChild, scanH2_end_of_end st c h]

theorem scanChild_break (st st1 : ScanState) (c : Node)
    (h : scanChild st c = .ok (st1, true)) : st1.end_ = true ∧ st1.p = st.p := by
  rw [scanChild_eq] at h
  split at h
  · rename_i he
    simp only [Except.ok.injEq, Prod.mk.injEq, and_true] at h
    subst h
    exact ⟨he, scanH2_p st c⟩
  · split at h
    · split at h
      · simp at h
      · split at h <;> simp at h
    · simp at h

theorem scanAll_of_end (l : List Node) (st : ScanState) (h : st.end_ = true) :
    ∃ st1, scanAll st l = .ok st1 ∧ st1.p = st.p ∧ st1.end_ = true := by
  induction l generalizing st with
  | nil => exact ⟨st, rfl, rfl, h⟩
  | cons c rest ih =>
    obtain ⟨st1, h1, h2, h3⟩ := ih (scanH2 st c) (scanH2_end_of_end st c h)
    exact ⟨st1, by simp [scanAll, scanChild_of_end st c h, h1], by rw [h2, scanH2_p], h3⟩

/-- The parser at the end of the scan loop is the parser at the end of the loop without
`break`. -/
theorem scanLoop_p (l : List Node) (st : ScanState) :
    (scanLoop st l).map (·.p) = (scanAll st l).map (·.p) := by
  induction l generalizing st with
  | nil => rfl
  | cons c rest ih =>
    simp only [scanLoop, scanAll]
    cases hc : scanChild st c with
    | error f => rfl
    | ok r =>
      obtain ⟨st1, b⟩ := r
      cases b with
      | false => exact ih st1
      | true =>
        obtain ⟨he, _⟩ := scanChild_break st st1 c hc
        obtain ⟨st2, h1, h2, _⟩ := scanAll_of_end rest st1 he
        simp [h1, h2, Except.map]

theorem scanAll_append (l1 l2 : List Node) (st : ScanState) :
    scanAll st (l1 ++ l2)
      = match scanAll st l1 with
        | .error f => .error f
        | .ok st1 => scanAll st1 l2 := by
  induction l1 generalizing st with
  | nil => rfl
  | cons c rest ih =>
    simp only [List.cons_append, scanAll]
    cases scanChild st c with
    | error f => rfl
    | ok r => exact ih r.1

/-- The run of `generateFromBody` through the loop without `break`. -/
theorem generateFromBody_eq (children : List Node) :
    generateFromBody children
      = match scanAll { p := initialParser } children with
        | .error f => .error f
        | .ok st => finishSpec st.p.Spec := by
  have h := scanLoop_p children { p := initialParser }
  unfold generateFromBody
  cases h1 : scanLoop { p := initialParser } children with
  | error f =>
    cases h2 : scanAll { p := initialParser } children with
    | error g => simp [h1, h2, Except.map] at h; simp [h]
    | ok st2 => simp [h1, h2, Except.map] at h
  | ok st1 =>
    cases h2 : scanAll { p := initialParser } children with
    | error g => simp [h1, h2, Except.map] at h
    | ok st2 => simp [h1, h2, Except.map] at h; simp [h]

theorem scanH4_of_not_heading (p : Parser) (c : Node) (h : isElementHeading c = false) :
    scanH4 p c = .ok p := by
  unfold scanH4
  unfold isElementHeading at h
  by_cases h4 : c.Data = "h4"
  · by_cases hok : (getAttribute c.Attr "id").2 = true
    · by_cases hc : (strings_Contains (getAttribute c.Attr "id").1 "the-"
          && strings_Contains (getAttribute c.Attr "id").1 "-element") = true
      · simp only [Bool.and_eq_true] at hc
        have hf : findTag (some c) "code" = none := by
          simpa [h4, hok, hc.1, hc.2] using h
        simp [h4, hok, hc.1, hc.2, hf]
      · simp [h4, hok, hc]
    · simp [h4, hok]
  · simp [h4]

theorem scanH4_of_heading (p : Parser) (c : Node) (h : isElementHeading c = true) :
    ∃ tagNode, findTag (some c) "code" = some tagNode ∧
      scanH4 p c = match tagNode.FirstChild with
        | some first => .ok (p.Activate first.Data)
        | none => .error .nilDeref := by
  unfold isElementHeading at h
  simp only [Bool.and_eq_true, beq_iff_eq, Option.isSome_iff_exists] at h
  obtain ⟨⟨⟨⟨h4, hok⟩, h1⟩, h2⟩, tagNode, hf⟩ := h
  refine ⟨tagNode, hf, ?_⟩
  simp [scanH4, h4, hok, h1, h2, hf]

theorem scanH4_cases (p : Parser) (c : Node) :
    scanH4 p c = .ok p ∨ scanH4 p c = .error .nilDeref ∨ ∃ t, scanH4 p c = .ok (p.Activate t) := by
  cases h : isElementHeading c with
  | false => exact Or.inl (scanH4_of_not_heading p c h)
  | true =>
    obtain ⟨tagNode, _, hs⟩ := scanH4_of_heading p c h
    cases hfc : tagNode.FirstChild with
    | none => exact Or.inr (Or.inl (by rw [hs, hfc]))
    | some first => exact Or.inr (Or.inr ⟨first.Data, by rw [hs, hfc]⟩)

theorem scanH4_of_ne (p : Parser) (c : Node) (h : c.Data ≠ "h4") : scanH4 p c = .ok p := by
  simp [scanH4, h]

theorem scanP_of_ne (p : Parser) (c : Node) (h : c.Data ≠ "p") : scanP p c = .ok p := by
  simp [scanP, h]

theorem scanP_of_inactive (p : Parser) (c : Node) (h : p.active = false) : scanP p c = .ok p := by
  simp [scanP, h]

theorem scanP_active (p : Parser) (c : Node) (e : Element) (hd : c.Data = "p")
    (ha : p.active = true) (hp : p.descParsed = false) (he : p.currElement = some e) :
    scanP p c = .ok { p with
      Spec := { p.Spec with
        Elements := p.Spec.Elements ++ [some { e with Description := gatherText c }] },
      active := false, currElement := none, descParsed := false } := by
  simp [scanP, hd, ha, hp, he, Parser.Reset]

theorem scanP_cases (p p2 : Parser) (c : Node) (hp : p.descParsed = false)
    (h : scanP p c = .ok p2) :
    p2 = p ∨ ∃ e, c.Data = "p" ∧ p.active = true ∧ p.currElement = some e ∧
      p2 = { p with
        Spec := { p.Spec with
          Elements := p.Spec.Elements ++ [some { e with Description := gatherText c }] },
        active := false, currElement := none, descParsed := false } := by
  by_cases hd : c.Data = "p"
  · cases ha : p.active with
    | false =>
      rw [scanP_of_inactive p c ha] at h
      exact Or.inl (by injection h with h; exact h.symm)
    | true =>
      cases he : p.currElement with
      | none => simp [scanP, hd, ha, hp, he] at h
      | some e =>
        rw [scanP_active p c e hd ha hp he] at h
        exact Or.inr ⟨e, hd, rfl, rfl, by injection h with h; exact h.symm⟩
  · rw [scanP_of_ne p c hd] at h
    exact Or.inl (by injection h with h; exact h.symm)

theorem scanH4_ok_cases (p p1 : Parser) (c : Node) (h : scanH4 p c = .ok p1) :
    p1 = p ∨ ∃ t, p1 = p.Activate t := by
  rcases scanH4_cases p c with h1 | h1 | ⟨t, h1⟩
  · rw [h1] at h; exact Or.inl (by injection h with h; exact h.symm)
  · rw [h1] at h; cases h
  · rw [h1] at h; exact Or.inr ⟨t, by injection h with h; exact h.symm⟩

theorem scanH2_entered (st : ScanState) (c : Node)
    (h : st.start = true ∨ st.end_ = true) :
    (scanH2 st c).start = true ∨ (scanH2 st c).end_ = true := by
  unfold scanH2
  repeat' split
  all_goals simp_all

theorem scanChild_inv (st st1 : ScanState) (c : Node) (b : Bool) (hinv : ScanInv st)
    (h : scanChild st c = .ok (st1, b)) : ScanInv st1 := by
  have hp2 : (scanH2 st c).p = st.p := scanH2_p st c
  have hbase : ScanInv (scanH2 st c) :=
    ⟨by rw [hp2]; exact hinv.descParsed, by rw [hp2]; exact hinv.curr,
     by rw [hp2]; exact hinv.elems,
     fun ha => scanH2_entered st c (hinv.entered (by rw [← hp2]; exact ha))⟩
  rw [scanChild_eq] at h
  split at h
  · injection h with h; injection h with h _; subst h; exact hbase
  · split at h
    · rename_i hstart
      cases h4 : scanH4 (scanH2 st c).p c with
      | error f => simp [h4] at h
      | ok p1 =>
        cases hP : scanP p1 c with
        | error f => simp [h4, hP] at h
        | ok p2 =>
          simp only [h4, hP, Except.ok.injEq, Prod.mk.injEq] at h
          obtain ⟨h, _⟩ := h
          subst h
          have hp1 : p1.descParsed = false ∧ (p1.active = true → p1.currElement ≠ none) ∧
              (∀ x ∈ p1.Spec.Elements, x ≠ none) := by
            rcases scanH4_ok_cases _ _ _ h4 with h1 | ⟨t, h1⟩
            · subst h1; exact ⟨hbase.descParsed, hbase.curr, hbase.elems⟩
            · subst h1
              exact ⟨hbase.descParsed, fun _ => by simp [Parser.Activate], hbase.elems⟩
          rcases scanP_cases p1 p2 c hp1.1 hP with h2 | ⟨e, _, _, _, h2⟩
          · subst h2
            exact ⟨hp1.1, hp1.2.1, hp1.2.2, fun _ => Or.inl hstart⟩
          · subst h2
            refine ⟨rfl, fun ha => by simp at ha, ?_, fun ha => by simp at ha⟩
            intro x hx
            simp only [List.mem_append, List.mem_singleton] at hx
            rcases hx with hx | hx
            · exact hp1.2.2 x hx
            · subst hx; simp
    · injection h with h; injection h with h _; subst h; exact hbase

theorem scanAll_inv (l : List Node) (st st1 : ScanState) (hinv : ScanInv st)
    (h : scanAll st l = .ok st1) : ScanInv st1 := by
  induction l generalizing st with
  | nil => simp only [scanAll, Except.ok.injEq] at h; subst h; exact hinv
  | cons c rest ih =>
    simp only [scanAll] at h
    cases hc : scanChild st c with
    | error f => simp [hc] at h
    | ok r =>
      obtain ⟨st2, b⟩ := r
      simp only [hc] at h
      exact ih st2 (scanChild_inv st st2 c b hinv hc) h

theorem initial_inv : ScanInv { p := initialParser } :=
  ⟨rfl, fun h => by simp [initialParser, NewSpecParser] at h,
   fun x hx => by simp [initialParser, NewSpecParser] at hx,
   fun h => by simp [initialParser, NewSpecParser] at h⟩

theorem classify_Tag (e : Element) : (classify e).Tag = e.Tag := by
  simp only [classify]
  cases attrFuncs e.Tag <;> dsimp only <;> repeat' split
  all_goals rfl

theorem classifyAll_of_no_nil (es : List (Option Element)) (h : ∀ x ∈ es, x ≠ none) :
    ∃ cs, classifyAll es = .ok cs ∧ cs.length = es.length ∧
      cs.map (Option.map Element.Tag) = es.map (Option.map Element.Tag) := by
  induction es with
  | nil => exact ⟨[], rfl, rfl, rfl⟩
  | cons x rest ih =>
    obtain ⟨cs, hcs, hlen, htag⟩ := ih (fun y hy => h y (List.mem_cons_of_mem _ hy))
    cases x with
    | none => exact absurd rfl (h none (List.mem_cons_self _ _))
    | some e =>
      refine ⟨some (classify e) :: cs, by simp [classifyAll, hcs], by simp [hlen], ?_⟩
      simp [htag, classify_Tag]

theorem scanLoop_inv (l : List Node) (st st1 : ScanState) (hinv : ScanInv st)
    (h : scanLoop st l = .ok st1) : ScanInv st1 := by
  induction l generalizing st with
  | nil => simp only [scanLoop, Except.ok.injEq] at h; subst h; exact hinv
  | cons c rest ih =>
    simp only [scanLoop] at h
    cases hc : scanChild st c with
    | error f => simp [hc] at h
    | ok r =>
      obtain ⟨st2, b⟩ := r
      have hinv2 := scanChild_inv st st2 c b hinv hc
      cases b with
      | true => simp only [hc, Except.ok.injEq] at h; subst h; exact hinv2
      | false => simp only [hc] at h; exact ih st2 hinv2 h

theorem scanLoop_of_no_section (l : List Node) (st : ScanState)
    (hs : st.start = false) (he : st.end_ = false)
    (hno : ∀ c ∈ l, ¬ (c.Data = "h2" ∧ (getIDIndex c.Attr "id" "semantics").2 = true)) :
    scanLoop st l = .ok st := by
  induction l with
  | nil => rfl
  | cons c rest ih =>
    have hc := hno c (List.mem_cons_self _ _)
    have h2 : scanH2 st c = st := by
      unfold scanH2
      by_cases hd : c.Data = "h2"
      · have hid : (getIDIndex c.Attr "id" "semantics").2 = false := by
          cases hh : (getIDIndex c.Attr "id" "semantics").2 with
          | false => rfl
          | true => exact absurd ⟨hd, hh⟩ hc
        simp [hd, hs, hid]
      · simp [hd]
    have hstep : scanChild st c = .ok (st, false) := by
      rw [scanChild_eq, h2]
      simp [hs, he]
    simp only [scanLoop, hstep]
    exact ih (fun c hc => hno c (List.mem_cons_of_mem _ hc))

/-- C2 (code defect): on the document of `TestGenerateHTMLSpec`, whose sub-heading has no
`id`, `GenerateHTMLSpec` returns five elements, the fixed headings, and none tagged `tag`;
the test expects exactly one element, tagged `tag`, with the description of the first
paragraph. -/
theorem C2_test_document_harvests_nothing :
    GenerateHTMLSpec testDocument
      = .ok { Name := "HTML",
              Elements :=
                [some { Tag := "h2", Description := "These elements represent headings for their sections." },
                 some { Tag := "h3", Description := "These elements represent headings for their sections." },
                 some { Tag := "h4", Description := "These elements represent headings for their sections." },
                 some { Tag := "h5", Description := "These elements represent headings for their sections." },
                 some { Tag := "h6", Description := "These elements represent headings for their sections." }],
              Attributes := GlobalAttributes } := by
  rfl

/-- What the code does on a section with one entry: when the children of body are an `h2`
whose first `id` is `semantics`, an `h4` whose `id` contains `the-` and `-element` and whose
first `code` descendant has a first child with data `t`, a `p`, and another `h2` of any id
(then anything), `GenerateHTMLSpec` returns no error and a Spec whose Elements are one
harvested element with Tag `t` and Description `gatherText` of the paragraph, followed by
the five fixed heading elements. -/
theorem GenerateHTMLSpec_section_with_one_entry (doc body h2sem h4 code first para h2x : Node)
    (rest : List Node)
    (hb : findTag (some doc) "body" = some body)
    (hc : body.ChildNodes = h2sem :: h4 :: para :: h2x :: rest)
    (h1 : h2sem.Data = "h2") (h1id : (getIDIndex h2sem.Attr "id" "semantics").2 = true)
    (h4d : h4.Data = "h4") (h4id : (getAttribute h4.Attr "id").2 = true)
    (h4a : strings_Contains (getAttribute h4.Attr "id").1 "the-" = true)
    (h4b : strings_Contains (getAttribute h4.Attr "id").1 "-element" = true)
    (hcode : findTag (some h4) "code" = some code) (hfirst : code.FirstChild = some first)
    (hp : para.Data = "p") (hx : h2x.Data = "h2") :
    GenerateHTMLSpec doc
      = .ok { Name := "HTML",
              Elements := some (classify { Tag := first.Data, Description := gatherText para })
                :: headingElements,
              Attributes := GlobalAttributes } ∧
    (classify { Tag := first.Data, Description := gatherText para }).Tag = first.Data ∧
    (classify { Tag := first.Data, Description := gatherText para }).Description
      = gatherText para := by
  refine ⟨?_, classify_Tag _, ?_⟩
  · rw [GenerateHTMLSpec_of_body doc body hb, hc]
    cases hxid : (getIDIndex h2x.Attr "id" "semantics").2 <;>
    simp [generateFromBody, scanLoop, scanChild_eq, scanH2, scanH4, scanP, h1, h1id, h4d, h4id,
      h4a, h4b, hcode, hfirst, hp, hx, hxid, initialParser, NewSpecParser, Parser.Activate,
      Parser.Reset, finishSpec, classifyAll, HTML]
  · simp only [classify]
    cases attrFuncs first.Data <;> dsimp only <;> repeat' split
    all_goals rfl

/-- The document of the test with an `id` on the sub-heading: six elements. -/
theorem GenerateHTMLSpec_test_document_with_id :
    GenerateHTMLSpec testDocumentWithId
      = .ok { Name := "HTML",
              Elements :=
                some (classify { Tag := "tag", Description := gatherText testParagraph })
                  :: headingElements,
              Attributes := GlobalAttributes } ∧
    (classify { Tag := "tag", Description := gatherText testParagraph }).Tag = "tag" ∧
    (classify { Tag := "tag", Description := gatherText testParagraph }).Description
      = gatherText testParagraph :=
  GenerateHTMLSpec_section_with_one_entry testDocumentWithId
    (elementNode "body" []
      [elementNode "h2" [{ Key := "id", Val := "semantics" }] [],
       elementNode "h4" [{ Key := "id", Val := "the-tag-element" }]
         [elementNode "p" [] [elementNode "code" [] [textNode "tag"]]],
       testParagraph,
       elementNode "h2" [{ Key := "id", Val := "parsing-should-stop" }] []])
    (elementNode "h2" [{ Key := "id", Val := "semantics" }] [])
    (elementNode "h4" [{ Key := "id", Val := "the-tag-element" }]
         [elementNode "p" [] [elementNode "code" [] [textNode "tag"]]])
    (elementNode "code" [] [textNode "tag"])
    (textNode "tag")
    testParagraph
    (elementNode "h2" [{ Key := "id", Val := "parsing-should-stop" }] [])
    [] rfl rfl rfl rfl rfl rfl (by decide) (by decide) rfl rfl rfl rfl

/-- C3 (counterexample): a document with a body and no `h2` with id `semantics` gets no
error; `GenerateHTMLSpec` returns a Spec with the five fixed heading elements. -/
theorem C3_no_section_is_not_an_error :
    GenerateHTMLSpec documentWithoutSection
      = .ok { Name := "HTML", Elements := headingElements, Attributes := GlobalAttributes } := by
  rfl

/-- C3 (amended): for every document tree that has a body but no child of body named
`h2` whose first `id` is `semantics`, `GenerateHTMLSpec` returns no error and a Spec
whose Elements are exactly the five fixed heading elements. -/
theorem C3_no_section_gives_headings_only (doc body : Node)
    (hb : findTag (some doc) "body" = some body)
    (hno : ∀ c ∈ body.ChildNodes,
      ¬ (c.Data = "h2" ∧ (getIDIndex c.Attr "id" "semantics").2 = true)) :
    GenerateHTMLSpec doc
      = .ok { Name := "HTML", Elements := headingElements, Attributes := GlobalAttributes } := by
  rw [GenerateHTMLSpec_of_body doc body hb, generateFromBody,
    scanLoop_of_no_section body.ChildNodes _ rfl rfl hno]
  rfl

/-- Witness of C3 (amended): a body with an `h2` of another id and a paragraph. -/
theorem C3_no_section_gives_headings_only_witness :
    GenerateHTMLSpec documentWithoutSection
      = .ok { Name := "HTML", Elements := headingElements, Attributes := GlobalAttributes } :=
  C3_no_section_gives_headings_only documentWithoutSection
    (elementNode "body" []
      [elementNode "h2" [{ Key := "id", Val := "skip-me" }] [],
       elementNode "p" [] [textNode "No semantics section here"]])
    rfl (by decide)

theorem headingElements_eq :
    headingElements
      = [some { Tag := "h2", Description := "These elements represent headings for their sections." },
         some { Tag := "h3", Description := "These elements represent headings for their sections." },
         some { Tag := "h4", Description := "These elements represent headings for their sections." },
         some { Tag := "h5", Description := "These elements represent headings for their sections." },
         some { Tag := "h6", Description := "These elements represent headings for their sections." }] := by
  rfl

/-- C4: for every document tree with a body, either the scan faults and no Spec is
returned, or `GenerateHTMLSpec` returns a Spec whose Elements are the harvested elements
(as many as the scan collected) followed by exactly five elements tagged `h2`, `h3`,
`h4`, `h5`, `h6` in that order, each with the same description, not void and with no
attributes; when the scan harvests zero elements the list is exactly those five. -/
theorem C4_fixed_headings_close_the_list (doc body : Node)
    (hb : findTag (some doc) "body" = some body) :
    (∃ f, scanLoop { p := initialParser } body.ChildNodes = .error f ∧
      GenerateHTMLSpec doc = .error f) ∨
    (∃ st harvested, scanLoop { p := initialParser } body.ChildNodes = .ok st ∧
      harvested.length = st.p.Spec.Elements.length ∧
      GenerateHTMLSpec doc
        = .ok { st.p.Spec with
            Elements := harvested ++
              [some { Tag := "h2", Description := "These elements represent headings for their sections.",
                      Attributes := [], Void := false },
               some { Tag := "h3", Description := "These elements represent headings for their sections.",
                      Attributes := [], Void := false },
               some { Tag := "h4", Description := "These elements represent headings for their sections.",
                      Attributes := [], Void := false },
               some { Tag := "h5", Description := "These elements represent headings for their sections.",
                      Attributes := [], Void := false },
               some { Tag := "h6", Description := "These elements represent headings for their sections.",
                      Attributes := [], Void := false }] }) := by
  rw [GenerateHTMLSpec_of_body doc body hb, generateFromBody]
  cases hs : scanLoop { p := initialParser } body.ChildNodes with
  | error f => exact Or.inl ⟨f, rfl, rfl⟩
  | ok st =>
    have hinv := scanLoop_inv _ _ _ initial_inv hs
    obtain ⟨cs, hcs, hlen, _⟩ := classifyAll_of_no_nil _ hinv.elems
    refine Or.inr ⟨st, cs, rfl, hlen, ?_⟩
    simp only [finishSpec, hcs, headingElements_eq]

/-- Witness of C4: the document of the test with an `id` on the sub-heading. -/
theorem C4_fixed_headings_close_the_list_witness :
    (∃ f, scanLoop { p := initialParser } testBodyWithId.ChildNodes = .error f ∧
      GenerateHTMLSpec testDocumentWithId = .error f) ∨
    (∃ st harvested, scanLoop { p := initialParser } testBodyWithId.ChildNodes = .ok st ∧
      harvested.length = st.p.Spec.Elements.length ∧
      GenerateHTMLSpec testDocumentWithId
        = .ok { st.p.Spec with
            Elements := harvested ++
              [some { Tag := "h2", Description := "These elements represent headings for their sections.",
                      Attributes := [], Void := false },
               some { Tag := "h3", Description := "These elements represent headings for their sections.",
                      Attributes := [], Void := false },
               some { Tag := "h4", Description := "These elements represent headings for their sections.",
                      Attributes := [], Void := false },
               some { Tag := "h5", Description := "These elements represent headings for their sections.",
                      Attributes := [], Void := false },
               some { Tag := "h6", Description := "These elements represent headings for their sections.",
                      Attributes := [], Void := false }] }) :=
  C4_fixed_headings_close_the_list testDocumentWithId testBodyWithId rfl

theorem scanChild_flags (st st1 : ScanState) (c : Node) (b : Bool)
    (h : scanChild st c = .ok (st1, b)) :
    st1.start = (scanH2 st c).start ∧ st1.end_ = (scanH2 st c).end_ := by
  rw [scanChild_eq] at h
  split at h
  · injection h with h; injection h with h _; subst h; exact ⟨rfl, rfl⟩
  · split at h
    · cases h4 : scanH4 (scanH2 st c).p c with
      | error f => simp [h4] at h
      | ok p1 =>
        cases hP : scanP p1 c with
        | error f => simp [h4, hP] at h
        | ok p2 =>
          simp only [h4, hP, Except.ok.injEq, Prod.mk.injEq] at h
          obtain ⟨h, _⟩ := h
          subst h
          exact ⟨rfl, rfl⟩
    · injection h with h; injection h with h _; subst h; exact ⟨rfl, rfl⟩

theorem scanAll_cons_ok (st st2 : ScanState) (c : Node) (l : List Node)
    (h : scanAll st (c :: l) = .ok st2) :
    ∃ st1 b, scanChild st c = .ok (st1, b) ∧ scanAll st1 l = .ok st2 := by
  simp only [scanAll] at h
  cases hc : scanChild st c with
  | error f => simp [hc] at h
  | ok r =>
    obtain ⟨st1, b⟩ := r
    simp only [hc] at h
    exact ⟨st1, b, rfl, h⟩

theorem scanAll_append_ok (l1 l2 : List Node) (st st2 : ScanState)
    (h : scanAll st (l1 ++ l2) = .ok st2) :
    ∃ st1, scanAll st l1 = .ok st1 ∧ scanAll st1 l2 = .ok st2 := by
  rw [scanAll_append] at h
  cases h1 : scanAll st l1 with
  | error f => simp [h1] at h
  | ok st1 => simp only [h1] at h; exact ⟨st1, rfl, h⟩

theorem scanAll_entered (l : List Node) (st st1 : ScanState)
    (h : scanAll st l = .ok st1) (he : st.start = true ∨ st.end_ = true) :
    st1.start = true ∨ st1.end_ = true := by
  induction l generalizing st with
  | nil => simp only [scanAll, Except.ok.injEq] at h; subst h; exact he
  | cons c rest ih =>
    obtain ⟨st2, b, hc, hr⟩ := scanAll_cons_ok st st1 c rest h
    obtain ⟨f1, f2⟩ := scanChild_flags st st2 c b hc
    exact ih st2 hr (by rw [f1, f2]; exact scanH2_entered st c he)

theorem scanH2_section_heading (st : ScanState) (c : Node) (hd : c.Data = "h2")
    (hid : (getIDIndex c.Attr "id" "semantics").2 = true) : (scanH2 st c).start = true := by
  simp [scanH2, hd, hid]

theorem scanH2_second_heading (st : ScanState) (c : Node) (hd : c.Data = "h2")
    (he : st.start = true ∨ st.end_ = true) : (scanH2 st c).end_ = true := by
  unfold scanH2
  rcases he with he | he
  · cases hid : (getIDIndex c.Attr "id" "semantics").2 <;> simp [hd, he, hid]
  · cases hs : st.start <;> cases hid : (getIDIndex c.Attr "id" "semantics").2 <;>
      simp [hd, he, hs, hid]

/-- After a section heading and a later `h2` the variable `end` is set, whatever the
state before and the children in between. -/
theorem scanAll_two_headings (pre mid : List Node) (h2sem h2x : Node) (st st1 : ScanState)
    (hsem : h2sem.Data = "h2") (hid : (getIDIndex h2sem.Attr "id" "semantics").2 = true)
    (hx : h2x.Data = "h2")
    (h : scanAll st (pre ++ h2sem :: (mid ++ [h2x])) = .ok st1) : st1.end_ = true := by
  obtain ⟨sa, _, h1⟩ := scanAll_append_ok _ _ _ _ h
  obtain ⟨sb, b, hb, h2⟩ := scanAll_cons_ok _ _ _ _ h1
  obtain ⟨sc, h3, h4⟩ := scanAll_append_ok _ _ _ _ h2
  obtain ⟨sd, b2, hd, h5⟩ := scanAll_cons_ok _ _ _ _ h4
  simp only [scanAll, Except.ok.injEq] at h5
  subst h5
  have eb : sb.start = true ∨ sb.end_ = true := by
    rw [(scanChild_flags _ _ _ _ hb).1]
    exact Or.inl (scanH2_section_heading sa h2sem hsem hid)
  have ec := scanAll_entered mid sb sc h3 eb
  rw [(scanChild_flags _ _ _ _ hd).2]
  exact scanH2_second_heading sc h2x hx ec

theorem scanAll_p_of_closed_start (common rest : List Node) (st : ScanState)
    (hclosed : ∀ st1, scanAll st common = .ok st1 → st1.end_ = true) :
    (scanAll st (common ++ rest)).map (·.p) = (scanAll st common).map (·.p) := by
  rw [scanAll_append]
  cases h1 : scanAll st common with
  | error f => rfl
  | ok st1 =>
    obtain ⟨st2, h2, hp, _⟩ := scanAll_of_end rest st1 (hclosed st1 h1)
    simp [h2, hp, Except.map]

theorem generateFromBody_congr (l1 l2 : List Node)
    (h : (scanAll { p := initialParser } l1).map (·.p.Spec)
       = (scanAll { p := initialParser } l2).map (·.p.Spec)) :
    generateFromBody l1 = generateFromBody l2 := by
  rw [generateFromBody_eq, generateFromBody_eq]
  cases h1 : scanAll { p := initialParser } l1 with
  | error f =>
    cases h2 : scanAll { p := initialParser } l2 with
    | error g => simp [h1, h2, Except.map] at h; simp [h]
    | ok st2 => simp [h1, h2, Except.map] at h
  | ok st1 =>
    cases h2 : scanAll { p := initialParser } l2 with
    | error g => simp [h1, h2, Except.map] at h
    | ok st2 => simp [h1, h2, Except.map] at h; simp [h]

theorem map_spec_of_map_p {x y : Except Failure ScanState}
    (h : x.map (·.p) = y.map (·.p)) : x.map (·.p.Spec) = y.map (·.p.Spec) := by
  cases x <;> cases y <;> simp_all [Except.map]

/-- C5: once a section heading (an `h2` whose first `id` is `semantics`) and a further
`h2` of any id have been met, nothing after that second `h2` is scanned: two documents
whose body children agree up to and including it get the same result from
`GenerateHTMLSpec`, the same Elements in particular. -/
theorem C5_nothing_scanned_after_second_heading (doc1 doc2 body1 body2 h2sem h2x : Node)
    (pre mid rest1 rest2 : List Node)
    (hb1 : findTag (some doc1) "body" = some body1)
    (hb2 : findTag (some doc2) "body" = some body2)
    (hsem : h2sem.Data = "h2") (hid : (getIDIndex h2sem.Attr "id" "semantics").2 = true)
    (hx : h2x.Data = "h2")
    (hc1 : body1.ChildNodes = (pre ++ h2sem :: (mid ++ [h2x])) ++ rest1)
    (hc2 : body2.ChildNodes = (pre ++ h2sem :: (mid ++ [h2x])) ++ rest2) :
    GenerateHTMLSpec doc1 = GenerateHTMLSpec doc2 ∧
    (GenerateHTMLSpec doc1).map (·.Elements) = (GenerateHTMLSpec doc2).map (·.Elements) := by
  have key : GenerateHTMLSpec doc1 = GenerateHTMLSpec doc2 := by
    rw [GenerateHTMLSpec_of_body doc1 body1 hb1, GenerateHTMLSpec_of_body doc2 body2 hb2,
      hc1, hc2]
    apply generateFromBody_congr
    apply map_spec_of_map_p
    have hclosed := fun st1 =>
      scanAll_two_headings pre mid h2sem h2x { p := initialParser } st1 hsem hid hx
    rw [scanAll_p_of_closed_start _ rest1 _ hclosed,
      scanAll_p_of_closed_start _ rest2 _ hclosed]
  exact ⟨key, by rw [key]⟩

theorem scanChild_ok_cases (st st1 : ScanState) (c : Node) (b : Bool)
    (h : scanChild st c = .ok (st1, b)) :
    (st1 = scanH2 st c ∧ ((scanH2 st c).end_ = true ∨ (scanH2 st c).start = false)) ∨
    ((scanH2 st c).end_ = false ∧ (scanH2 st c).start = true ∧
      ∃ p1 p2, scanH4 (scanH2 st c).p c = .ok p1 ∧ scanP p1 c = .ok p2 ∧
        st1 = { scanH2 st c with p := p2 }) := by
  rw [scanChild_eq] at h
  split at h
  · rename_i he
    injection h with h; injection h with h _
    exact Or.inl ⟨h.symm, Or.inl he⟩
  · rename_i he
    split at h
    · rename_i hs
      cases h4 : scanH4 (scanH2 st c).p c with
      | error f => simp [h4] at h
      | ok p1 =>
        cases hP : scanP p1 c with
        | error f => simp [h4, hP] at h
        | ok p2 =>
          simp only [h4, hP, Except.ok.injEq, Prod.mk.injEq] at h
          exact Or.inr ⟨by simpa using he, hs, p1, p2, rfl, hP, h.1.symm⟩
    · rename_i hs
      injection h with h; injection h with h _
      exact Or.inl ⟨h.symm, Or.inr (by simpa using hs)⟩

theorem scanChild_paragraph_noop (st : ScanState) (c : Node) (hd : c.Data = "p")
    (hq : st.end_ = true ∨ st.p.active = false) : ∃ b, scanChild st c = .ok (st, b) := by
  have h2 : scanH2 st c = st := scanH2_of_ne st c (by rw [hd]; decide)
  have h4 : ∀ p, scanH4 p c = .ok p := fun p => scanH4_of_ne p c (by rw [hd]; decide)
  rw [scanChild_eq, h2]
  by_cases he : st.end_ = true
  · exact ⟨true, by rw [if_pos he]⟩
  · have ha : st.p.active = false := by
      rcases hq with hq | hq
      · exact absurd hq he
      · exact hq
    refine ⟨false, ?_⟩
    rw [if_neg he]
    by_cases hs : st.start = true
    · rw [if_pos hs, h4]
      simp only [scanP_of_inactive st.p c ha]
    · rw [if_neg hs]

theorem scanChild_after_paragraph (st st1 : ScanState) (c : Node) (b : Bool)
    (hinv : ScanInv st) (hd : c.Data = "p") (h : scanChild st c = .ok (st1, b)) :
    st1.end_ = true ∨ st1.p.active = false := by
  have h2 : scanH2 st c = st := scanH2_of_ne st c (by rw [hd]; decide)
  have h4 : ∀ p, scanH4 p c = .ok p := fun p => scanH4_of_ne p c (by rw [hd]; decide)
  rcases scanChild_ok_cases st st1 c b h with ⟨h1, hf⟩ | ⟨_, _, p1, p2, hp1, hp2, h1⟩
  · rw [h2] at h1 hf
    subst h1
    cases ha : st1.p.active with
    | false => exact Or.inr rfl
    | true =>
      rcases hinv.entered ha with hs | he
      · rcases hf with hf | hf
        · exact Or.inl hf
        · rw [hs] at hf; cases hf
      · exact Or.inl he
  · rw [h2] at h1 hp1
    rw [h4] at hp1
    injection hp1 with hp1
    subst hp1
    subst h1
    refine Or.inr ?_
    show p2.active = false
    cases ha : st.p.active with
    | false =>
      rw [scanP_of_inactive st.p c ha] at hp2
      injection hp2 with hp2
      rw [← hp2]; exact ha
    | true =>
      cases hcur : st.p.currElement with
      | none => exact absurd hcur (hinv.curr ha)
      | some e =>
        rw [scanP_active st.p c e hd ha hinv.descParsed hcur] at hp2
        injection hp2 with hp2
        rw [← hp2]

theorem scanChild_keeps_inactive (st st1 : ScanState) (c : Node) (b : Bool)
    (hq : st.end_ = true ∨ st.p.active = false) (hc : isElementHeading c = false)
    (h : scanChild st c = .ok (st1, b)) : st1.end_ = true ∨ st1.p.active = false := by
  by_cases he : st.end_ = true
  · obtain ⟨_, f2⟩ := scanChild_flags st st1 c b h
    exact Or.inl (by rw [f2]; exact scanH2_end_of_end st c he)
  · have ha : st.p.active = false := by
      rcases hq with hq | hq
      · exact absurd hq he
      · exact hq
    have ha2 : (scanH2 st c).p.active = false := by rw [scanH2_p]; exact ha
    rcases scanChild_ok_cases st st1 c b h with ⟨h1, _⟩ | ⟨_, _, p1, p2, hp1, hp2, h1⟩
    · subst h1; exact Or.inr ha2
    · rw [scanH4_of_not_heading _ c hc] at hp1
      injection hp1 with hp1
      subst hp1
      rw [scanP_of_inactive _ c ha2] at hp2
      injection hp2 with hp2
      subst hp2
      subst h1
      exact Or.inr ha2

theorem scanAll_keeps_inactive (l : List Node) (st st1 : ScanState)
    (hq : st.end_ = true ∨ st.p.active = false) (hl : ∀ c ∈ l, isElementHeading c = false)
    (h : scanAll st l = .ok st1) : st1.end_ = true ∨ st1.p.active = false := by
  induction l generalizing st with
  | nil => simp only [scanAll, Except.ok.injEq] at h; subst h; exact hq
  | cons c rest ih =>
    obtain ⟨st2, b, hc, hr⟩ := scanAll_cons_ok st st1 c rest h
    exact ih st2
      (scanChild_keeps_inactive st st2 c b hq (hl c (List.mem_cons_self _ _)) hc)
      (fun d hd => hl d (List.mem_cons_of_mem _ hd)) hr

/-- C6: only the first paragraph after an element sub-heading is used. Removing a `p`
child of body that comes after a `p` child with no matching element sub-heading in
between leaves the result of `GenerateHTMLSpec`, the Elements in particular,
unchanged. -/
theorem C6_later_paragraph_ignored (doc1 doc2 body1 body2 par1 parX : Node)
    (a b post : List Node)
    (hb1 : findTag (some doc1) "body" = some body1)
    (hb2 : findTag (some doc2) "body" = some body2)
    (hp1 : par1.Data = "p") (hpX : parX.Data = "p")
    (hbetween : ∀ c ∈ b, isElementHeading c = false)
    (hc1 : body1.ChildNodes = (a ++ par1 :: b) ++ parX :: post)
    (hc2 : body2.ChildNodes = (a ++ par1 :: b) ++ post) :
    GenerateHTMLSpec doc1 = GenerateHTMLSpec doc2 ∧
    (GenerateHTMLSpec doc1).map (·.Elements) = (GenerateHTMLSpec doc2).map (·.Elements) := by
  have key : GenerateHTMLSpec doc1 = GenerateHTMLSpec doc2 := by
    rw [GenerateHTMLSpec_of_body doc1 body1 hb1, GenerateHTMLSpec_of_body doc2 body2 hb2,
      hc1, hc2]
    apply generateFromBody_congr
    congr 1
    rw [scanAll_append (a ++ par1 :: b) (parX :: post), scanAll_append (a ++ par1 :: b) post]
    cases h : scanAll { p := initialParser } (a ++ par1 :: b) with
    | error f => rfl
    | ok sc =>
      obtain ⟨sa, ha, h1⟩ := scanAll_append_ok _ _ _ _ h
      obtain ⟨sb, b1, hb, h2⟩ := scanAll_cons_ok _ _ _ _ h1
      have hinv := scanAll_inv _ _ _ initial_inv ha
      have hq := scanChild_after_paragraph sa sb par1 b1 hinv hp1 hb
      have hq2 := scanAll_keeps_inactive b sb sc hq hbetween h2
      obtain ⟨b2, hstep⟩ := scanChild_paragraph_noop sc parX hpX hq2
      simp only [scanAll, hstep]
  exact ⟨key, by rw [key]⟩

theorem isElementHeading_data (c : Node) (h : isElementHeading c = true) : c.Data = "h4" := by
  unfold isElementHeading at h
  simp only [Bool.and_eq_true, beq_iff_eq] at h
  exact h.1.1.1.1

theorem scanH2_congr (s1 s2 : ScanState) (c : Node) (hs : s1.start = s2.start)
    (he : s1.end_ = s2.end_) :
    (scanH2 s1 c).start = (scanH2 s2 c).start ∧ (scanH2 s1 c).end_ = (scanH2 s2 c).end_ := by
  unfold scanH2
  repeat' split
  all_goals simp_all

theorem Parser.Activate_congr (p1 p2 : Parser) (t : String)
    (hd : p1.descParsed = p2.descParsed) (hs : p1.Spec = p2.Spec) :
    p1.Activate t = p2.Activate t := by
  cases p1; cases p2
  simp only [Parser.Activate] at *
  simp [hd, hs]

/-- The loop body on a child that is not a paragraph, run from two converging states:
both runs fault, or both go on in converging states. -/
theorem scanChild_converging (s1 s2 : ScanState) (c : Node) (hc : c.Data ≠ "p")
    (hr : Converging s1 s2) :
    (∃ f, scanChild s1 c = .error f ∧ scanChild s2 c = .error f) ∨
    (∃ t1 t2 b1 b2, scanChild s1 c = .ok (t1, b1) ∧ scanChild s2 c = .ok (t2, b2) ∧
      Converging t1 t2) := by
  rcases hr with hr | ⟨hr, hent⟩
  · subst hr
    cases h : scanChild s1 c with
    | error f => exact Or.inl ⟨f, rfl, rfl⟩
    | ok r => exact Or.inr ⟨r.1, r.1, r.2, r.2, rfl, rfl, Or.inl rfl⟩
  · obtain ⟨fs, fe⟩ := scanH2_congr s1 s2 c hr.start hr.end_
    have hent2 : (scanH2 s1 c).end_ = true ∨ (scanH2 s1 c).start = true :=
      (scanH2_entered s1 c hent.symm).symm
    have hsame : SameButActive (scanH2 s1 c) (scanH2 s2 c) :=
      ⟨fs, fe, by rw [scanH2_p, scanH2_p]; exact hr.descParsed,
       by rw [scanH2_p, scanH2_p]; exact hr.spec⟩
    rw [scanChild_eq, scanChild_eq]
    by_cases he : (scanH2 s1 c).end_ = true
    · have he2 : (scanH2 s2 c).end_ = true := by rw [← fe]; exact he
      rw [if_pos he, if_pos he2]
      exact Or.inr ⟨_, _, _, _, rfl, rfl, Or.inr ⟨hsame, Or.inl he⟩⟩
    · have he2 : ¬ (scanH2 s2 c).end_ = true := by rw [← fe]; exact he
      have hs : (scanH2 s1 c).start = true := by
        rcases hent2 with h | h
        · exact absurd h he
        · exact h
      have hs2 : (scanH2 s2 c).start = true := by rw [← fs]; exact hs
      rw [if_neg he, if_neg he2, if_pos hs, if_pos hs2]
      cases hh : isElementHeading c with
      | false =>
        simp only [scanH4_of_not_heading _ c hh, scanP_of_ne _ c hc]
        exact Or.inr ⟨_, _, _, _, rfl, rfl, Or.inr ⟨hsame, Or.inr hs⟩⟩
      | true =>
        obtain ⟨tagNode, _, h1⟩ := scanH4_of_heading (scanH2 s1 c).p c hh
        obtain ⟨tagNode2, _, h2⟩ := scanH4_of_heading (scanH2 s2 c).p c hh
        have htag : tagNode2 = tagNode := by simp_all
        subst htag
        rw [h1, h2]
        cases hfc : tagNode2.FirstChild with
        | none => exact Or.inl ⟨.nilDeref, rfl, rfl⟩
        | some first =>
          simp only [scanP_of_ne _ c hc]
          refine Or.inr ⟨_, _, _, _, rfl, rfl, Or.inr ⟨⟨fs, fe, ?_, ?_⟩, Or.inr hs⟩⟩
          · exact hsame.descParsed
          · exact hsame.spec

/-- The loop body on a matching element sub-heading, run from two converging states:
both runs fault, or the two states become equal, or the section is over in both. -/
theorem scanChild_heading_converging (s1 s2 : ScanState) (c : Node)
    (hh : isElementHeading c = true) (hr : Converging s1 s2) :
    (∃ f, scanChild s1 c = .error f ∧ scanChild s2 c = .error f) ∨
    (∃ t1 t2 b1 b2, scanChild s1 c = .ok (t1, b1) ∧ scanChild s2 c = .ok (t2, b2) ∧
      (t1 = t2 ∨ (SameButActive t1 t2 ∧ t1.end_ = true))) := by
  have hd := isElementHeading_data c hh
  have hc : c.Data ≠ "p" := by rw [hd]; decide
  have h2 : ∀ s, scanH2 s c = s := fun s => scanH2_of_ne s c (by rw [hd]; decide)
  rcases hr with hr | ⟨hr, hent⟩
  · subst hr
    cases h : scanChild s1 c with
    | error f => exact Or.inl ⟨f, rfl, rfl⟩
    | ok r => exact Or.inr ⟨r.1, r.1, r.2, r.2, rfl, rfl, Or.inl rfl⟩
  · rw [scanChild_eq, scanChild_eq, h2, h2]
    by_cases he : s1.end_ = true
    · have he2 : s2.end_ = true := by rw [← hr.end_]; exact he
      rw [if_pos he, if_pos he2]
      exact Or.inr ⟨_, _, _, _, rfl, rfl, Or.inr ⟨hr, he⟩⟩
    · have he2 : ¬ s2.end_ = true := by rw [← hr.end_]; exact he
      have hs : s1.start = true := by
        rcases hent with h | h
        · exact absurd h he
        · exact h
      have hs2 : s2.start = true := by rw [← hr.start]; exact hs
      rw [if_neg he, if_neg he2, if_pos hs, if_pos hs2]
      obtain ⟨tagNode, _, h1⟩ := scanH4_of_heading s1.p c hh
      obtain ⟨tagNode2, _, h3⟩ := scanH4_of_heading s2.p c hh
      have htag : tagNode2 = tagNode := by simp_all
      subst htag
      rw [h1, h3]
      cases hfc : tagNode2.FirstChild with
      | none => exact Or.inl ⟨.nilDeref, rfl, rfl⟩
      | some first =>
        simp only [scanP_of_ne _ c hc]
        refine Or.inr ⟨_, _, _, _, rfl, rfl, Or.inl ?_⟩
        rw [Parser.Activate_congr s1.p s2.p first.Data hr.descParsed hr.spec]
        cases s1; cases s2
        simp only [ScanState.mk.injEq, and_true] at *
        exact ⟨hr.start, hr.end_⟩

theorem scanAll_spec_of_closed (l : List Node) (t1 t2 : ScanState)
    (h : t1 = t2 ∨ (SameButActive t1 t2 ∧ t1.end_ = true)) :
    (scanAll t1 l).map (·.p.Spec) = (scanAll t2 l).map (·.p.Spec) := by
  rcases h with h | ⟨hr, he⟩
  · rw [h]
  · obtain ⟨u1, h1, hp1, _⟩ := scanAll_of_end l t1 he
    obtain ⟨u2, h2, hp2, _⟩ := scanAll_of_end l t2 (by rw [← hr.end_]; exact he)
    simp [h1, h2, hp1, hp2, Except.map, hr.spec]

theorem scanAll_converging (mid post : List Node) (s2node : Node) (s1 s2 : ScanState)
    (hmid : ∀ c ∈ mid, c.Data ≠ "p") (hh : isElementHeading s2node = true)
    (hr : Converging s1 s2) :
    (scanAll s1 (mid ++ s2node :: post)).map (·.p.Spec)
      = (scanAll s2 (mid ++ s2node :: post)).map (·.p.Spec) := by
  induction mid generalizing s1 s2 with
  | nil =>
    simp only [List.nil_append, scanAll]
    rcases scanChild_heading_converging s1 s2 s2node hh hr with
      ⟨f, h1, h2⟩ | ⟨t1, t2, b1, b2, h1, h2, ht⟩
    · simp [h1, h2]
    · simp only [h1, h2]
      exact scanAll_spec_of_closed post t1 t2 ht
  | cons c rest ih =>
    simp only [List.cons_append, scanAll]
    rcases scanChild_converging s1 s2 c (hmid c (List.mem_cons_self _ _)) hr with
      ⟨f, h1, h2⟩ | ⟨t1, t2, b1, b2, h1, h2, ht⟩
    · simp [h1, h2]
    · simp only [h1, h2]
      exact ih t1 t2 (fun d hd => hmid d (List.mem_cons_of_mem _ hd)) ht

/-- The loop body on a matching element sub-heading whose `code` descendant has a first
child: the state after it converges with the state before it. -/
theorem scanChild_heading_step (st : ScanState) (c code first : Node)
    (hh : isElementHeading c = true) (hcode : findTag (some c) "code" = some code)
    (hfirst : code.FirstChild = some first) :
    ∃ st1 b, scanChild st c = .ok (st1, b) ∧ Converging st1 st := by
  have hd := isElementHeading_data c hh
  have hc : c.Data ≠ "p" := by rw [hd]; decide
  have h2 : scanH2 st c = st := scanH2_of_ne st c (by rw [hd]; decide)
  obtain ⟨tagNode, htag, h4⟩ := scanH4_of_heading st.p c hh
  rw [hcode] at htag
  injection htag with htag
  subst htag
  rw [hfirst] at h4
  rw [scanChild_eq, h2]
  by_cases he : st.end_ = true
  · rw [if_pos he]
    exact ⟨_, _, rfl, Or.inl rfl⟩
  · rw [if_neg he]
    by_cases hs : st.start = true
    · rw [if_pos hs, h4]
      simp only [scanP_of_ne _ c hc]
      exact ⟨_, _, rfl, Or.inr ⟨⟨rfl, rfl, rfl, rfl⟩, Or.inr hs⟩⟩
    · rw [if_neg hs]
      exact ⟨_, _, rfl, Or.inl rfl⟩

/-- C7 (counterexample): two matching element sub-headings with no paragraph in between,
then a paragraph. The Elements returned hold the second element and the five headings;
no element tagged `article`, the tag of the first sub-heading, is among them. -/
theorem C7_first_heading_record_is_dropped :
    GenerateHTMLSpec documentWithTwoHeadings
      = .ok { Name := "HTML",
              Elements := some { Tag := "section", Description := "Good description",
                                 Text := true } :: headingElements,
              Attributes := GlobalAttributes } ∧
    some "article" ∉
      (some { Tag := "section", Description := "Good description", Text := true }
        :: headingElements).map (Option.map Element.Tag) := by
  constructor
  · rfl
  · decide

/-- C7 (amended): if a matching element sub-heading (whose `code` descendant has a first
child, the tag `t1`) is followed by another matching element sub-heading with no `p`
child of body in between, the record started for `t1` is replaced and never reaches the
Elements: `GenerateHTMLSpec` returns the same result as for the document without the
first sub-heading. -/
theorem C7_unfinished_record_is_replaced (doc1 doc2 body1 body2 s1 code1 first1 s2 : Node)
    (pre mid post : List Node)
    (hb1 : findTag (some doc1) "body" = some body1)
    (hb2 : findTag (some doc2) "body" = some body2)
    (hs1 : isElementHeading s1 = true) (hcode1 : findTag (some s1) "code" = some code1)
    (hfirst1 : code1.FirstChild = some first1)
    (hs2 : isElementHeading s2 = true)
    (hmid : ∀ c ∈ mid, c.Data ≠ "p")
    (hc1 : body1.ChildNodes = pre ++ s1 :: (mid ++ s2 :: post))
    (hc2 : body2.ChildNodes = pre ++ (mid ++ s2 :: post)) :
    GenerateHTMLSpec doc1 = GenerateHTMLSpec doc2 ∧
    (GenerateHTMLSpec doc1).map (·.Elements) = (GenerateHTMLSpec doc2).map (·.Elements) := by
  have key : GenerateHTMLSpec doc1 = GenerateHTMLSpec doc2 := by
    rw [GenerateHTMLSpec_of_body doc1 body1 hb1, GenerateHTMLSpec_of_body doc2 body2 hb2,
      hc1, hc2]
    apply generateFromBody_congr
    rw [scanAll_append pre (s1 :: (mid ++ s2 :: post)), scanAll_append pre (mid ++ s2 :: post)]
    cases h : scanAll { p := initialParser } pre with
    | error f => rfl
    | ok st =>
      obtain ⟨st1, b, hstep, hconv⟩ := scanChild_heading_step st s1 code1 first1 hs1 hcode1 hfirst1
      simp only [scanAll, hstep]
      exact scanAll_converging mid post s2 st1 st hmid hs2 hconv
  exact ⟨key, by rw [key]⟩

/-- Witness of C5: the test document with and without the element entry that follows
the closing heading. -/
theorem C5_nothing_scanned_after_second_heading_witness :
    GenerateHTMLSpec
        (documentWithBody (([] ++ testSectionHeading :: ([testSubHeading, testParagraph]
          ++ [testClosingHeading])) ++ testTail))
      = GenerateHTMLSpec
        (documentWithBody (([] ++ testSectionHeading :: ([testSubHeading, testParagraph]
          ++ [testClosingHeading])) ++ [])) ∧
    (GenerateHTMLSpec
        (documentWithBody (([] ++ testSectionHeading :: ([testSubHeading, testParagraph]
          ++ [testClosingHeading])) ++ testTail))).map (·.Elements)
      = (GenerateHTMLSpec
        (documentWithBody (([] ++ testSectionHeading :: ([testSubHeading, testParagraph]
          ++ [testClosingHeading])) ++ []))).map (·.Elements) :=
  C5_nothing_scanned_after_second_heading _ _
    (elementNode "body" [] (([] ++ testSectionHeading :: ([testSubHeading, testParagraph]
      ++ [testClosingHeading])) ++ testTail))
    (elementNode "body" [] (([] ++ testSectionHeading :: ([testSubHeading, testParagraph]
      ++ [testClosingHeading])) ++ []))
    testSectionHeading testClosingHeading [] [testSubHeading, testParagraph] testTail []
    rfl rfl rfl rfl rfl rfl rfl

/-- Witness of C6: the test document with and without its second paragraph. -/
theorem C6_later_paragraph_ignored_witness :
    GenerateHTMLSpec
        (documentWithBody (([testSectionHeading, testSubHeading] ++ testParagraph :: [])
          ++ testExtraParagraph :: [testClosingHeading]))
      = GenerateHTMLSpec
        (documentWithBody (([testSectionHeading, testSubHeading] ++ testParagraph :: [])
          ++ [testClosingHeading])) ∧
    (GenerateHTMLSpec
        (documentWithBody (([testSectionHeading, testSubHeading] ++ testParagraph :: [])
          ++ testExtraParagraph :: [testClosingHeading]))).map (·.Elements)
      = (GenerateHTMLSpec
        (documentWithBody (([testSectionHeading, testSubHeading] ++ testParagraph :: [])
          ++ [testClosingHeading]))).map (·.Elements) :=
  C6_later_paragraph_ignored _ _
    (elementNode "body" [] (([testSectionHeading, testSubHeading] ++ testParagraph :: [])
      ++ testExtraParagraph :: [testClosingHeading]))
    (elementNode "body" [] (([testSectionHeading, testSubHeading] ++ testParagraph :: [])
      ++ [testClosingHeading]))
    testParagraph testExtraParagraph [testSectionHeading, testSubHeading] []
    [testClosingHeading] rfl rfl rfl rfl (by decide) rfl rfl

/-- Witness of C7 (amended): a sub-heading for `tag` directly followed by a sub-heading
for `section`, then a paragraph. -/
theorem C7_unfinished_record_is_replaced_witness :
    GenerateHTMLSpec
        (documentWithBody ([testSectionHeading] ++ testSubHeading
          :: ([] ++ sectionSubHeading :: [testParagraph])))
      = GenerateHTMLSpec
        (documentWithBody ([testSectionHeading]
          ++ ([] ++ sectionSubHeading :: [testParagraph]))) ∧
    (GenerateHTMLSpec
        (documentWithBody ([testSectionHeading] ++ testSubHeading
          :: ([] ++ sectionSubHeading :: [testParagraph])))).map (·.Elements)
      = (GenerateHTMLSpec
        (documentWithBody ([testSectionHeading]
          ++ ([] ++ sectionSubHeading :: [testParagraph])))).map (·.Elements) :=
  C7_unfinished_record_is_replaced _ _
    (elementNode "body" [] ([testSectionHeading] ++ testSubHeading
      :: ([] ++ sectionSubHeading :: [testParagraph])))
    (elementNode "body" [] ([testSectionHeading]
      ++ ([] ++ sectionSubHeading :: [testParagraph])))
    testSubHeading (elementNode "code" [] [textNode "tag"]) (textNode "tag") sectionSubHeading
    [testSectionHeading] [] [testParagraph]
    rfl rfl (by decide) rfl rfl (by decide) (by decide) rfl rfl

/-! ## The encoded form: discriminator and omitted fields -/

theorem discriminatorName_injective : Function.Injective discriminatorName := by
  intro k1 k2 h
  cases k1 <;> cases k2 <;> first | rfl | (exact absurd h (by decide))

/-- C11: the record of every attribute has exactly one `attribute_type` member, a string
that depends on the variant only: the name of the variant's Go type. The eight names are
pairwise distinct, so two records with the same discriminator come from the same
variant. A nil pointer has no record (it is written as `null`). -/
theorem C11_discriminator_names_the_variant (a : Attribute) :
    ((∃ k, a = Attribute.nilPtr k ∧ a.MarshalJSON = Json.null) ∨
      (a.MarshalJSON.field "attribute_type" = some (Json.str (discriminatorName a.kind)) ∧
       a.MarshalJSON.keys.count "attribute_type" = 1)) ∧
    Function.Injective discriminatorName ∧
    [AttrKind.String, .Char, .Number, .Float, .Bool, .Enum, .SST, .PrefixedCustom].map
        discriminatorName
      = ["AttributeTypeString", "AttributeTypeChar", "AttributeTypeNumber",
         "AttributeTypeFloat", "AttributeTypeBool", "AttributeTypeEnum", "AttributeTypeSST",
         "AttributeTypePrefixedCustom"] := by
  refine ⟨?_, discriminatorName_injective, rfl⟩
  cases a with
  | nilPtr k => exact Or.inl ⟨k, rfl, rfl⟩
  | str a =>
    right
    by_cases hd : a.Description = "" <;>
    simp +decide [Attribute.MarshalJSON, discriminatorName, AttributeTypeString.MarshalJSON, omitEmptyStr, Json.field,
      Json.keys, Attribute.kind, discriminatorName, List.lookup, hd]
  | char a =>
    right
    by_cases hd : a.Description = "" <;>
    simp +decide [Attribute.MarshalJSON, discriminatorName, AttributeTypeChar.MarshalJSON, omitEmptyStr, Json.field,
      Json.keys, Attribute.kind, discriminatorName, List.lookup, hd]
  | number a =>
    right
    by_cases hd : a.Description = "" <;>
    simp +decide [Attribute.MarshalJSON, discriminatorName, AttributeTypeNumber.MarshalJSON, omitEmptyStr, Json.field,
      Json.keys, Attribute.kind, discriminatorName, List.lookup, hd]
  | float a =>
    right
    by_cases hd : a.Description = "" <;>
    simp +decide [Attribute.MarshalJSON, discriminatorName, AttributeTypeFloat.MarshalJSON, omitEmptyStr, Json.field,
      Json.keys, Attribute.kind, discriminatorName, List.lookup, hd]
  | bool a =>
    right
    by_cases hd : a.Description = "" <;>
    simp +decide [Attribute.MarshalJSON, discriminatorName, AttributeTypeBool.MarshalJSON, omitEmptyStr, Json.field,
      Json.keys, Attribute.kind, discriminatorName, List.lookup, hd]
  | enum a =>
    right
    by_cases hd : a.Description = "" <;>
    simp +decide [Attribute.MarshalJSON, discriminatorName, AttributeTypeEnum.MarshalJSON, omitEmptyStr, Json.field,
      Json.keys, Attribute.kind, discriminatorName, List.lookup, hd]
  | sst a =>
    right
    by_cases hd : a.Description = "" <;>
    simp +decide [Attribute.MarshalJSON, discriminatorName, AttributeTypeSST.MarshalJSON, omitEmptyStr, Json.field,
      Json.keys, Attribute.kind, discriminatorName, List.lookup, hd]
  | prefixedCustom a =>
    right
    by_cases hd : a.Description = "" <;>
    simp +decide [Attribute.MarshalJSON, discriminatorName, AttributeTypePrefixedCustom.MarshalJSON, omitEmptyStr,
      Json.field, Json.keys, Attribute.kind, discriminatorName, List.lookup, hd]

theorem attribute_description_key (a : Attribute) :
    "description" ∈ a.MarshalJSON.keys ↔ ∃ d, a.descriptionField = some d ∧ d ≠ "" := by
  cases a with
  | nilPtr k => simp [Attribute.MarshalJSON, Json.keys, Attribute.descriptionField]
  | str a =>
    by_cases hd : a.Description = "" <;>
    simp +decide [Attribute.MarshalJSON, AttributeTypeString.MarshalJSON, omitEmptyStr, Json.keys,
      Attribute.descriptionField, hd]
  | char a =>
    by_cases hd : a.Description = "" <;>
    simp +decide [Attribute.MarshalJSON, AttributeTypeChar.MarshalJSON, omitEmptyStr, Json.keys,
      Attribute.descriptionField, hd]
  | number a =>
    by_cases hd : a.Description = "" <;>
    simp +decide [Attribute.MarshalJSON, AttributeTypeNumber.MarshalJSON, omitEmptyStr, Json.keys,
      Attribute.descriptionField, hd]
  | float a =>
    by_cases hd : a.Description = "" <;>
    simp +decide [Attribute.MarshalJSON, AttributeTypeFloat.MarshalJSON, omitEmptyStr, Json.keys,
      Attribute.descriptionField, hd]
  | bool a =>
    by_cases hd : a.Description = "" <;>
    simp +decide [Attribute.MarshalJSON, AttributeTypeBool.MarshalJSON, omitEmptyStr, Json.keys,
      Attribute.descriptionField, hd]
  | enum a =>
    by_cases hd : a.Description = "" <;>
    simp +decide [Attribute.MarshalJSON, AttributeTypeEnum.MarshalJSON, omitEmptyStr, Json.keys,
      Attribute.descriptionField, hd]
  | sst a =>
    by_cases hd : a.Description = "" <;>
    simp +decide [Attribute.MarshalJSON, AttributeTypeSST.MarshalJSON, omitEmptyStr, Json.keys,
      Attribute.descriptionField, hd]
  | prefixedCustom a =>
    by_cases hd : a.Description = "" <;>
    simp +decide [Attribute.MarshalJSON, AttributeTypePrefixedCustom.MarshalJSON, omitEmptyStr,
      Json.keys, Attribute.descriptionField, hd]

/-- C12: the encoded object of every Element has the key `tag`; it has the key
`description` exactly when Description is non-empty, the key `attributes` exactly when the
attribute list is non-empty, and the key `void` exactly when Void is true. The record of
every attribute has the key `description` exactly when its Description is non-empty. -/
theorem C12_empty_fields_are_omitted (e : Element) (a : Attribute) :
    "tag" ∈ e.marshal.keys ∧
    ("description" ∈ e.marshal.keys ↔ e.Description ≠ "") ∧
    ("attributes" ∈ e.marshal.keys ↔ e.Attributes ≠ []) ∧
    ("void" ∈ e.marshal.keys ↔ e.Void = true) ∧
    ("description" ∈ a.MarshalJSON.keys ↔ ∃ d, a.descriptionField = some d ∧ d ≠ "") := by
  refine ⟨?_, ?_, ?_, ?_, attribute_description_key a⟩
  all_goals
    by_cases hd : e.Description = "" <;> by_cases ha : e.Attributes = [] <;>
      by_cases hv : e.Void = true <;>
    simp +decide [Element.marshal, omitEmptyStr, omitEmptyAttrs, omitEmptyBool, Json.keys, hd, ha,
      hv]

/-- C13 (counterexample): the record of the global attribute `dir`, an enumerated
attribute with AllowEmpty and AllowCustom false, has the keys `allow_empty` and
`allow_custom`, both with the value false. -/
theorem C13_false_flags_are_written :
    (AttributeTypeEnum.MarshalJSON
        { Name := "dir", Description := "", Allowed := some {"ltr", "rtl", "auto"},
          AllowCustom := false, AllowEmpty := false }).keys
      = ["name", "allowed", "allow_empty", "allow_custom", "attribute_type"] ∧
    (AttributeTypeEnum.MarshalJSON
        { Name := "dir", Description := "", Allowed := some {"ltr", "rtl", "auto"},
          AllowCustom := false, AllowEmpty := false }).field "allow_empty"
      = some (Json.bool false) ∧
    (AttributeTypeEnum.MarshalJSON
        { Name := "dir", Description := "", Allowed := some {"ltr", "rtl", "auto"},
          AllowCustom := false, AllowEmpty := false }).field "allow_custom"
      = some (Json.bool false) := by
  simp +decide [AttributeTypeEnum.MarshalJSON, omitEmptyStr, Json.keys, Json.field, List.lookup]

/-- C13 (amended): the record of every AttributeTypeEnum has the keys `allowed`,
`allow_empty` and `allow_custom` whatever their values; `allow_empty` and `allow_custom`
carry the booleans AllowEmpty and AllowCustom, false included. Only an empty Description
is omitted. -/
theorem C13_enum_flags_always_written (a : AttributeTypeEnum) :
    "allowed" ∈ a.MarshalJSON.keys ∧
    "allow_empty" ∈ a.MarshalJSON.keys ∧
    "allow_custom" ∈ a.MarshalJSON.keys ∧
    a.MarshalJSON.field "allow_empty" = some (Json.bool a.AllowEmpty) ∧
    a.MarshalJSON.field "allow_custom" = some (Json.bool a.AllowCustom) ∧
    ("description" ∈ a.MarshalJSON.keys ↔ a.Description ≠ "") := by
  by_cases hd : a.Description = "" <;>
  simp +decide [AttributeTypeEnum.MarshalJSON, omitEmptyStr, Json.keys, Json.field, List.lookup, hd]

/-! ## Errors of the decoder -/

/-- C14 (counterexample): a Spec named `old` receives a document whose name and elements
are well-formed and whose attributes list holds the number 5. `UnmarshalJSON` returns an
error and the receiver's Name is already `new`. The same happens to the Tag, Description
and Void of an Element. -/
theorem C14_receiver_changed_on_attribute_error :
    Spec.UnmarshalJSON { Name := "old", Elements := [none], Attributes := [] }
        (Json.obj [("name", Json.str "new"), ("elements", Json.arr []),
                   ("attributes", Json.arr [Json.num "5"])])
      = ({ Name := "new", Elements := [], Attributes := [] }, some JsonError.unmarshalType) ∧
    Element.UnmarshalJSON { Tag := "old", Description := "old text", Void := false }
        (Json.obj [("tag", Json.str "new"), ("description", Json.str "new text"),
                   ("attributes", Json.arr [Json.num "5"]), ("void", Json.bool true)])
      = ({ Tag := "new", Description := "new text", Void := true },
         some JsonError.unmarshalType) := by
  constructor <;>
  simp +decide [Spec.UnmarshalJSON, Element.UnmarshalJSON, unmarshalStruct, unmarshalMembers,
    SpecTmp.setField, ElementTmp.setField, decodeString, decodeElements, decodeElementItems,
    decodeRawList, decodeBool, attrUnmarshal, attrLoop, attrStep]

/-- C14 (amended): a call of `Spec.UnmarshalJSON` ends in one of three ways. The decoding
of the top-level structure fails: the error is returned and the receiver is unchanged. The
top-level structure decodes and the attributes list fails: the error is returned, Name and
Elements are already the decoded ones, Attributes is unchanged. Both succeed: no error and
all three fields are the decoded ones. `Element.UnmarshalJSON` does the same with Tag,
Description and Void in place of Name and Elements. -/
theorem C14_decoding_outcomes (sp : Spec) (e : Element) (b : Json) :
    ((∃ err, unmarshalStruct SpecTmp.setField {} b = .error err ∧
        Spec.UnmarshalJSON sp b = (sp, some err)) ∨
     (∃ tmp err, unmarshalStruct SpecTmp.setField {} b = .ok tmp ∧
        attrUnmarshal tmp.Attributes = .error err ∧
        Spec.UnmarshalJSON sp b
          = ({ Name := tmp.Name, Elements := tmp.Elements, Attributes := sp.Attributes },
             some err)) ∨
     (∃ tmp attrs, unmarshalStruct SpecTmp.setField {} b = .ok tmp ∧
        attrUnmarshal tmp.Attributes = .ok attrs ∧
        Spec.UnmarshalJSON sp b
          = ({ Name := tmp.Name, Elements := tmp.Elements, Attributes := attrs }, none))) ∧
    ((∃ err, unmarshalStruct ElementTmp.setField {} b = .error err ∧
        Element.UnmarshalJSON e b = (e, some err)) ∨
     (∃ tmp err, unmarshalStruct ElementTmp.setField {} b = .ok tmp ∧
        attrUnmarshal tmp.Attributes = .error err ∧
        Element.UnmarshalJSON e b
          = ({ Tag := tmp.Tag, Description := tmp.Description, Attributes := e.Attributes,
               Void := tmp.Void, Text := e.Text }, some err)) ∨
     (∃ tmp attrs, unmarshalStruct ElementTmp.setField {} b = .ok tmp ∧
        attrUnmarshal tmp.Attributes = .ok attrs ∧
        Element.UnmarshalJSON e b
          = ({ Tag := tmp.Tag, Description := tmp.Description, Attributes := attrs,
               Void := tmp.Void, Text := e.Text }, none))) := by
  constructor
  · unfold Spec.UnmarshalJSON
    cases h1 : unmarshalStruct SpecTmp.setField {} b with
    | error err => exact Or.inl ⟨err, rfl, rfl⟩
    | ok tmp =>
      cases h2 : attrUnmarshal tmp.Attributes with
      | error err => exact Or.inr (Or.inl ⟨tmp, err, rfl, h2, by simp [h2]⟩)
      | ok attrs => exact Or.inr (Or.inr ⟨tmp, attrs, rfl, h2, by simp [h2]⟩)
  · unfold Element.UnmarshalJSON
    cases h1 : unmarshalStruct ElementTmp.setField {} b with
    | error err => exact Or.inl ⟨err, rfl, rfl⟩
    | ok tmp =>
      cases h2 : attrUnmarshal tmp.Attributes with
      | error err => exact Or.inr (Or.inl ⟨tmp, err, rfl, h2, by simp [h2]⟩)
      | ok attrs => exact Or.inr (Or.inr ⟨tmp, attrs, rfl, h2, by simp [h2]⟩)

/-- C15 (code defect): a well-formed enumerated record followed by a record that has no
`attribute_type` and an ill-shaped `allowed`. On its own the second record is dropped
without error: it passes the first pass and carries no discriminator. After the first
record the discriminator left in `tmpAttr` sends it to the second pass of the enumerated
variant, which fails, and `attrUnmarshal` returns an error. -/
theorem C15_error_from_inherited_discriminator :
    attrUnmarshal [Json.obj [("allowed", Json.num "5")]] = .ok [] ∧
    attrUnmarshal [enumRecord "dir" "" [] false false]
      = .ok [Attribute.enum { Name := "dir", Allowed := some ∅ }] ∧
    attrUnmarshal [enumRecord "dir" "" [] false false, Json.obj [("allowed", Json.num "5")]]
      = .error JsonError.unmarshalType := by
  refine ⟨?_, ?_, ?_⟩ <;>
  simp +decide [attrUnmarshal, attrLoop, attrStep, enumRecord, omitEmptyStr, unmarshalStruct,
    unmarshalMembers, TmpAttr.setField, decodeString, attrSwitch, decodeCase,
    unmarshalStructPtr, AttributeTypeEnum.setField, decodeStringSet, decodeSetMembers,
    decodeBool]

/-- The list version of all-or-nothing: `attrUnmarshal` fails exactly when some iteration
of its loop fails, and then no list is returned. -/
theorem attrLoop_error_iff (l : List Json) (t : TmpAttr) (out : List Attribute) :
    (∃ err, attrLoop t out l = .error err) ↔
      ∃ pre j post t1 out1, l = pre ++ j :: post ∧
        (∃ err, attrStep t1 j = .error err) ∧
        (∀ rest, attrLoop t out (pre ++ rest) = attrLoop t1 out1 rest) := by
  induction l generalizing t out with
  | nil =>
    constructor
    · rintro ⟨err, h⟩; simp [attrLoop] at h
    · rintro ⟨pre, j, post, _, _, h, _⟩
      cases pre <;> simp at h
  | cons x xs ih =>
    constructor
    · rintro ⟨err, h⟩
      cases hx : attrStep t x with
      | error e =>
        exact ⟨[], x, xs, t, out, rfl, ⟨e, hx⟩, fun _ => rfl⟩
      | ok r =>
        obtain ⟨t2, as⟩ := r
        simp only [attrLoop, hx] at h
        obtain ⟨pre, j, post, t1, out1, hl, hj, hrun⟩ := (ih t2 (out ++ as)).mp ⟨err, h⟩
        refine ⟨x :: pre, j, post, t1, out1, by rw [hl]; rfl, hj, fun rest => ?_⟩
        simp only [List.cons_append, attrLoop, hx]
        exact hrun rest
    · rintro ⟨pre, j, post, t1, out1, hl, ⟨e, hj⟩, hrun⟩
      have := hrun (j :: post)
      rw [← hl] at this
      rw [this]
      exact ⟨e, by simp [attrLoop, hj]⟩

/-! ## The classification of the harvested elements -/

theorem scanChild_harvest (st st1 : ScanState) (c : Node) (b : Bool) (hinv : ScanInv st)
    (hh : HarvestInv st) (h : scanChild st c = .ok (st1, b)) : HarvestInv st1 := by
  have hbase : HarvestInv (scanH2 st c) :=
    ⟨by rw [scanH2_p]; exact hh.elems, by rw [scanH2_p]; exact hh.curr⟩
  rcases scanChild_ok_cases st st1 c b h with ⟨h1, _⟩ | ⟨_, _, p1, p2, hp1, hp2, h1⟩
  · subst h1; exact hbase
  · subst h1
    have hd : (scanH2 st c).p.descParsed = false := by rw [scanH2_p]; exact hinv.descParsed
    have hp1inv : p1.descParsed = false ∧
        (∀ x ∈ p1.Spec.Elements, ∃ t d, x = some { Tag := t, Description := d }) ∧
        (∀ e, p1.currElement = some e → ∃ t, e = { Tag := t }) := by
      rcases scanH4_ok_cases _ _ _ hp1 with h2 | ⟨t, h2⟩
      · subst h2; exact ⟨hd, hbase.elems, hbase.curr⟩
      · subst h2
        refine ⟨hd, hbase.elems, fun e he => ⟨t, ?_⟩⟩
        simp only [Parser.Activate, Option.some.injEq] at he
        exact he.symm
    rcases scanP_cases p1 p2 c hp1inv.1 hp2 with h3 | ⟨e, _, _, hcur, h3⟩
    · subst h3; exact ⟨hp1inv.2.1, hp1inv.2.2⟩
    · subst h3
      obtain ⟨t, ht⟩ := hp1inv.2.2 e hcur
      refine ⟨?_, fun e he => by simp at he⟩
      intro x hx
      simp only [List.mem_append, List.mem_singleton] at hx
      rcases hx with hx | hx
      · exact hp1inv.2.1 x hx
      · exact ⟨t, gatherText c, by rw [hx, ht]⟩

theorem scanLoop_harvest (l : List Node) (st st1 : ScanState) (hinv : ScanInv st)
    (hh : HarvestInv st) (h : scanLoop st l = .ok st1) : HarvestInv st1 := by
  induction l generalizing st with
  | nil => simp only [scanLoop, Except.ok.injEq] at h; subst h; exact hh
  | cons c rest ih =>
    simp only [scanLoop] at h
    cases hc : scanChild st c with
    | error f => simp [hc] at h
    | ok r =>
      obtain ⟨st2, b⟩ := r
      have hinv2 := scanChild_inv st st2 c b hinv hc
      have hh2 := scanChild_harvest st st2 c b hinv hh hc
      cases b with
      | true => simp only [hc, Except.ok.injEq] at h; subst h; exact hh2
      | false => simp only [hc] at h; exact ih st2 hinv2 hh2 h

theorem initial_harvest : HarvestInv { p := initialParser } :=
  ⟨fun x hx => by simp [initialParser, NewSpecParser] at hx,
   fun e he => by simp [initialParser, NewSpecParser] at he⟩

theorem classify_fresh (t d : String) :
    (classify { Tag := t, Description := d }).Tag = t ∧
    (classify { Tag := t, Description := d }).Description = d ∧
    ((classify { Tag := t, Description := d }).Void = true ↔ t ∈ isVoid) ∧
    ((classify { Tag := t, Description := d }).Text = true ↔ t ∉ isVoid ∧ t ∉ disallowText) := by
  simp only [classify]
  cases attrFuncs t <;> dsimp only <;>
    by_cases hv : isVoid.contains t = true <;>
    by_cases hx : disallowText.contains t = true <;>
    simp_all

theorem classifyAll_fresh (es : List (Option Element))
    (h : ∀ x ∈ es, ∃ t d, x = some { Tag := t, Description := d }) :
    ∃ harvested : List Element, classifyAll es = .ok (harvested.map some) ∧
      harvested.length = es.length ∧
      ∀ e ∈ harvested, (e.Void = true ↔ e.Tag ∈ isVoid) ∧
        (e.Text = true ↔ e.Tag ∉ isVoid ∧ e.Tag ∉ disallowText) := by
  induction es with
  | nil => exact ⟨[], rfl, rfl, fun e he => by simp at he⟩
  | cons x rest ih =>
    obtain ⟨hs, hcs, hlen, hall⟩ := ih (fun y hy => h y (List.mem_cons_of_mem _ hy))
    obtain ⟨t, d, hx⟩ := h x (List.mem_cons_self _ _)
    subst hx
    refine ⟨classify { Tag := t, Description := d } :: hs, by simp [classifyAll, hcs],
      by simp [hlen], ?_⟩
    intro e he
    simp only [List.mem_cons] at he
    rcases he with he | he
    · subst he
      obtain ⟨h1, _, h3, h4⟩ := classify_fresh t d
      rw [h1]
      exact ⟨h3, h4⟩
    · exact hall e he

/-- What `GenerateHTMLSpec` returns, when it returns a Spec: the classified harvested
elements followed by the heading elements. -/
theorem GenerateHTMLSpec_ok_elements (doc : Node) (sp : Spec)
    (h : GenerateHTMLSpec doc = .ok sp) :
    ∃ harvested : List Element, sp.Elements = harvested.map some ++ headingElements ∧
      ∀ e ∈ harvested, (e.Void = true ↔ e.Tag ∈ isVoid) ∧
        (e.Text = true ↔ e.Tag ∉ isVoid ∧ e.Tag ∉ disallowText) := by
  unfold GenerateHTMLSpec at h
  cases hb : findTag (some doc) "body" with
  | none => simp [hb] at h
  | some body =>
    simp only [hb, generateFromBody] at h
    cases hs : scanLoop { p := initialParser } body.ChildNodes with
    | error f => simp [hs] at h
    | ok st =>
      have hinv := scanLoop_harvest _ _ _ initial_inv initial_harvest hs
      obtain ⟨harvested, hcs, _, hall⟩ := classifyAll_fresh _ hinv.elems
      simp only [hs, finishSpec, hcs, Except.ok.injEq] at h
      subst h
      exact ⟨harvested, rfl, hall⟩

/-- C16: every element harvested by the scan (every entry of the returned Elements before
the five headings) is void exactly when its tag is one of the thirteen tags of the void
list; an element tagged `img` is void and one tagged `p` is not. -/
theorem C16_void_iff_tag_in_void_list (doc : Node) (sp : Spec)
    (h : GenerateHTMLSpec doc = .ok sp) :
    ∃ harvested : List Element, sp.Elements = harvested.map some ++ headingElements ∧
      (∀ e ∈ harvested,
        (e.Void = true ↔ e.Tag ∈ ["area", "base", "br", "col", "embed", "hr", "img", "input",
          "link", "meta", "source", "track", "wbr"])) ∧
      (∀ e ∈ harvested, e.Tag = "img" → e.Void = true) ∧
      (∀ e ∈ harvested, e.Tag = "p" → e.Void = false) := by
  obtain ⟨harvested, hel, hall⟩ := GenerateHTMLSpec_ok_elements doc sp h
  refine ⟨harvested, hel, fun e he => (hall e he).1, fun e he ht => ?_, fun e he ht => ?_⟩
  · exact ((hall e he).1).mpr (by rw [ht]; decide)
  · have hn : ¬ e.Void = true := fun hv => by
      have := ((hall e he).1).mp hv
      rw [ht] at this
      exact absurd this (by decide)
    simpa using hn

/-- C17: every element harvested by the scan has the text-bearing flag exactly when its
tag is neither in the void list nor in the container-only denylist, so none is both void
and text-bearing; an element tagged `img` does not get the flag and one tagged `p` does. -/
theorem C17_text_iff_not_void_not_denied (doc : Node) (sp : Spec)
    (h : GenerateHTMLSpec doc = .ok sp) :
    ∃ harvested : List Element, sp.Elements = harvested.map some ++ headingElements ∧
      (∀ e ∈ harvested, (e.Text = true ↔ e.Tag ∉ isVoid ∧ e.Tag ∉ disallowText)) ∧
      (∀ e ∈ harvested, ¬ (e.Void = true ∧ e.Text = true)) ∧
      (∀ e ∈ harvested, e.Tag = "img" → e.Text = false) ∧
      (∀ e ∈ harvested, e.Tag = "p" → e.Text = true) := by
  obtain ⟨harvested, hel, hall⟩ := GenerateHTMLSpec_ok_elements doc sp h
  refine ⟨harvested, hel, fun e he => (hall e he).2, fun e he hvt => ?_, fun e he ht => ?_,
    fun e he ht => ?_⟩
  · exact (((hall e he).2).mp hvt.2).1 (((hall e he).1).mp hvt.1)
  · have hn : ¬ e.Text = true := fun hv => by
      have := (((hall e he).2).mp hv).1
      rw [ht] at this
      exact absurd this (by decide)
    simpa using hn
  · exact ((hall e he).2).mpr (by rw [ht]; decide)

/-- Witness of C16: a section with the entries of `img` and `p`. -/
theorem C16_void_iff_tag_in_void_list_witness :
    ∃ harvested : List Element,
      imgAndPSpec.Elements = harvested.map some ++ headingElements ∧
      (∀ e ∈ harvested,
        (e.Void = true ↔ e.Tag ∈ ["area", "base", "br", "col", "embed", "hr", "img", "input",
          "link", "meta", "source", "track", "wbr"])) ∧
      (∀ e ∈ harvested, e.Tag = "img" → e.Void = true) ∧
      (∀ e ∈ harvested, e.Tag = "p" → e.Void = false) :=
  C16_void_iff_tag_in_void_list documentWithImgAndP imgAndPSpec rfl

/-- Witness of C17: a section with the entries of `img` and `p`. -/
theorem C17_text_iff_not_void_not_denied_witness :
    ∃ harvested : List Element,
      imgAndPSpec.Elements = harvested.map some ++ headingElements ∧
      (∀ e ∈ harvested, (e.Text = true ↔ e.Tag ∉ isVoid ∧ e.Tag ∉ disallowText)) ∧
      (∀ e ∈ harvested, ¬ (e.Void = true ∧ e.Text = true)) ∧
      (∀ e ∈ harvested, e.Tag = "img" → e.Text = false) ∧
      (∀ e ∈ harvested, e.Tag = "p" → e.Text = true) :=
  C17_text_iff_not_void_not_denied documentWithImgAndP imgAndPSpec rfl

/-! ## The tag of an entry, faults, and the end of the section -/

/-- C18 (code defect): the sub-heading's `code` element has the children `b` (an element
holding the text `x`) and the text `y`, so its text content is `xy`. The harvested element
is tagged `b`, the data of the first child. -/
theorem C18_tag_is_first_child_data :
    gatherText nestedCode = "xy" ∧
    GenerateHTMLSpec documentWithNestedCode
      = .ok { Name := "HTML",
              Elements := some { Tag := "b", Description := "Good description", Text := true }
                :: headingElements,
              Attributes := GlobalAttributes } := by
  constructor
  · decide
  · rfl

/-- C19 (code defect): on a document with a body whose section has a sub-heading with an
empty `code` element, `GenerateHTMLSpec` returns neither a Spec nor an error: reading
`tagNode.FirstChild.Data` dereferences nil. -/
theorem C19_no_spec_on_empty_code :
    (findTag (some documentWithEmptyCode) "body").isSome = true ∧
    GenerateHTMLSpec documentWithEmptyCode = .error Failure.nilDeref := by
  constructor
  · rfl
  · rfl

theorem scanLoop_spec_fixed (l : List Node) (st st1 : ScanState)
    (h : scanLoop st l = .ok st1) :
    st1.p.Spec.Name = st.p.Spec.Name ∧ st1.p.Spec.Attributes = st.p.Spec.Attributes := by
  induction l generalizing st with
  | nil => simp only [scanLoop, Except.ok.injEq] at h; subst h; exact ⟨rfl, rfl⟩
  | cons c rest ih =>
    simp only [scanLoop] at h
    cases hc : scanChild st c with
    | error f => simp [hc] at h
    | ok r =>
      obtain ⟨st2, b⟩ := r
      have hstep : st2.p.Spec.Name = st.p.Spec.Name ∧
          st2.p.Spec.Attributes = st.p.Spec.Attributes := by
        rcases scanChild_ok_cases st st2 c b hc with ⟨h1, _⟩ | ⟨_, _, p1, p2, hp1, hp2, h1⟩
        · subst h1; rw [scanH2_p]; exact ⟨rfl, rfl⟩
        · subst h1
          have e1 : p1.Spec = st.p.Spec := by
            rcases scanH4_ok_cases _ _ _ hp1 with h2 | ⟨t, h2⟩
            · rw [h2, scanH2_p]
            · rw [h2]; simp only [Parser.Activate]; rw [scanH2_p]
          have e2 : p2.Spec.Name = p1.Spec.Name ∧ p2.Spec.Attributes = p1.Spec.Attributes := by
            unfold scanP at hp2
            split at hp2
            · split at hp2
              · split at hp2
                · injection hp2 with hp2; subst hp2; exact ⟨rfl, rfl⟩
                · cases hp2
              · injection hp2 with hp2; subst hp2; exact ⟨rfl, rfl⟩
            · injection hp2 with hp2; subst hp2; exact ⟨rfl, rfl⟩
          exact ⟨by rw [← e1]; exact e2.1, by rw [← e1]; exact e2.2⟩
      cases b with
      | true => simp only [hc, Except.ok.injEq] at h; subst h; exact hstep
      | false =>
        simp only [hc] at h
        obtain ⟨h1, h2⟩ := ih st2 h
        exact ⟨h1.trans hstep.1, h2.trans hstep.2⟩

/-- Whenever `GenerateHTMLSpec` returns a Spec, its Name is `HTML` and its Attributes are
the 31 global attributes. -/
theorem GenerateHTMLSpec_ok_name_attributes (doc : Node) (sp : Spec)
    (h : GenerateHTMLSpec doc = .ok sp) :
    sp.Name = "HTML" ∧ sp.Attributes = GlobalAttributes ∧ GlobalAttributes.length = 31 := by
  unfold GenerateHTMLSpec at h
  cases hb : findTag (some doc) "body" with
  | none => simp [hb] at h
  | some body =>
    simp only [hb, generateFromBody] at h
    cases hs : scanLoop { p := initialParser } body.ChildNodes with
    | error f => simp [hs] at h
    | ok st =>
      obtain ⟨h1, h2⟩ := scanLoop_spec_fixed _ _ _ hs
      simp only [hs, finishSpec] at h
      cases hc : classifyAll st.p.Spec.Elements with
      | error f => simp [hc] at h
      | ok es =>
        simp only [hc, Except.ok.injEq] at h
        subst h
        exact ⟨h1, h2, rfl⟩

theorem scanChild_heading2 (st : ScanState) (c : Node) (hd : c.Data = "h2") :
    ∃ st1 b, scanChild st c = .ok (st1, b) ∧ st1.p = st.p := by
  have h4 : ∀ p, scanH4 p c = .ok p := fun p => scanH4_of_ne p c (by rw [hd]; decide)
  have hp : ∀ p, scanP p c = .ok p := fun p => scanP_of_ne p c (by rw [hd]; decide)
  rw [scanChild_eq]
  by_cases he : (scanH2 st c).end_ = true
  · rw [if_pos he]; exact ⟨_, _, rfl, scanH2_p st c⟩
  · rw [if_neg he]
    by_cases hs : (scanH2 st c).start = true
    · rw [if_pos hs, h4]
      simp only [hp]
      exact ⟨_, _, rfl, scanH2_p st c⟩
    · rw [if_neg hs]; exact ⟨_, _, rfl, scanH2_p st c⟩

/-- C20: an `h2` appended after the last child of body changes nothing. For every list of
body children, with or without a section heading in it, `GenerateHTMLSpec` returns the
same result, the same Elements in particular, as for the list with one more child named
`h2` at the end; the section may run to the end of the document. -/
theorem C20_section_may_end_with_document (doc1 doc2 body1 body2 h2x : Node)
    (children : List Node)
    (hb1 : findTag (some doc1) "body" = some body1)
    (hb2 : findTag (some doc2) "body" = some body2)
    (hx : h2x.Data = "h2")
    (hc1 : body1.ChildNodes = children)
    (hc2 : body2.ChildNodes = children ++ [h2x]) :
    GenerateHTMLSpec doc1 = GenerateHTMLSpec doc2 ∧
    (GenerateHTMLSpec doc1).map (·.Elements) = (GenerateHTMLSpec doc2).map (·.Elements) := by
  have key : GenerateHTMLSpec doc1 = GenerateHTMLSpec doc2 := by
    rw [GenerateHTMLSpec_of_body doc1 body1 hb1, GenerateHTMLSpec_of_body doc2 body2 hb2,
      hc1, hc2]
    apply generateFromBody_congr
    apply map_spec_of_map_p
    rw [scanAll_append]
    cases h : scanAll { p := initialParser } children with
    | error f => rfl
    | ok st =>
      obtain ⟨st1, b, hstep, hp⟩ := scanChild_heading2 st h2x hx
      simp [scanAll, hstep, hp, Except.map]
  exact ⟨key, by rw [key]⟩

/-- Witness of C20: the section of the test document running to the end of the body, and
the same with the closing heading. -/
theorem C20_section_may_end_with_document_witness :
    GenerateHTMLSpec
        (documentWithBody [testSectionHeading, testSubHeading, testParagraph])
      = GenerateHTMLSpec
        (documentWithBody ([testSectionHeading, testSubHeading, testParagraph]
          ++ [testClosingHeading])) ∧
    (GenerateHTMLSpec
        (documentWithBody [testSectionHeading, testSubHeading, testParagraph])).map
          (·.Elements)
      = (GenerateHTMLSpec
        (documentWithBody ([testSectionHeading, testSubHeading, testParagraph]
          ++ [testClosingHeading]))).map (·.Elements) :=
  C20_section_may_end_with_document _ _
    (elementNode "body" [] [testSectionHeading, testSubHeading, testParagraph])
    (elementNode "body" [] ([testSectionHeading, testSubHeading, testParagraph]
      ++ [testClosingHeading]))
    testClosingHeading [testSectionHeading, testSubHeading, testParagraph]
    rfl rfl rfl rfl rfl

/-! ## The merge of the static tables and the parser operations -/

theorem classify_scanned (td : String × String) :
    (classify (scannedElement td)).Tag = td.1 ∧
    (classify (scannedElement td)).Description = td.2 ∧
    (classify (scannedElement td)).Attributes = (attrFuncs td.1).getD [] := by
  simp only [classify, scannedElement]
  cases attrFuncs td.1 <;> dsimp only <;>
    by_cases hv : isVoid.contains td.1 = true <;>
    by_cases hx : disallowText.contains td.1 = true <;>
    simp_all

theorem classifyAll_scanned (es : List (Option Element))
    (h : ∀ x ∈ es, ∃ t d, x = some { Tag := t, Description := d }) :
    ∃ scanned : List (String × String),
      es = scanned.map (fun td => some (scannedElement td)) ∧
      classifyAll es = .ok (scanned.map fun td => some (classify (scannedElement td))) := by
  induction es with
  | nil => exact ⟨[], rfl, rfl⟩
  | cons x rest ih =>
    obtain ⟨scanned, hes, hcs⟩ := ih (fun y hy => h y (List.mem_cons_of_mem _ hy))
    obtain ⟨t, d, hx⟩ := h x (List.mem_cons_self _ _)
    subst hx
    refine ⟨(t, d) :: scanned, ?_, ?_⟩
    · rw [List.map_cons, ← hes]; rfl
    · simp only [classifyAll, hcs, List.map_cons]; rfl

/-- C21: every element harvested by the scan is returned with the Tag and Description the
scan gave it and with the attribute list that `attrFuncs` holds for its tag, or with no
attributes when the tag is not a key of `attrFuncs`. -/
theorem C21_static_attributes_merged_by_tag (doc : Node) (sp : Spec)
    (h : GenerateHTMLSpec doc = .ok sp) :
    ∃ (body : Node) (st : ScanState) (scanned : List (String × String)),
      findTag (some doc) "body" = some body ∧
      scanLoop { p := initialParser } body.ChildNodes = .ok st ∧
      st.p.Spec.Elements = scanned.map (fun td => some (scannedElement td)) ∧
      sp.Elements
        = (scanned.map fun td => some (classify (scannedElement td))) ++ headingElements ∧
      ∀ td ∈ scanned,
        (classify (scannedElement td)).Tag = td.1 ∧
        (classify (scannedElement td)).Description = td.2 ∧
        (classify (scannedElement td)).Attributes = (attrFuncs td.1).getD [] ∧
        (td.1 ∉ attrFuncsEntries.map Prod.fst →
          (classify (scannedElement td)).Attributes = []) := by
  unfold GenerateHTMLSpec at h
  cases hb : findTag (some doc) "body" with
  | none => simp [hb] at h
  | some body =>
    simp only [hb, generateFromBody] at h
    cases hs : scanLoop { p := initialParser } body.ChildNodes with
    | error f => simp [hs] at h
    | ok st =>
      have hinv := scanLoop_harvest _ _ _ initial_inv initial_harvest hs
      obtain ⟨scanned, hes, hcs⟩ := classifyAll_scanned _ hinv.elems
      simp only [hs, finishSpec, hcs, Except.ok.injEq] at h
      subst h
      refine ⟨body, st, scanned, rfl, hs, hes, rfl, fun td _ => ?_⟩
      obtain ⟨h1, h2, h3⟩ := classify_scanned td
      refine ⟨h1, h2, h3, fun hk => ?_⟩
      rw [h3]
      have hnone : attrFuncs td.1 = none := by
        unfold attrFuncs
        rw [List.lookup_eq_none_iff]
        intro p hp
        simp only [bne_iff_ne, ne_eq]
        intro heq
        apply hk
        rw [List.mem_map]
        exact ⟨p, hp, heq.symm⟩
      rw [hnone]; rfl

/-- Witness of C21: a section with the entries of `img` and `p`. -/
theorem C21_static_attributes_merged_by_tag_witness :
    ∃ (body : Node) (st : ScanState) (scanned : List (String × String)),
      findTag (some documentWithImgAndP) "body" = some body ∧
      scanLoop { p := initialParser } body.ChildNodes = .ok st ∧
      st.p.Spec.Elements = scanned.map (fun td => some (scannedElement td)) ∧
      imgAndPSpec.Elements
        = (scanned.map fun td => some (classify (scannedElement td))) ++ headingElements ∧
      ∀ td ∈ scanned,
        (classify (scannedElement td)).Tag = td.1 ∧
        (classify (scannedElement td)).Description = td.2 ∧
        (classify (scannedElement td)).Attributes = (attrFuncs td.1).getD [] ∧
        (td.1 ∉ attrFuncsEntries.map Prod.fst →
          (classify (scannedElement td)).Attributes = []) :=
  C21_static_attributes_merged_by_tag documentWithImgAndP imgAndPSpec rfl

/-- C22: every attribute of the static catalogue, the entries of `GlobalAttributes` and
of every list in `attrFuncs`, has a name, and the name is not empty. -/
theorem C22_catalogue_names_not_empty :
    (∀ a ∈ GlobalAttributes, ∃ n, a.GetName = some n ∧ n ≠ "") ∧
    (∀ entry ∈ attrFuncsEntries, ∀ a ∈ entry.2, ∃ n, a.GetName = some n ∧ n ≠ "") := by
  have key : ∀ a : Attribute, a.hasName = true → ∃ n, a.GetName = some n ∧ n ≠ "" := by
    intro a ha
    unfold Attribute.hasName at ha
    cases hn : a.GetName with
    | none => simp [hn] at ha
    | some n => exact ⟨n, rfl, by simpa [hn] using ha⟩
  have h1 : GlobalAttributes.all Attribute.hasName = true := by decide
  have h2 : attrFuncsEntries.all (fun entry => entry.2.all Attribute.hasName) = true := by
    decide
  constructor
  · intro a ha
    exact key a (List.all_eq_true.mp h1 a ha)
  · intro entry he a ha
    exact key a (List.all_eq_true.mp (List.all_eq_true.mp h2 entry he) a ha)

/-- C23: `Reset` appends the current element to `Spec.Elements`, which grows by exactly
that one entry after the earlier ones, sets active to false, currElement to nil and
descParsed to false, and leaves the Name and the Attributes of the Spec unchanged. -/
theorem C23_reset_appends_and_clears (p : Parser) :
    p.Reset.Spec.Elements = p.Spec.Elements ++ [p.currElement] ∧
    p.Reset.Spec.Elements.length = p.Spec.Elements.length + 1 ∧
    p.Reset.Spec.Elements.take p.Spec.Elements.length = p.Spec.Elements ∧
    p.Reset.active = false ∧
    p.Reset.currElement = none ∧
    p.Reset.descParsed = false ∧
    p.Reset.Spec.Name = p.Spec.Name ∧
    p.Reset.Spec.Attributes = p.Spec.Attributes := by
  simp [Parser.Reset]

/-- C24: `Activate t` sets active to true and the current element to a new Element with
Tag `t`, empty Description, no Attributes and Void false; the Spec and descParsed are
unchanged. -/
theorem C24_activate_starts_fresh_element (p : Parser) (t : String) :
    (p.Activate t).active = true ∧
    (p.Activate t).currElement
      = some { Tag := t, Description := "", Attributes := [], Void := false } ∧
    (p.Activate t).Spec = p.Spec ∧
    (p.Activate t).descParsed = p.descParsed := by
  simp [Parser.Activate]

/-! ## Record-wise decoding, sub-headings, node types and faults -/

/-- C26 (code defect): a String record followed by a record without `attribute_type`.
Decoded on its own the second record is dropped; decoded after the first it inherits the
discriminator left in `tmpAttr` and becomes a second String attribute, so decoding the
concatenation is not the concatenation of the decodings. -/
theorem C26_record_inherits_discriminator :
    attrUnmarshal [Json.obj [("name", Json.str "id"),
                             ("attribute_type", Json.str "AttributeTypeString")]]
      = .ok [Attribute.str { Name := "id" }] ∧
    attrUnmarshal [Json.obj [("name", Json.str "title")]] = .ok [] ∧
    attrUnmarshal ([Json.obj [("name", Json.str "id"),
                              ("attribute_type", Json.str "AttributeTypeString")]]
        ++ [Json.obj [("name", Json.str "title")]])
      = .ok [Attribute.str { Name := "id" }, Attribute.str { Name := "title" }] := by
  refine ⟨?_, ?_, ?_⟩ <;>
  simp +decide [attrUnmarshal, attrLoop, attrStep, unmarshalStruct, unmarshalMembers,
    TmpAttr.setField, decodeString, attrSwitch, decodeCase, unmarshalStructPtr,
    AttributeTypeString.setField]

/-- The sub-headings on which the loop body does not fault: inside the section (start
set, end not set) a child named `h4` whose `id` attribute contains `the-` and `-element`
and whose first `code` descendant has a first child starts an element record with that
child's data as tag; a child named `h4` with no `id` attribute, or whose `id` lacks either
substring, or with no `code` descendant, starts no record and leaves the state
unchanged. -/
theorem scanChild_sub_heading (st : ScanState) (child : Node)
    (hs : st.start = true) (he : st.end_ = false) (hd : child.Data = "h4") :
    (∀ code first, (getAttribute child.Attr "id").2 = true →
      strings_Contains (getAttribute child.Attr "id").1 "the-" = true →
      strings_Contains (getAttribute child.Attr "id").1 "-element" = true →
      findTag (some child) "code" = some code → code.FirstChild = some first →
      scanChild st child = .ok ({ st with p := st.p.Activate first.Data }, false)) ∧
    (((getAttribute child.Attr "id").2 = false ∨
      strings_Contains (getAttribute child.Attr "id").1 "the-" = false ∨
      strings_Contains (getAttribute child.Attr "id").1 "-element" = false ∨
      findTag (some child) "code" = none) →
      scanChild st child = .ok (st, false)) := by
  have h2 : scanH2 st child = st := scanH2_of_ne st child (by rw [hd]; decide)
  have hp : ∀ p, scanP p child = .ok p := fun p => scanP_of_ne p child (by rw [hd]; decide)
  have hne : ¬ st.end_ = true := by rw [he]; decide
  constructor
  · intro code first h1 ha hb hc hf
    have hh : isElementHeading child = true := by
      simp [isElementHeading, hd, h1, ha, hb, hc]
    obtain ⟨tagNode, htag, h4⟩ := scanH4_of_heading st.p child hh
    rw [hc] at htag
    injection htag with htag
    subst htag
    rw [hf] at h4
    rw [scanChild_eq, h2, if_neg hne, if_pos hs, h4]
    simp only [hp]
  · intro hnot
    have hh : isElementHeading child = false := by
      unfold isElementHeading
      rcases hnot with h | h | h | h
      · simp [h]
      · simp [h]
      · simp [h]
      · simp [h]
    rw [scanChild_eq, h2, if_neg hne, if_pos hs, scanH4_of_not_heading st.p child hh]
    simp only [hp]

/-- The remaining sub-headings: inside the section a child named `h4` whose `id`
attribute contains `the-` and `-element` and whose first `code` descendant has no children
makes the loop body dereference nil. -/
theorem scanChild_childless_code (st : ScanState) (child code : Node)
    (hs : st.start = true) (he : st.end_ = false) (hd : child.Data = "h4")
    (h1 : (getAttribute child.Attr "id").2 = true)
    (ha : strings_Contains (getAttribute child.Attr "id").1 "the-" = true)
    (hb : strings_Contains (getAttribute child.Attr "id").1 "-element" = true)
    (hc : findTag (some child) "code" = some code) (hf : code.FirstChild = none) :
    scanChild st child = .error Failure.nilDeref := by
  have h2 : scanH2 st child = st := scanH2_of_ne st child (by rw [hd]; decide)
  have hne : ¬ st.end_ = true := by rw [he]; decide
  have hh : isElementHeading child = true := by
    simp [isElementHeading, hd, h1, ha, hb, hc]
  obtain ⟨tagNode, htag, h4⟩ := scanH4_of_heading st.p child hh
  rw [hc] at htag
  injection htag with htag
  subst htag
  rw [hf] at h4
  rw [scanChild_eq, h2, if_neg hne, if_pos hs, h4]

/-- C27 (code defect): the sub-heading `<h4 id="the-hr-element"><code></code> element</h4>`
has an `id` attribute that contains `the-` and `-element`, and it has a `code` descendant.
Met inside the section it starts no element record: in every state of the scan the loop
body ends in a nil dereference, and so does `GenerateHTMLSpec` on a document whose section
holds it. -/
theorem C27_matching_sub_heading_starts_no_record :
    childlessCodeSubHeading.Data = "h4" ∧
    getAttribute childlessCodeSubHeading.Attr "id" = ("the-hr-element", true) ∧
    strings_Contains "the-hr-element" "the-" = true ∧
    strings_Contains "the-hr-element" "-element" = true ∧
    (findTag (some childlessCodeSubHeading) "code").isSome = true ∧
    (∀ st : ScanState, st.start = true → st.end_ = false →
      scanChild st childlessCodeSubHeading = .error Failure.nilDeref) ∧
    GenerateHTMLSpec
        (documentWithBody [testSectionHeading, childlessCodeSubHeading, testParagraph])
      = .error Failure.nilDeref := by
  refine ⟨rfl, rfl, by decide, by decide, rfl, fun st hs he => ?_, rfl⟩
  exact scanChild_childless_code st childlessCodeSubHeading (elementNode "code" [] []) hs he
    rfl rfl (by decide) (by decide) rfl rfl

/-- C28 (code defect): a text node with the text `h2` between the sub-heading and the
paragraph ends the section, and a text node with the text `p` is read as the description
paragraph. Without the text node the element `tag` is harvested with the description of
the paragraph. -/
theorem C28_text_nodes_drive_the_scan :
    GenerateHTMLSpec documentWithoutText
      = .ok { Name := "HTML",
              Elements := some { Tag := "tag", Description := "Good description",
                                 Text := true } :: headingElements,
              Attributes := GlobalAttributes } ∧
    GenerateHTMLSpec documentWithTextH2
      = .ok { Name := "HTML", Elements := headingElements, Attributes := GlobalAttributes } ∧
    GenerateHTMLSpec documentWithTextP
      = .ok { Name := "HTML",
              Elements := some { Tag := "tag", Description := "p", Text := true }
                :: headingElements,
              Attributes := GlobalAttributes } := by
  refine ⟨?_, ?_, ?_⟩ <;> rfl

/-- C29 (code defect): the sub-heading of `documentWithEmptyCode` matches and its first
`code` descendant has no children, so `FirstChild` is nil; the loop body and with it
`GenerateHTMLSpec` end in a nil dereference. -/
theorem C29_fault_on_code_without_children :
    isElementHeading
      (elementNode "h4" [{ Key := "id", Val := "the-empty-element" }]
        [elementNode "code" [] []]) = true ∧
    (elementNode "code" [] []).FirstChild.isNone = true ∧
    scanH4 initialParser
      (elementNode "h4" [{ Key := "id", Val := "the-empty-element" }]
        [elementNode "code" [] []]) = .error Failure.nilDeref ∧
    GenerateHTMLSpec documentWithEmptyCode = .error Failure.nilDeref := by
  refine ⟨by decide, rfl, rfl, rfl⟩

/-! ## The text of a node -/

theorem concatStrings_append (l1 l2 : List String) :
    concatStrings (l1 ++ l2) = concatStrings l1 ++ concatStrings l2 := by
  induction l1 with
  | nil => simp [concatStrings]
  | cons s rest ih => simp [concatStrings, ih, String.append_assoc]

mutual
theorem gatherTextInto_eq (n : Node) (b : String) (h : textNodesAreLeaves n = true) :
    gatherTextInto n b = b ++ concatStrings ((textNodeData n).map cleanText) := by
  match n, h with
  | .mk t d a cs, h =>
    simp only [textNodesAreLeaves, Bool.and_eq_true, Bool.or_eq_true, bne_iff_ne, ne_eq,
      List.isEmpty_iff] at h
    by_cases ht : t = NodeType.TextNode
    · have hcs : cs = [] := by
        rcases h.1 with h1 | h1
        · exact absurd ht h1
        · exact h1
      subst hcs
      simp [gatherTextInto, textNodeData, textNodeDataOfList, ht, concatStrings]
    · have ih := gatherTextChildren_eq cs b h.2
      simp [gatherTextInto, textNodeData, ht, ih]
theorem gatherTextChildren_eq (cs : List Node) (b : String)
    (h : textNodesAreLeavesInList cs = true) :
    gatherTextChildren cs b = b ++ concatStrings ((textNodeDataOfList cs).map cleanText) := by
  match cs, h with
  | [], _ => simp [gatherTextChildren, textNodeDataOfList, concatStrings]
  | c :: rest, h =>
    simp only [textNodesAreLeavesInList, Bool.and_eq_true] at h
    have ih1 := gatherTextInto_eq c b h.1
    have ih2 := gatherTextChildren_eq rest (gatherTextInto c b) h.2
    rw [gatherTextChildren, ih2, ih1]
    simp [textNodeDataOfList, concatStrings_append, String.append_assoc]
end

/-- C30: for every node whose text nodes are leaves (every node of a parsed document),
`gatherText` is the concatenation, in document order, of the cleaned data of the text nodes
of the subtree, the node itself included, where cleaning removes every `"\n   "` and then
every `"\n "`; a subtree without text nodes gives the empty string. -/
theorem C30_gatherText_concatenates_cleaned_text (n : Node)
    (h : textNodesAreLeaves n = true) :
    gatherText n = concatStrings ((textNodeData n).map cleanText) ∧
    (∀ d, cleanText d = strings_RemoveAll (strings_RemoveAll d "\n   ") "\n ") ∧
    (textNodeData n = [] → gatherText n = "") := by
  have key : gatherText n = concatStrings ((textNodeData n).map cleanText) := by
    rw [gatherText, gatherTextInto_eq n "" h]
    simp
  refine ⟨key, fun d => rfl, fun hnil => ?_⟩
  rw [key, hnil]
  rfl

/-- Witness of C30: a paragraph with text, an element holding text, and text with the
indentation that is removed. -/
theorem C30_gatherText_concatenates_cleaned_text_witness :
    gatherText (elementNode "p" []
        [textNode "The ", elementNode "code" [] [textNode "img"], textNode "\n   element"])
      = concatStrings ((textNodeData (elementNode "p" []
        [textNode "The ", elementNode "code" [] [textNode "img"],
         textNode "\n   element"])).map cleanText) ∧
    (∀ d, cleanText d = strings_RemoveAll (strings_RemoveAll d "\n   ") "\n ") ∧
    (textNodeData (elementNode "p" []
        [textNode "The ", elementNode "code" [] [textNode "img"], textNode "\n   element"])
        = [] →
      gatherText (elementNode "p" []
        [textNode "The ", elementNode "code" [] [textNode "img"], textNode "\n   element"])
        = "") :=
  C30_gatherText_concatenates_cleaned_text _ (by decide)

/-! ## The reference characterisation of the scan -/

/-- C25 (code defect): in a section made of the sub-heading for `tag`, a text node and
the paragraph, the reference harvest is the element `tag` with the text of the paragraph.
When the text node holds `p`, `GenerateHTMLSpec` takes the description from the text
node; when it holds `h2`, `GenerateHTMLSpec` ends the section there and harvests
nothing. -/
theorem C25_scan_differs_from_reference :
    referenceHarvest [testSectionHeading, testSubHeading, textNode "p", testParagraph]
      = [("tag", "Good description")] ∧
    GenerateHTMLSpec documentWithTextP
      = .ok { Name := "HTML",
              Elements := some (classify (scannedElement ("tag", "p"))) :: headingElements,
              Attributes := GlobalAttributes } ∧
    referenceHarvest [testSectionHeading, testSubHeading, textNode "h2", testParagraph]
      = [("tag", "Good description")] ∧
    GenerateHTMLSpec documentWithTextH2
      = .ok { Name := "HTML", Elements := headingElements, Attributes := GlobalAttributes } := by
  refine ⟨by decide, rfl, by decide, rfl⟩

theorem indexFunc_ge {α : Type} (f : α → Bool) (l : List α) : -1 ≤ indexFunc f l := by
  induction l with
  | nil => simp [indexFunc]
  | cons a as ih =>
    simp only [indexFunc]
    split
    · omega
    · split <;> omega

theorem getIDIndex_cons_of_ne (a : HtmlAttribute) (as : List HtmlAttribute) (k v : String)
    (h : a.Key ≠ k) : (getIDIndex (a :: as) k v).2 = (getIDIndex as k v).2 := by
  have hge := indexFunc_ge (fun attr : HtmlAttribute => attr.Key == k) as
  have hf : (a.Key == k) = false := by simpa using h
  unfold getIDIndex
  simp only [indexFunc, hf]
  by_cases hi : indexFunc (fun attr : HtmlAttribute => attr.Key == k) as = -1
  · simp [hi]
  · have hnat : (indexFunc (fun attr : HtmlAttribute => attr.Key == k) as + 1).toNat
        = (indexFunc (fun attr : HtmlAttribute => attr.Key == k) as).toNat + 1 := by
      omega
    have hne : indexFunc (fun attr : HtmlAttribute => attr.Key == k) as + 1 ≠ -1 := by omega
    simp only [hi, if_false, Bool.false_eq_true, ne_eq, hne, not_false_eq_true, if_true, hnat,
      List.get?_cons_succ]
    cases as.get? (indexFunc (fun attr : HtmlAttribute => attr.Key == k) as).toNat with
    | none => rfl
    | some attr => by_cases hv : attr.Val = v <;> simp [hv]

/-- The flag of `getIDIndex` is set exactly when `getAttribute` finds the value: both look
at the first attribute with the key. -/
theorem getIDIndex_snd (attrs : List HtmlAttribute) (k v : String) :
    (getIDIndex attrs k v).2 = (getAttribute attrs k == (v, true)) := by
  induction attrs with
  | nil => simp [getIDIndex, indexFunc, getAttribute]
  | cons a as ih =>
    by_cases h : a.Key = k
    · by_cases hv : a.Val = v <;> simp [getIDIndex, indexFunc, getAttribute, h, hv]
    · rw [getIDIndex_cons_of_ne a as k v h, ih]
      simp [getAttribute, h]

theorem scanH2_in_section_of_h2 (st : ScanState) (c : Node) (hs : st.start = true)
    (hd : c.Data = "h2") : (scanH2 st c).end_ = true :=
  scanH2_second_heading st c hd (Or.inl hs)

/-- Inside the section, when the children named `h2`, `h4` or `p` are element nodes, the
scan collects what the reference harvest collects up to the next `h2`. -/
theorem scanLoop_in_section (l : List Node) (st st1 : ScanState)
    (hel : ∀ c ∈ l, c.Type_ = NodeType.ElementNode ∨
      (c.Data ≠ "h2" ∧ c.Data ≠ "h4" ∧ c.Data ≠ "p"))
    (hs : st.start = true) (he : st.end_ = false)
    (hinv : ScanInv st) (hh : HarvestInv st)
    (h : scanLoop st l = .ok st1) :
    st1.p.Spec.Elements
      = st.p.Spec.Elements
        ++ (referenceHarvestFrom (pendingTag st.p)
              (l.takeWhile fun c => !isElementNamed "h2" c)).map
            (fun td => some (scannedElement td)) := by
  induction l generalizing st with
  | nil =>
    simp only [scanLoop, Except.ok.injEq] at h
    subst h
    simp [referenceHarvestFrom]
  | cons c rest ih =>
    have hc0 := hel c (List.mem_cons_self _ _)
    have hrest : ∀ d ∈ rest, d.Type_ = NodeType.ElementNode ∨
        (d.Data ≠ "h2" ∧ d.Data ≠ "h4" ∧ d.Data ≠ "p") :=
      fun d hd => hel d (List.mem_cons_of_mem _ hd)
    have hne : ¬ st.end_ = true := by rw [he]; decide
    simp only [scanLoop] at h
    by_cases h2 : c.Data = "h2"
    · have hc : c.Type_ = NodeType.ElementNode := hc0.resolve_right (fun hn => hn.1 h2)
      have hend := scanH2_in_section_of_h2 st c hs h2
      rw [scanChild_eq, if_pos hend] at h
      simp only [Except.ok.injEq] at h
      subst h
      simp [isElementNamed, hc, h2, referenceHarvestFrom, scanH2_p]
    · have hst : scanH2 st c = st := scanH2_of_ne st c h2
      have htw : (c :: rest).takeWhile (fun c => !isElementNamed "h2" c)
          = c :: rest.takeWhile (fun c => !isElementNamed "h2" c) := by
        have hb2 : (c.Data == "h2") = false := by simpa using h2
        rw [List.takeWhile_cons]
        simp [isElementNamed, hb2]
      rw [htw]
      cases hstep : scanChild st c with
      | error f => simp [hstep] at h
      | ok r =>
        obtain ⟨st2, b⟩ := r
        have hinv2 := scanChild_inv st st2 c b hinv hstep
        have hh2 := scanChild_harvest st st2 c b hinv hh hstep
        obtain ⟨f1, f2⟩ := scanChild_flags st st2 c b hstep
        rw [hst] at f1 f2
        have hb : b = false := by
          cases b with
          | false => rfl
          | true =>
            have := (scanChild_break st st2 c hstep).1
            rw [f2, he] at this
            cases this
        subst hb
        simp only [hstep] at h
        have ihr := ih st2 hrest (by rw [f1]; exact hs) (by rw [f2]; exact he) hinv2 hh2 h
        rw [ihr]
        rw [scanChild_eq, hst, if_neg hne, if_pos hs] at hstep
        cases hhead : isElementHeading c with
        | true =>
          obtain ⟨tagNode, htag, h4⟩ := scanH4_of_heading st.p c hhead
          have hd4 := isElementHeading_data c hhead
          have hc : c.Type_ = NodeType.ElementNode :=
            hc0.resolve_right (fun hn => hn.2.1 hd4)
          have hp : ∀ p, scanP p c = .ok p := fun p => scanP_of_ne p c (by rw [hd4]; decide)
          rw [h4] at hstep
          cases hfc : tagNode.FirstChild with
          | none => simp [hfc] at hstep
          | some first =>
            simp only [hfc, hp, Except.ok.injEq, Prod.mk.injEq, and_true] at hstep
            subst hstep
            have hm : isMatchingSubHeading c = true := by
              simp [isMatchingSubHeading, hc, hhead]
            have htagc : subHeadingTag c = first.Data := by
              simp [subHeadingTag, htag, hfc]
            simp [referenceHarvestFrom, hm, htagc, pendingTag, Parser.Activate]
        | false =>
          have hm : isMatchingSubHeading c = false := by
            simp [isMatchingSubHeading, hhead]
          rw [scanH4_of_not_heading st.p c hhead] at hstep
          by_cases hpar : c.Data = "p"
          · have hc : c.Type_ = NodeType.ElementNode :=
              hc0.resolve_right (fun hn => hn.2.2 hpar)
            have hnp : isElementNamed "p" c = true := by simp [isElementNamed, hc, hpar]
            cases hact : st.p.active with
            | false =>
              simp only [scanP_of_inactive st.p c hact, Except.ok.injEq, Prod.mk.injEq,
                and_true] at hstep
              subst hstep
              simp [referenceHarvestFrom, hm, hnp, pendingTag, hact]
            | true =>
              cases hcur : st.p.currElement with
              | none => exact absurd hcur (hinv.curr hact)
              | some e =>
                obtain ⟨t, ht⟩ := hh.curr e hcur
                subst ht
                simp only [scanP_active st.p c _ hpar hact hinv.descParsed hcur,
                  Except.ok.injEq, Prod.mk.injEq, and_true] at hstep
                subst hstep
                simp [referenceHarvestFrom, hm, hnp, pendingTag, hact, hcur, scannedElement]
          · have hnp : isElementNamed "p" c = false := by simp [isElementNamed, hpar]
            simp only [scanP_of_ne st.p c hpar, Except.ok.injEq, Prod.mk.injEq,
              and_true] at hstep
            subst hstep
            simp [referenceHarvestFrom, hm, hnp]

/-- Before the section, when the children named `h2`, `h4` or `p` are element nodes, the
scan collects what the reference harvest collects from the whole list. -/
theorem scanLoop_before_section (l : List Node) (st st1 : ScanState)
    (hel : ∀ c ∈ l, c.Type_ = NodeType.ElementNode ∨
      (c.Data ≠ "h2" ∧ c.Data ≠ "h4" ∧ c.Data ≠ "p"))
    (hs : st.start = false) (he : st.end_ = false) (ha : st.p.active = false)
    (hinv : ScanInv st) (hh : HarvestInv st)
    (h : scanLoop st l = .ok st1) :
    st1.p.Spec.Elements
      = st.p.Spec.Elements
        ++ (referenceHarvest l).map (fun td => some (scannedElement td)) := by
  induction l generalizing st with
  | nil =>
    simp only [scanLoop, Except.ok.injEq] at h
    subst h
    simp [referenceHarvest, sectionChildren, referenceHarvestFrom]
  | cons c rest ih =>
    have hc0 := hel c (List.mem_cons_self _ _)
    have hrest : ∀ d ∈ rest, d.Type_ = NodeType.ElementNode ∨
        (d.Data ≠ "h2" ∧ d.Data ≠ "h4" ∧ d.Data ≠ "p") :=
      fun d hd => hel d (List.mem_cons_of_mem _ hd)
    have hne : ¬ st.end_ = true := by rw [he]; decide
    have hns : ¬ st.start = true := by rw [hs]; decide
    simp only [scanLoop] at h
    cases hsem : isSemanticsHeading c with
    | true =>
      have hsem2 := hsem
      simp only [isSemanticsHeading, isElementNamed, Bool.and_eq_true, beq_iff_eq] at hsem2
      obtain ⟨⟨_, hd⟩, hattr⟩ := hsem2
      have hid : (getIDIndex c.Attr "id" "semantics").2 = true := by
        rw [getIDIndex_snd, hattr]; simp
      have h4 : ∀ p, scanH4 p c = .ok p := fun p => scanH4_of_ne p c (by rw [hd]; decide)
      have hp : ∀ p, scanP p c = .ok p := fun p => scanP_of_ne p c (by rw [hd]; decide)
      have hst : scanH2 st c = { st with start := true } := by
        simp [scanH2, hd, hs, hid]
      have hstep : scanChild st c = .ok ({ st with start := true }, false) := by
        rw [scanChild_eq, hst]
        simp [he, h4, hp]
      simp only [hstep] at h
      have hinv2 := scanChild_inv st _ c false hinv hstep
      have hh2 := scanChild_harvest st _ c false hinv hh hstep
      have hsec := scanLoop_in_section rest { st with start := true } st1 hrest rfl he hinv2
        hh2 h
      rw [hsec]
      have hpend : pendingTag st.p = none := by simp [pendingTag, ha]
      simp [referenceHarvest, sectionChildren, List.dropWhile, hsem, hpend]
    | false =>
      have hst : scanH2 st c = st := by
        by_cases hd : c.Data = "h2"
        · have hc : c.Type_ = NodeType.ElementNode := hc0.resolve_right (fun hn => hn.1 hd)
          have hid : (getIDIndex c.Attr "id" "semantics").2 = false := by
            rw [getIDIndex_snd]
            simpa [isSemanticsHeading, isElementNamed, hc, hd] using hsem
          simp [scanH2, hd, hs, hid]
        · exact scanH2_of_ne st c hd
      have hstep : scanChild st c = .ok (st, false) := by
        rw [scanChild_eq, hst, if_neg hne, if_neg hns]
      simp only [hstep] at h
      rw [ih st hrest hs he ha hinv hh h]
      simp [referenceHarvest, sectionChildren, List.dropWhile, hsem]

/-- On body children whose nodes named `h2`, `h4` or `p` are all element nodes, whenever `GenerateHTMLSpec` returns a
Spec, its Elements are the classified elements of the reference harvest followed by the
heading elements. -/
theorem GenerateHTMLSpec_agrees_with_reference (doc body : Node) (sp : Spec)
    (hb : findTag (some doc) "body" = some body)
    (hel : ∀ c ∈ body.ChildNodes, c.Type_ = NodeType.ElementNode ∨
      (c.Data ≠ "h2" ∧ c.Data ≠ "h4" ∧ c.Data ≠ "p"))
    (h : GenerateHTMLSpec doc = .ok sp) :
    sp.Elements
      = (referenceHarvest body.ChildNodes).map (fun td => some (classify (scannedElement td)))
        ++ headingElements := by
  rw [GenerateHTMLSpec_of_body doc body hb, generateFromBody] at h
  cases hs : scanLoop { p := initialParser } body.ChildNodes with
  | error f => simp [hs] at h
  | ok st =>
    have hharv := scanLoop_harvest _ _ _ initial_inv initial_harvest hs
    obtain ⟨scanned, hes, hcs⟩ := classifyAll_scanned _ hharv.elems
    have hagree := scanLoop_before_section body.ChildNodes _ st hel rfl rfl rfl initial_inv
      initial_harvest hs
    have hinit : ({ p := initialParser } : ScanState).p.Spec.Elements = [] := rfl
    rw [hinit, List.nil_append, hes] at hagree
    have hinj : scanned = referenceHarvest body.ChildNodes := by
      have hf : Function.Injective (fun td : String × String => some (scannedElement td)) := by
        intro a b hab
        simp only [Option.some.injEq, scannedElement, Element.mk.injEq] at hab
        exact Prod.ext hab.1 hab.2.1
      exact List.map_injective_iff.mpr hf hagree
    simp only [hs, finishSpec, hcs, Except.ok.injEq] at h
    rw [← h, hinj]

/-! ## The whitespace cleaning -/

theorem removeAllChars_of_not_contains (old l : List Char)
    (h : containsChars l old = false) : removeAllChars old 0 l = l := by
  induction l with
  | nil => rfl
  | cons c cs ih =>
    simp only [containsChars, Bool.or_eq_false_iff] at h
    simp only [removeAllChars, h.1, Bool.false_eq_true, if_false, ih h.2]

theorem startsWith_short_of_long (l : List Char)
    (h : startsWith l ['\n', ' ', ' ', ' '] = true) : startsWith l ['\n', ' '] = true := by
  match l with
  | [] => simp [startsWith] at h
  | [_] => simp [startsWith] at h
  | a :: b :: rest =>
    simp only [startsWith, Bool.and_eq_true, beq_iff_eq] at h ⊢
    exact ⟨h.1, h.2.1, trivial⟩

theorem containsChars_short_of_long (l : List Char)
    (h : containsChars l ['\n', ' '] = false) :
    containsChars l ['\n', ' ', ' ', ' '] = false := by
  induction l with
  | nil => rfl
  | cons c cs ih =>
    simp only [containsChars, Bool.or_eq_false_iff] at h ⊢
    refine ⟨?_, ih h.2⟩
    cases hs : startsWith (c :: cs) ['\n', ' ', ' ', ' '] with
    | false => rfl
    | true =>
      have := startsWith_short_of_long _ hs
      rw [h.1] at this
      cases this

theorem cleanText_of_clean (x : String) (h : strings_Contains x "\n " = false) :
    cleanText x = x := by
  have h2 : containsChars x.toList ['\n', ' '] = false := h
  have h3 := containsChars_short_of_long _ h2
  have e1 : strings_RemoveAll x "\n   " = x := by
    show String.mk (removeAllChars ['\n', ' ', ' ', ' '] 0 x.toList) = x
    rw [removeAllChars_of_not_contains _ _ h3]
    cases x; rfl
  show strings_RemoveAll (strings_RemoveAll x "\n   ") "\n " = x
  rw [e1]
  show String.mk (removeAllChars ['\n', ' '] 0 x.toList) = x
  rw [removeAllChars_of_not_contains _ _ h2]
  cases x; rfl

/-- C31 (counterexample): the text of two newlines and two spaces is cleaned to a newline
followed by a space, and cleaning that again gives the empty text. -/
theorem C31_cleaning_twice_differs :
    cleanText "\n\n  " = "\n " ∧
    strings_Contains (cleanText "\n\n  ") "\n " = true ∧
    cleanText (cleanText "\n\n  ") = "" ∧
    cleanText (cleanText "\n\n  ") ≠ cleanText "\n\n  " := by
  decide

/-- C31 (amended): cleaning is a fixed point on every text that holds no newline
immediately followed by a space; so cleaning the cleaned text changes nothing whenever the
cleaned text holds no such pair. A removal can bring a newline and a space together, so
the cleaned text may hold the pair. -/
theorem C31_clean_fixed_on_clean_text (d : String)
    (h : strings_Contains (cleanText d) "\n " = false) :
    cleanText (cleanText d) = cleanText d :=
  cleanText_of_clean (cleanText d) h

/-- Witness of C31 (amended): an indented line break inside a description. -/
theorem C31_clean_fixed_on_clean_text_witness :
    cleanText (cleanText "The img element\n   represents an image.")
      = cleanText "The img element\n   represents an image." :=
  C31_clean_fixed_on_clean_text "The img element\n   represents an image." (by decide)

/-! ## The static catalogue -/

/-- C33: every enumerated attribute of the static catalogue, in `GlobalAttributes`, among
the shared package-level attributes and in every list of `attrFuncs`, has an allowed set
whose tokens are not empty and hold no ASCII uppercase letter. -/
theorem C33_allowed_tokens_lowercase :
    (∀ a ∈ GlobalAttributes, ∀ e, a = Attribute.enum e → ∀ s, e.Allowed = some s →
      ∀ tok ∈ s, tok ≠ "" ∧ ∀ c ∈ tok.toList, c.isUpper = false) ∧
    (∀ a ∈ sharedAttributes, ∀ e, a = Attribute.enum e → ∀ s, e.Allowed = some s →
      ∀ tok ∈ s, tok ≠ "" ∧ ∀ c ∈ tok.toList, c.isUpper = false) ∧
    (∀ entry ∈ attrFuncsEntries, ∀ a ∈ entry.2, ∀ e, a = Attribute.enum e →
      ∀ s, e.Allowed = some s →
      ∀ tok ∈ s, tok ≠ "" ∧ ∀ c ∈ tok.toList, c.isUpper = false) := by
  have key : ∀ a : Attribute, a.allowedIsLowercase = true → ∀ e, a = Attribute.enum e →
      ∀ s, e.Allowed = some s → ∀ tok ∈ s, tok ≠ "" ∧ ∀ c ∈ tok.toList, c.isUpper = false := by
    intro a ha e he s hs tok htok
    subst he
    simp only [Attribute.allowedIsLowercase, hs, decide_eq_true_eq] at ha
    have := ha tok htok
    simp only [tokenIsLowercase, Bool.and_eq_true, bne_iff_ne, ne_eq, List.all_eq_true,
      Bool.not_eq_true'] at this
    exact this
  have h1 : GlobalAttributes.all Attribute.allowedIsLowercase = true := by decide
  have h2 : sharedAttributes.all Attribute.allowedIsLowercase = true := by decide
  have h3 : attrFuncsEntries.all (fun entry => entry.2.all Attribute.allowedIsLowercase)
      = true := by decide
  refine ⟨fun a ha => key a (List.all_eq_true.mp h1 a ha),
    fun a ha => key a (List.all_eq_true.mp h2 a ha),
    fun entry he a ha => key a (List.all_eq_true.mp (List.all_eq_true.mp h3 entry he) a ha)⟩

/-- C34 (code defect): the lists of `td` and `th` hold attributes named `span`, `rowspan`
and `headers`; none is named `colspan`. The package-level attribute `colspan` carries the
name `span`. -/
theorem C34_colspan_is_named_span :
    colspan.GetName = some "span" ∧
    tdAttr.map Attribute.GetName = [some "span", some "rowspan", some "headers"] ∧
    thAttr.map Attribute.GetName
      = [some "span", some "rowspan", some "headers", some "scope", some "abbr"] ∧
    some "colspan" ∉ tdAttr.map Attribute.GetName ∧
    some "colspan" ∉ thAttr.map Attribute.GetName ∧
    attrFuncs "td" = some tdAttr ∧ attrFuncs "th" = some thAttr := by
  refine ⟨rfl, rfl, rfl, by decide, by decide, rfl, rfl⟩

/-! ## The helpers of `parser.go` -/

mutual
theorem findTagNode_eq (n : Node) (tag : String) :
    findTagNode n tag = (preorder n).find? (isElementNamed tag) := by
  match n with
  | .mk t d a cs =>
    have ih := findTagChildren_eq cs tag
    by_cases h : t = NodeType.ElementNode ∧ d = tag
    · simp [findTagNode, preorder, isElementNamed, Node.Type_, Node.Data, h.1, h.2]
    · have hf : isElementNamed tag (Node.mk t d a cs) = false := by
        simp only [isElementNamed, Node.Type_, Node.Data, Bool.and_eq_false_iff, beq_eq_false_iff_ne,
          ne_eq]
        by_cases ht : t = NodeType.ElementNode
        · exact Or.inr (fun hd => h ⟨ht, hd⟩)
        · exact Or.inl ht
      simp [findTagNode, preorder, h, hf, ih]
theorem findTagChildren_eq (cs : List Node) (tag : String) :
    findTagChildren cs tag = (preorderOfList cs).find? (isElementNamed tag) := by
  match cs with
  | [] => simp [findTagChildren, preorderOfList]
  | c :: rest =>
    have ih1 := findTagNode_eq c tag
    have ih2 := findTagChildren_eq rest tag
    rw [findTagChildren, preorderOfList, List.find?_append, ← ih1, ← ih2]
    cases findTagNode c tag <;> rfl
end

/-- C38: for every tree and tag name `findTag` returns the first node in depth-first
pre-order, the root included, that is an element node with that name; it returns nil
exactly when the tree holds no such node, and also for a nil root. -/
theorem C38_findTag_first_in_preorder (root : Option Node) (n : Node) (tag : String) :
    findTag root tag = firstElementNamed root tag ∧
    (findTag (some n) tag = none ↔ ∀ m ∈ preorder n, isElementNamed tag m = false) ∧
    (∀ r, findTag (some n) tag = some r → r ∈ preorder n ∧ isElementNamed tag r = true) ∧
    findTag none tag = none := by
  have h1 : findTag (some n) tag = (preorder n).find? (isElementNamed tag) :=
    findTagNode_eq n tag
  refine ⟨?_, ?_, ?_, rfl⟩
  · cases root with
    | none => rfl
    | some m => exact findTagNode_eq m tag
  · rw [h1, List.find?_eq_none]
    simp
  · intro r hr
    rw [h1] at hr
    exact ⟨List.mem_of_find?_eq_some hr, List.find?_some hr⟩

theorem getIDIndex_cases (attrs : List HtmlAttribute) (k v : String) :
    getIDIndex attrs k v = (-1, false) ∨
    getIDIndex attrs k v = (indexFunc (fun attr : HtmlAttribute => attr.Key == k) attrs, true) := by
  simp only [getIDIndex]
  split
  · split
    · split
      · exact Or.inr rfl
      · exact Or.inl rfl
    · exact Or.inl rfl
  · exact Or.inl rfl

/-- C39: `getIDIndex` returns an index with the flag set exactly when `getAttribute`
returns the value with the flag set; the index is then that of the first attribute with
the key, which holds the value. Otherwise `getIDIndex` returns -1 and no flag, also when a
later attribute with the key holds the value. -/
theorem C39_getIDIndex_agrees_with_getAttribute (attrs : List HtmlAttribute) (k v : String) :
    ((getIDIndex attrs k v).2 = true ↔ getAttribute attrs k = (v, true)) ∧
    ((getAttribute attrs k ≠ (v, true) ∧ getIDIndex attrs k v = (-1, false)) ∨
     (∃ i : Nat, ∃ a, getIDIndex attrs k v = ((i : Int), true) ∧ attrs.get? i = some a ∧
        a.Key = k ∧ a.Val = v ∧ ∀ j b, j < i → attrs.get? j = some b → b.Key ≠ k)) ∧
    getIDIndex [{ Key := "id", Val := "intro" }, { Key := "id", Val := "semantics" }]
        "id" "semantics" = (-1, false) := by
  refine ⟨?_, ?_, by decide⟩
  · rw [getIDIndex_snd]
    simp
  · induction attrs with
    | nil => left; simp [getIDIndex, indexFunc, getAttribute]
    | cons a as ih =>
      by_cases h : a.Key = k
      · by_cases hv : a.Val = v
        · right
          refine ⟨0, a, ?_, rfl, h, hv, fun j b hj => absurd hj (Nat.not_lt_zero j)⟩
          simp [getIDIndex, indexFunc, h, hv]
        · left
          simp [getIDIndex, indexFunc, getAttribute, h, hv]
      · have hf : (a.Key == k) = false := by simpa using h
        have hsnd := getIDIndex_cons_of_ne a as k v h
        rcases ih with ⟨h1, h2⟩ | ⟨i, b, h1, h2, h3, h4, h5⟩
        · left
          refine ⟨by simpa [getAttribute, h] using h1, ?_⟩
          rcases getIDIndex_cases (a :: as) k v with hc | hc
          · exact hc
          · rw [hc, h2] at hsnd
            cases hsnd
        · right
          have hidx : indexFunc (fun attr : HtmlAttribute => attr.Key == k) as = (i : Int) := by
            rcases getIDIndex_cases as k v with hc | hc
            · rw [hc] at h1; cases h1
            · rw [hc] at h1
              exact (Prod.mk.inj h1).1
          refine ⟨i + 1, b, ?_, by simpa using h2, h3, h4, ?_⟩
          · rcases getIDIndex_cases (a :: as) k v with hc | hc
            · rw [hc, h1] at hsnd
              cases hsnd
            · rw [hc]
              have hne : ¬ ((i : Int) = -1) := by omega
              simp [indexFunc, hf, hidx, hne]
          · intro j c hj hc
            cases j with
            | zero =>
              simp only [List.get?_cons_zero, Option.some.injEq] at hc
              subst hc
              exact h
            | succ j =>
              simp only [List.get?_cons_succ] at hc
              exact h5 j c (by omega) hc

/-! ## The body, and the parser under arbitrary calls -/

theorem scanP_error (p : Parser) (c : Node) (f : Failure)
    (h : scanP p c = .error f) : f = Failure.nilDeref := by
  unfold scanP at h
  by_cases hd : c.Data = "p"
  · by_cases ha : (p.active && !p.descParsed) = true
    · cases he : p.currElement with
      | none =>
        simp only [hd, ha, he, if_true] at h
        injection h with h; exact h.symm
      | some e => simp [hd, ha, he] at h
    · simp [hd, ha] at h
  · simp [hd] at h

theorem scanChild_error (st : ScanState) (c : Node) (f : Failure)
    (h : scanChild st c = .error f) : f = Failure.nilDeref := by
  rw [scanChild_eq] at h
  split at h
  · cases h
  · split at h
    · cases h4 : scanH4 (scanH2 st c).p c with
      | error g =>
        simp only [h4, Except.error.injEq] at h
        rw [← h]
        rcases scanH4_cases (scanH2 st c).p c with h5 | h5 | ⟨t, h5⟩
        · rw [h5] at h4; cases h4
        · rw [h5] at h4; injection h4 with h4; exact h4.symm
        · rw [h5] at h4; cases h4
      | ok p1 =>
        simp only [h4] at h
        cases hp : scanP p1 c with
        | error g =>
          simp only [hp, Except.error.injEq] at h
          rw [← h]
          exact scanP_error p1 c g hp
        | ok p2 => simp [hp] at h
    · cases h

theorem scanLoop_error (l : List Node) (st : ScanState) (f : Failure)
    (h : scanLoop st l = .error f) : f = Failure.nilDeref := by
  induction l generalizing st with
  | nil => cases h
  | cons c rest ih =>
    simp only [scanLoop] at h
    cases hc : scanChild st c with
    | error g =>
      simp only [hc, Except.error.injEq] at h
      rw [← h]
      exact scanChild_error st c g hc
    | ok r =>
      obtain ⟨st1, b⟩ := r
      cases b with
      | true => simp [hc] at h
      | false => simp only [hc] at h; exact ih st1 h

theorem classifyAll_error (es : List (Option Element)) (f : Failure)
    (h : classifyAll es = .error f) : f = Failure.nilDeref := by
  induction es generalizing f with
  | nil => cases h
  | cons x rest ih =>
    cases x with
    | none => simp only [classifyAll, Except.error.injEq] at h; exact h.symm
    | some e =>
      simp only [classifyAll] at h
      cases hr : classifyAll rest with
      | error g => simp only [hr, Except.error.injEq] at h; rw [← h]; exact ih g hr
      | ok cs => simp [hr] at h

theorem generateFromBody_error (children : List Node) (f : Failure)
    (h : generateFromBody children = .error f) : f = Failure.nilDeref := by
  unfold generateFromBody at h
  cases hs : scanLoop { p := initialParser } children with
  | error g => simp only [hs, Except.error.injEq] at h; rw [← h]; exact scanLoop_error _ _ g hs
  | ok st =>
    simp only [hs, finishSpec] at h
    cases hc : classifyAll st.p.Spec.Elements with
    | error g => simp only [hc, Except.error.injEq] at h; rw [← h]; exact classifyAll_error _ g hc
    | ok es => simp [hc] at h

/-- C35: `GenerateHTMLSpec` returns the error `could not find body`, and no Spec, exactly
when the document tree holds no element node named `body`; when it holds one, the run is
the scan over the children of the first such node in document order. -/
theorem C35_body_not_found_iff_no_body (doc : Node) :
    (GenerateHTMLSpec doc = .error (Failure.err "could not find body") ↔
      ∀ m ∈ preorder doc, isElementNamed "body" m = false) ∧
    (∀ body, firstElementNamed (some doc) "body" = some body →
      GenerateHTMLSpec doc = generateFromBody body.ChildNodes) := by
  have hfind : findTag (some doc) "body" = firstElementNamed (some doc) "body" :=
    findTagNode_eq doc "body"
  have hnone : findTag (some doc) "body" = none ↔
      ∀ m ∈ preorder doc, isElementNamed "body" m = false := by
    rw [hfind, firstElementNamed, List.find?_eq_none]
    simp
  constructor
  · constructor
    · intro h
      cases hb : findTag (some doc) "body" with
      | none => exact hnone.mp hb
      | some body =>
        rw [GenerateHTMLSpec_of_body doc body hb] at h
        have := generateFromBody_error _ _ h
        cases this
    · intro h
      simp [GenerateHTMLSpec, hnone.mpr h]
  · intro body hb
    rw [← hfind] at hb
    exact GenerateHTMLSpec_of_body doc body hb

theorem runCalls_invariant (calls : List ParserCall) (p : Parser)
    (h1 : p.active = true ↔ p.currElement ≠ none) (h2 : p.descParsed = false) :
    ((runCalls p calls).active = true ↔ (runCalls p calls).currElement ≠ none) ∧
    (runCalls p calls).descParsed = false := by
  induction calls generalizing p with
  | nil => exact ⟨h1, h2⟩
  | cons c rest ih =>
    cases c with
    | Activate t =>
      exact ih (p.Activate t) (by simp [Parser.Activate]) (by simpa [Parser.Activate] using h2)
    | Reset => exact ih p.Reset (by simp [Parser.Reset]) (by simp [Parser.Reset])

/-- C36: in every state reached from `NewSpecParser` by calls of `Activate` and `Reset`,
active is true exactly when currElement is not nil, and descParsed is false; `Reset`
leaves descParsed false. In the scan of `GenerateHTMLSpec` descParsed is false before
every child is looked at, so there the guard `active && !descParsed` equals `active`. -/
theorem C36_parser_state_invariant (name : NameType) (calls : List ParserCall) (p : Parser)
    (scanned : List Node) :
    ((runCalls (NewSpecParser name) calls).active = true ↔
      (runCalls (NewSpecParser name) calls).currElement ≠ none) ∧
    (runCalls (NewSpecParser name) calls).descParsed = false ∧
    p.Reset.descParsed = false ∧
    (∀ st, scanAll { p := initialParser } scanned = .ok st →
      st.p.descParsed = false ∧ (st.p.active && !st.p.descParsed) = st.p.active) := by
  obtain ⟨h1, h2⟩ := runCalls_invariant calls (NewSpecParser name)
    (by simp [NewSpecParser]) rfl
  refine ⟨h1, h2, rfl, fun st hst => ?_⟩
  have hinv := scanAll_inv scanned _ st initial_inv hst
  exact ⟨hinv.descParsed, by simp [hinv.descParsed]⟩

theorem runCalls_elements (calls : List ParserCall) (p : Parser) :
    (runCalls p calls).Spec.Elements.length = p.Spec.Elements.length + countResets calls := by
  induction calls generalizing p with
  | nil => rfl
  | cons c rest ih =>
    cases c with
    | Activate t => simp [runCalls, countResets, ih, Parser.Activate]
    | Reset =>
      simp only [runCalls, countResets, ih, Parser.Reset, List.length_append,
        List.length_singleton]
      omega

theorem runCalls_no_nil (calls : List ParserCall) (p : Parser) (active : Bool)
    (hseq : resetsFollowActivate active calls = true)
    (hcur : active = true → p.currElement ≠ none)
    (hel : ∀ x ∈ p.Spec.Elements, x ≠ none) :
    ∀ x ∈ (runCalls p calls).Spec.Elements, x ≠ none := by
  induction calls generalizing p active with
  | nil => exact hel
  | cons c rest ih =>
    cases c with
    | Activate t =>
      exact ih (p.Activate t) true hseq (fun _ => by simp [Parser.Activate]) hel
    | Reset =>
      simp only [resetsFollowActivate, Bool.and_eq_true] at hseq
      refine ih p.Reset false hseq.2 (fun h => by cases h) ?_
      intro x hx
      simp only [Parser.Reset, List.mem_append, List.mem_singleton] at hx
      rcases hx with hx | hx
      · exact hel x hx
      · rw [hx]; exact hcur hseq.1

/-- C37 (counterexample): a single `Reset` on a new parser appends the nil current
element: `Spec.Elements` is one nil entry. -/
theorem C37_reset_without_activate_appends_nil :
    (runCalls (NewSpecParser HTML) [ParserCall.Reset]).Spec.Elements = [none] := by
  rfl

/-- C37 (amended): after any sequence of calls of `Activate` and `Reset` on a new parser
in which every `Reset` follows an `Activate` with no other `Reset` in between, as in
`GenerateHTMLSpec`, `Spec.Elements` holds no nil entry, and its length is the number of
`Reset` calls made. -/
theorem C37_elements_after_paired_calls (name : NameType) (calls : List ParserCall)
    (h : resetsFollowActivate false calls = true) :
    (∀ x ∈ (runCalls (NewSpecParser name) calls).Spec.Elements, x ≠ none) ∧
    (runCalls (NewSpecParser name) calls).Spec.Elements.length = countResets calls := by
  refine ⟨runCalls_no_nil calls (NewSpecParser name) false h (fun hf => by cases hf)
    (fun x hx => by simp [NewSpecParser] at hx), ?_⟩
  rw [runCalls_elements]
  simp [NewSpecParser]

/-- Witness of C37 (amended): two records, the second started twice. -/
theorem C37_elements_after_paired_calls_witness :
    (∀ x ∈ (runCalls (NewSpecParser HTML)
        [ParserCall.Activate "img", ParserCall.Reset, ParserCall.Activate "p",
         ParserCall.Activate "br", ParserCall.Reset]).Spec.Elements, x ≠ none) ∧
    (runCalls (NewSpecParser HTML)
        [ParserCall.Activate "img", ParserCall.Reset, ParserCall.Activate "p",
         ParserCall.Activate "br", ParserCall.Reset]).Spec.Elements.length
      = countResets
        [ParserCall.Activate "img", ParserCall.Reset, ParserCall.Activate "p",
         ParserCall.Activate "br", ParserCall.Reset] :=
  C37_elements_after_paired_calls HTML _ (by decide)

/-! ## The round trip, twice -/

/-- C32: the round trip is a normalisation reached after one pass. For every Spec `s`
and all receivers, decoding the encoding of `s` succeeds with a result `r`, and decoding
the encoding of `r` succeeds with `r` again: the same name, the same elements and the
same global attributes, field by field. -/
theorem C32_round_trip_reached_after_one_pass (s sp0 sp1 : Spec) :
    (Spec.UnmarshalJSON sp0 s.marshal).2 = none ∧
    Spec.UnmarshalJSON sp1 (Spec.UnmarshalJSON sp0 s.marshal).1.marshal
      = ((Spec.UnmarshalJSON sp0 s.marshal).1, none) := by
  rw [Spec_UnmarshalJSON_roundTrip sp0 s]
  refine ⟨rfl, ?_⟩
  rw [Spec_UnmarshalJSON_roundTrip sp1 (roundTripSpec s), roundTripSpec_idem]

end Htemel
